import Mathlib

/-! nklang front end: tokenizer and lookup analysis.

A shallow embedding of `lexer/scanner.go` and `semantics/analyze.go`.

* Package `lexer`: the `bufio.Reader` the scanner pulls runes from is a finite
  list of unread runes together with the rune that `UnreadRune` may push back.
  Go's `error` results are values of `lexer.Error`; a mutating method returns
  the new receiver next to its result.
* Package `semantics`: the analysis mutates the syntax tree (it stores
  `ScopeIndex`) and the scope objects (it declares names).  Both are passed
  explicitly: every analysis function returns the scope, the tree and the
  error it ends with.
-/

namespace lexer

/-! ## Tokens and errors -/

/-- Token kinds used by `scanner.go` (the constants of the `Token.Type` field). -/
inductive TokenType where
  | EOF
  | String
  | Identifier
  | Integer
  | DeclarationOperator
  | AssignmentOperator
  | Semicolon
  | LeftParen
  | RightParen
  | MultiplicationOperator
  | DivisionOperator
  | AdditionOperator
  | SubstractionOperator
deriving DecidableEq, Repr

/-- Go `Token{Type, Value}`; the field `Type` is spelled `Typ` here. -/
structure Token where
  Typ : TokenType
  Value : String
deriving DecidableEq, Repr

/-- Go `error` values that can come out of the scanner: `io.EOF`,
`bufio.ErrInvalidUnreadRune` and the results of `fmt.Errorf`. -/
inductive Error where
  | EOF
  | ErrInvalidUnreadRune
  | Errorf (msg : String)
deriving DecidableEq, Repr

/-! ## Rune classification -/

/-- The three predicates of Go's `unicode` package that the scanner calls.
Their tables are not part of the repository, so they are a parameter. -/
structure UnicodeTables where
  IsSpace : Char → Bool
  IsLetter : Char → Bool
  IsDigit : Char → Bool

/-- ASCII letters `A-Z`, `a-z`. -/
def asciiIsLetter (c : Char) : Bool :=
  (65 ≤ c.toNat && c.toNat ≤ 90) || (97 ≤ c.toNat && c.toNat ≤ 122)

/-- ASCII digits `0-9`. -/
def asciiIsDigit (c : Char) : Bool :=
  48 ≤ c.toNat && c.toNat ≤ 57

/-- ASCII white space as `unicode.IsSpace` has it: tab, line feed, vertical
tab, form feed, carriage return, space. -/
def asciiIsSpace (c : Char) : Bool :=
  (9 ≤ c.toNat && c.toNat ≤ 13) || c.toNat = 32

/-- The tables restricted to ASCII: every rune from 128 on is in no class.
They agree with Go's tables on ASCII input and serve to evaluate the scanner
on concrete ASCII programs. -/
def asciiTables : UnicodeTables where
  IsSpace := asciiIsSpace
  IsLetter := asciiIsLetter
  IsDigit := asciiIsDigit

/-- Facts about Go's `unicode` tables that the proofs rely on: on ASCII they
are the ASCII classes, and the three classes are pairwise disjoint. -/
structure UnicodeTables.Standard (U : UnicodeTables) : Prop where
  space_ascii : ∀ c : Char, c.toNat < 128 → U.IsSpace c = asciiIsSpace c
  letter_ascii : ∀ c : Char, c.toNat < 128 → U.IsLetter c = asciiIsLetter c
  digit_ascii : ∀ c : Char, c.toNat < 128 → U.IsDigit c = asciiIsDigit c
  letter_not_digit : ∀ c : Char, U.IsLetter c = true → U.IsDigit c = false
  space_not_letter : ∀ c : Char, U.IsSpace c = true → U.IsLetter c = false
  space_not_digit : ∀ c : Char, U.IsSpace c = true → U.IsDigit c = false

/-! ## The buffered reader -/

/-- A `bufio.Reader` over a finite input: the runes not yet read, and the rune
returned by the last operation when that operation was a successful `ReadRune`
(what `UnreadRune` can push back). -/
structure Reader where
  unread : List Char
  lastRune : Option Char
deriving DecidableEq, Repr

/-- `bufio.NewReader`: nothing read yet. -/
def NewReader (input : List Char) : Reader :=
  { unread := input, lastRune := none }

/-- `(*bufio.Reader).ReadRune`: the next rune, or `io.EOF` when none is left.
The input is finite and its end is final: once no rune is left, every read
returns `io.EOF`, and no other read error occurs. Runes that the underlying
`io.Reader` yields after it has returned `io.EOF` enter through `feed`. -/
def ReadRune (rd : Reader) : Except Error Char × Reader :=
  match rd.unread with
  | [] => (.error .EOF, { unread := [], lastRune := none })
  | r :: rest => (.ok r, { unread := rest, lastRune := some r })

/-- `(*bufio.Reader).UnreadRune`: pushes the last rune back, and fails when the
last operation was not a successful `ReadRune`. -/
def UnreadRune (rd : Reader) : Option Error × Reader :=
  match rd.lastRune with
  | none => (some .ErrInvalidUnreadRune, rd)
  | some r => (none, { unread := r :: rd.unread, lastRune := none })

/-! ## The scanner -/

/-- Go `Scanner{rd, Token}`; `Token` is `none` for the nil pointer. -/
structure Scanner where
  rd : Reader
  Token : Option Token
deriving DecidableEq, Repr

/-- `NewScanner` over a finite input. -/
def NewScanner (input : List Char) : Scanner :=
  { rd := NewReader input, Token := none }

/-- The double quote, rune 34. -/
def quote : Char := Char.ofNat 34

/-- `scanString`, as a loop over the unread runes with the accumulated `s`:
each step is one `ReadRune`. -/
def scanStringLoop : List Char → String → Except Error String × Reader
  | [], _ => (.error .EOF, { unread := [], lastRune := none })
  | r :: rest, s =>
    if r = quote then
      (.ok s, { unread := rest, lastRune := some r })
    else
      scanStringLoop rest (s ++ String.singleton r)

/-- `scanString(rd)`. -/
def scanString (rd : Reader) : Except Error String × Reader :=
  scanStringLoop rd.unread ""

/-- `scanIdentifier`, as a loop over the unread runes with the accumulated
`s`: each step is one `ReadRune`, and the first rune outside the class is
handed to `UnreadRune`. -/
def scanIdentifierLoop (U : UnicodeTables) : List Char → String → Except Error String × Reader
  | [], _ => (.error .EOF, { unread := [], lastRune := none })
  | r :: rest, s =>
    if !U.IsLetter r && !U.IsDigit r && r != '_' then
      match UnreadRune { unread := rest, lastRune := some r } with
      | (some err, rd) => (.error err, rd)
      | (none, rd) => (.ok s, rd)
    else
      scanIdentifierLoop U rest (s ++ String.singleton r)

/-- `scanIdentifier(rd)`. -/
def scanIdentifier (U : UnicodeTables) (rd : Reader) : Except Error String × Reader :=
  scanIdentifierLoop U rd.unread ""

/-- The part of `readNext` after the white-space loop: `r` is the first rune
that is not white space, `rd` the reader after reading it, `tok` the token the
scanner holds. -/
def readNextDispatch (U : UnicodeTables) (tok : Option Token) (r : Char) (rd : Reader) :
    Option Error × Scanner :=
  if r = quote then
    match scanString rd with
    | (.error err, rd) => (some err, { rd := rd, Token := tok })
    | (.ok v, rd) => (none, { rd := rd, Token := some { Typ := .String, Value := v } })
  else if U.IsLetter r || r = '_' then
    match scanIdentifier U rd with
    | (.error err, rd) => (some err, { rd := rd, Token := tok })
    | (.ok v, rd) =>
      (none, { rd := rd, Token := some { Typ := .Identifier, Value := String.singleton r ++ v } })
  else if U.IsDigit r then
    match scanIdentifier U rd with
    | (.error err, rd) => (some err, { rd := rd, Token := tok })
    | (.ok v, rd) =>
      (none, { rd := rd, Token := some { Typ := .Integer, Value := String.singleton r ++ v } })
  else if r = ':' then
    match ReadRune rd with
    | (.error err, rd) => (some err, { rd := rd, Token := tok })
    | (.ok r, rd) =>
      if r ≠ '=' then
        (some (.Errorf ("Unexpected symbol " ++ String.singleton r)), { rd := rd, Token := tok })
      else
        (none, { rd := rd, Token := some { Typ := .DeclarationOperator, Value := ":=" } })
  else if r = '=' then
    (none, { rd := rd, Token := some { Typ := .AssignmentOperator, Value := "=" } })
  else if r = ';' then
    (none, { rd := rd, Token := some { Typ := .Semicolon, Value := ";" } })
  else if r = '(' then
    (none, { rd := rd, Token := some { Typ := .LeftParen, Value := "(" } })
  else if r = ')' then
    (none, { rd := rd, Token := some { Typ := .RightParen, Value := ")" } })
  else if r = '*' then
    (none, { rd := rd, Token := some { Typ := .MultiplicationOperator, Value := "*" } })
  else if r = '/' then
    (none, { rd := rd, Token := some { Typ := .DivisionOperator, Value := "/" } })
  else if r = '+' then
    (none, { rd := rd, Token := some { Typ := .AdditionOperator, Value := "+" } })
  else if r = '-' then
    (none, { rd := rd, Token := some { Typ := .SubstractionOperator, Value := "-" } })
  else
    (some (.Errorf ("Unexpected symbol " ++ String.singleton r)), { rd := rd, Token := tok })

/-- The white-space loop of `readNext` over the unread runes, followed by the
dispatch on the first rune that is not white space. -/
def readNextLoop (U : UnicodeTables) (tok : Option Token) : List Char → Option Error × Scanner
  | [] => (some .EOF, { rd := { unread := [], lastRune := none }, Token := tok })
  | r :: rest =>
    if U.IsSpace r then
      readNextLoop U tok rest
    else
      readNextDispatch U tok r { unread := rest, lastRune := some r }

/-- `(*Scanner).readNext`. -/
def readNext (U : UnicodeTables) (s : Scanner) : Option Error × Scanner :=
  readNextLoop U s.Token s.rd.unread

/-- `(*Scanner).ReadNext`: `io.EOF` from `readNext` becomes the token `EOF`. -/
def ReadNext (U : UnicodeTables) (s : Scanner) : Option Error × Scanner :=
  match readNext U s with
  | (some .EOF, s) => (none, { s with Token := some { Typ := .EOF, Value := "EOF" } })
  | (err, s) => (err, s)

/-- The scanner after `n` calls of `ReadNext`, whatever they returned. -/
def afterCalls (U : UnicodeTables) (s : Scanner) : Nat → Scanner
  | 0 => s
  | n + 1 => (ReadNext U (afterCalls U s n)).2

/-- What the call of `ReadNext` number `n` (counted from 0) returns on a scanner
that starts as `s`, with the scanner it leaves. -/
def callResult (U : UnicodeTables) (s : Scanner) (n : Nat) : Option Error × Scanner :=
  ReadNext U (afterCalls U s n)

/-- The end-of-input token `ReadNext` installs. -/
def eofToken : Token := { Typ := .EOF, Value := "EOF" }

/-- A rune of the class `[A-Za-z_]`. -/
def isLexemeStart (c : Char) : Bool :=
  asciiIsLetter c || c = '_'

/-- A rune of the class `[A-Za-z0-9_]`. -/
def isLexemePart (c : Char) : Bool :=
  asciiIsLetter c || asciiIsDigit c || c = '_'

/-- The lexemes matching `[A-Za-z_][A-Za-z0-9_]*`. -/
def IsIdentifierLexeme : List Char → Bool
  | [] => false
  | c :: cs => isLexemeStart c && cs.all isLexemePart

/-- A rune outside the class letter / digit / underscore that ends the run
consumed by `scanIdentifier`. -/
def endsRun (U : UnicodeTables) (c : Char) : Bool :=
  !U.IsLetter c && !U.IsDigit c && c != '_'

/-- A rune that starts a run: a letter, an underscore or a digit. -/
def startsRun (U : UnicodeTables) (r : Char) : Bool :=
  U.IsLetter r || decide (r = '_') || U.IsDigit r

/-- The kind of the token for a run that starts with `r`: an identifier after a
letter or an underscore, an integer otherwise (after a digit). -/
def runKind (U : UnicodeTables) (r : Char) : TokenType :=
  if U.IsLetter r || decide (r = '_') then .Identifier else .Integer

/-- What `ReadNext` returns at the end of the input: no error, and a scanner
with nothing unread that holds the end-of-input token. -/
def eofResult : Option Error × Scanner :=
  (none, { rd := { unread := [], lastRune := none }, Token := some eofToken })

/-- A rune for which `readNext` has no case: not the double quote, a letter, an
underscore, a digit, nor one of `:`, `=`, `;`, `(`, `)`, `*`, `/`, `+`, `-`. -/
def isUnexpected (U : UnicodeTables) (c : Char) : Bool :=
  !(decide (c = quote) || U.IsLetter c || decide (c = '_') || U.IsDigit c || decide (c = ':')
    || decide (c = '=') || decide (c = ';') || decide (c = '(') || decide (c = ')')
    || decide (c = '*') || decide (c = '/') || decide (c = '+') || decide (c = '-'))

/-- The error `fmt.Errorf("Unexpected symbol %c", r)`. -/
def unexpectedSymbol (r : Char) : Error :=
  .Errorf ("Unexpected symbol " ++ String.singleton r)

/-- The underlying `io.Reader` yields further runes after it has returned
`io.EOF` (a terminal, a pipe, a file that grows): `bufio.Reader` asks it again
at the next `ReadRune`, and `Scanner` keeps no record that the end of the input
was reached. Modelled as runes that join the unread input between two calls. -/
def feed (s : Scanner) (more : List Char) : Scanner :=
  { s with rd := { s.rd with unread := s.rd.unread ++ more } }

/-- The scanner after `n` calls of `ReadNext` when, before the call number `k`
(counted from 0), the runes `arrivals k` arrive from the underlying reader. -/
def afterCallsFed (U : UnicodeTables) (s : Scanner) (arrivals : Nat → List Char) : Nat → Scanner
  | 0 => s
  | n + 1 => (ReadNext U (feed (afterCallsFed U s arrivals n) (arrivals n))).2

/-- What the call of `ReadNext` number `n` (counted from 0) returns on a scanner
that starts as `s`, with the scanner it leaves, when the runes `arrivals k`
arrive before the call number `k`. -/
def callResultFed (U : UnicodeTables) (s : Scanner) (arrivals : Nat → List Char) (n : Nat) :
    Option Error × Scanner :=
  ReadNext U (feed (afterCallsFed U s arrivals n) (arrivals n))

end lexer

namespace semantics

/-! ## Scopes -/

/-- Modelled from the spec: the Go type `definitionSet` is not among the
sources. It is the set of identifiers declared directly in one scope
(membership only), kept here as a list of names. -/
abbrev definitionSet := List String

/-- Modelled from the spec: `definitionSet.has`, membership of an identifier. -/
def definitionSet.has (d : definitionSet) (id : String) : Bool :=
  decide (id ∈ d)

/-- Modelled from the spec: the Go type `definitionScope` is not among the
sources. A scope holds the identifiers declared directly in it and a reference
to its enclosing scope, or none for the global scope. -/
inductive definitionScope where
  | mk (definitions : definitionSet) (parent : Option definitionScope)

/-- The field `definitions`. -/
def definitionScope.definitions : definitionScope → definitionSet
  | .mk d _ => d

/-- The field `parent`. -/
def definitionScope.parent : definitionScope → Option definitionScope
  | .mk _ p => p

/-- Modelled from the spec: `newScope` creates a child scope with no
declarations whose parent is the receiver. -/
def definitionScope.newScope (scope : definitionScope) : definitionScope :=
  .mk [] (some scope)

/-- Modelled from the spec: `declare` registers the identifier in the receiver
(and in no ancestor). -/
def definitionScope.declare (scope : definitionScope) (id : String) : definitionScope :=
  .mk (scope.definitions.insert id) scope.parent

/-- Modelled from the spec: `lookup(id, depth)` starts at the receiver with the
given distance, checks membership, moves to the parent with the distance
incremented when the identifier is absent, and returns the distance where it is
found, or -1 when no parent remains. -/
def definitionScope.lookup : definitionScope → String → Int → Int
  | .mk d none, id, depth => if definitionSet.has d id then depth else -1
  | .mk d (some p), id, depth =>
    if definitionSet.has d id then depth else definitionScope.lookup p id (depth + 1)

/-- The state of the scope a block was entered from, read back through the
parent reference of the block's scope `ds` once the block is done; `scope` is
that scope as it was when the block was entered. -/
def definitionScope.leave (ds scope : definitionScope) : definitionScope :=
  match ds.parent with
  | some p => p
  | none => scope

/-- The sets of the scope chain, from the scope itself out to the global scope. -/
def definitionScope.chain : definitionScope → List definitionSet
  | .mk d none => [d]
  | .mk d (some p) => d :: definitionScope.chain p

/-! ## Syntax trees -/

mutual
/-- Expressions of package `ast` as `analyzeExpression` reads them. `Other` is
every expression the type switch has no case for (literals, and the nil
expression). `ScopeIndex` is the field the analysis writes. -/
inductive Expression where
  | IfExpression (Condition : Option Expression) (Value : Expression)
      (ElseBranch : Option Expression)
  | BinaryOperationExpression (A : Expression) (B : Expression)
  | LookupExpression (Identifier : String) (ScopeIndex : Int)
  | CallExpression (Callee : Expression) (Parameters : List Expression)
  | Function (Parameters : List String) (Statements : List Statement)
  | Other (text : String)
/-- Statements of package `ast` as `analyzeStatement` reads them. -/
inductive Statement where
  | IfStatement (Condition : Option Expression) (Statements : List Statement)
      (ElseBranch : Option Statement)
  | WhileStatement (Condition : Expression) (Statements : List Statement)
  | DeclarationStatement (Identifier : String) (Value : Expression)
  | AssignmentStatement (Identifier : String) (Value : Expression) (ScopeIndex : Int)
  | ReturnStatement (Expression : Expression)
  | ExpressionStatement (Expression : Expression)
end

/-- Go `ast.Program`. -/
structure Program where
  Statements : List Statement

/-- What an analysis function leaves behind: the scope it was given, the node
it was given (both as mutated by the call), and the returned error. -/
structure Result (α : Type) where
  scope : definitionScope
  node : α
  err : Option String

/-- The declared names of a parameter list, registered one by one. -/
def declareAll (ds : definitionScope) : List String → definitionScope
  | [] => ds
  | p :: ps => declareAll (ds.declare p) ps

mutual
/-- `analyzeStatement(scope, n)`. -/
def analyzeStatement (scope : definitionScope) : Statement → Result Statement
  | .IfStatement cond stmts els =>
    let c := analyzeCondition scope cond
    match c.err with
    | some err => ⟨c.scope, .IfStatement c.node stmts els, some err⟩
    | none =>
      let b := analyzeStatements c.scope.newScope stmts
      let scope1 := b.scope.leave c.scope
      match b.err with
      | some err => ⟨scope1, .IfStatement c.node b.node els, some err⟩
      | none =>
        let e := analyzeElseBranch scope1 els
        ⟨e.scope, .IfStatement c.node b.node e.node, e.err⟩
  | .WhileStatement cond stmts =>
    let c := analyzeExpression scope cond
    match c.err with
    | some err => ⟨c.scope, .WhileStatement c.node stmts, some err⟩
    | none =>
      let b := analyzeStatements c.scope.newScope stmts
      ⟨b.scope.leave c.scope, .WhileStatement c.node b.node, b.err⟩
  | .DeclarationStatement id value =>
    let v := analyzeExpression scope value
    match v.err with
    | some err => ⟨v.scope, .DeclarationStatement id v.node, some err⟩
    | none =>
      if definitionSet.has v.scope.definitions id then
        ⟨v.scope, .DeclarationStatement id v.node,
          some ("Redeclaration of " ++ id ++ " in same scope")⟩
      else
        ⟨v.scope.declare id, .DeclarationStatement id v.node, none⟩
  | .AssignmentStatement id value idx =>
    let v := analyzeExpression scope value
    match v.err with
    | some err => ⟨v.scope, .AssignmentStatement id v.node idx, some err⟩
    | none =>
      let scopeIndex := v.scope.lookup id 0
      if scopeIndex = -1 then
        ⟨v.scope, .AssignmentStatement id v.node idx,
          some (id ++ " must be declared before assignment")⟩
      else
        ⟨v.scope, .AssignmentStatement id v.node scopeIndex, none⟩
  | .ReturnStatement e =>
    let r := analyzeExpression scope e
    ⟨r.scope, .ReturnStatement r.node, r.err⟩
  | .ExpressionStatement e =>
    let r := analyzeExpression scope e
    ⟨r.scope, .ExpressionStatement r.node, r.err⟩
/-- The loop `for _, n := range stmts` around `analyzeStatement`, which returns
at the first error. -/
def analyzeStatements (scope : definitionScope) : List Statement → Result (List Statement)
  | [] => ⟨scope, [], none⟩
  | n :: rest =>
    let r := analyzeStatement scope n
    match r.err with
    | some err => ⟨r.scope, r.node :: rest, some err⟩
    | none =>
      let rs := analyzeStatements r.scope rest
      ⟨rs.scope, r.node :: rs.node, rs.err⟩
/-- The guarded call `if s.ElseBranch != nil` of `analyzeStatement`. -/
def analyzeElseBranch (scope : definitionScope) : Option Statement → Result (Option Statement)
  | none => ⟨scope, none, none⟩
  | some n =>
    let r := analyzeStatement scope n
    ⟨r.scope, some r.node, r.err⟩
/-- `analyzeExpression(scope, n)`. -/
def analyzeExpression (scope : definitionScope) : Expression → Result Expression
  | .IfExpression cond value els =>
    let c := analyzeCondition scope cond
    match c.err with
    | some err => ⟨c.scope, .IfExpression c.node value els, some err⟩
    | none =>
      let v := analyzeExpression c.scope value
      match v.err with
      | some err => ⟨v.scope, .IfExpression c.node v.node els, some err⟩
      | none =>
        let e := analyzeCondition v.scope els
        ⟨e.scope, .IfExpression c.node v.node e.node, e.err⟩
  | .BinaryOperationExpression a b =>
    let ra := analyzeExpression scope a
    match ra.err with
    | some err => ⟨ra.scope, .BinaryOperationExpression ra.node b, some err⟩
    | none =>
      let rb := analyzeExpression ra.scope b
      ⟨rb.scope, .BinaryOperationExpression ra.node rb.node, rb.err⟩
  | .LookupExpression id idx =>
    let scopeIndex := scope.lookup id 0
    if scopeIndex = -1 then
      ⟨scope, .LookupExpression id idx, some (id ++ " must be declared before usage")⟩
    else
      ⟨scope, .LookupExpression id scopeIndex, none⟩
  | .CallExpression callee params =>
    let c := analyzeExpression scope callee
    match c.err with
    | some err => ⟨c.scope, .CallExpression c.node params, some err⟩
    | none =>
      let ps := analyzeExpressions c.scope params
      ⟨ps.scope, .CallExpression c.node ps.node, ps.err⟩
  | .Function params stmts =>
    let ds := declareAll scope.newScope params
    let b := analyzeStatements ds stmts
    ⟨b.scope.leave scope, .Function params b.node, b.err⟩
  | .Other text => ⟨scope, .Other text, none⟩
/-- The guarded call `if e.Condition != nil` (and `if e.ElseBranch != nil` of
an if-expression) around `analyzeExpression`. -/
def analyzeCondition (scope : definitionScope) : Option Expression → Result (Option Expression)
  | none => ⟨scope, none, none⟩
  | some n =>
    let r := analyzeExpression scope n
    ⟨r.scope, some r.node, r.err⟩
/-- The loop `for _, p := range e.Parameters` around `analyzeExpression`, which
returns at the first error. -/
def analyzeExpressions (scope : definitionScope) : List Expression → Result (List Expression)
  | [] => ⟨scope, [], none⟩
  | n :: rest =>
    let r := analyzeExpression scope n
    match r.err with
    | some err => ⟨r.scope, r.node :: rest, some err⟩
    | none =>
      let rs := analyzeExpressions r.scope rest
      ⟨rs.scope, r.node :: rs.node, rs.err⟩
end

/-- `AnalyzeLookups(p)`: the statements of the program analysed in a fresh
global scope. -/
def AnalyzeLookups (p : Program) : Result Program :=
  let globalScope : definitionScope := .mk [] none
  let r := analyzeStatements globalScope p.Statements
  ⟨r.scope, { Statements := r.node }, r.err⟩

/-- The distance of an identifier in a scope chain: the number of scopes to go
out from the first one to reach a scope that declares it, if any does. -/
def distanceIn : List definitionSet → String → Option Nat
  | [], _ => none
  | d :: ds, id => if id ∈ d then some 0 else (distanceIn ds id).map (· + 1)

mutual
/-- Every lookup and every assignment node of the expression, at any depth,
carries a non-negative `ScopeIndex`. -/
def Expression.annotated : Expression → Bool
  | .IfExpression cond value els =>
    annotatedCondition cond && Expression.annotated value && annotatedCondition els
  | .BinaryOperationExpression a b => Expression.annotated a && Expression.annotated b
  | .LookupExpression _ idx => decide (0 ≤ idx)
  | .CallExpression callee params => Expression.annotated callee && annotatedExpressions params
  | .Function _ stmts => annotatedStatements stmts
  | .Other _ => true
/-- `Expression.annotated` for an expression that may be nil. -/
def annotatedCondition : Option Expression → Bool
  | none => true
  | some e => Expression.annotated e
/-- `Expression.annotated` for every expression of a list. -/
def annotatedExpressions : List Expression → Bool
  | [] => true
  | e :: es => Expression.annotated e && annotatedExpressions es
/-- Every lookup and every assignment node of the statement, at any depth,
carries a non-negative `ScopeIndex`. -/
def Statement.annotated : Statement → Bool
  | .IfStatement cond stmts els =>
    annotatedCondition cond && annotatedStatements stmts && annotatedElseBranch els
  | .WhileStatement cond stmts => Expression.annotated cond && annotatedStatements stmts
  | .DeclarationStatement _ value => Expression.annotated value
  | .AssignmentStatement _ value idx => Expression.annotated value && decide (0 ≤ idx)
  | .ReturnStatement e => Expression.annotated e
  | .ExpressionStatement e => Expression.annotated e
/-- `Statement.annotated` for every statement of a list. -/
def annotatedStatements : List Statement → Bool
  | [] => true
  | s :: ss => Statement.annotated s && annotatedStatements ss
/-- `Statement.annotated` for an else-branch that may be nil. -/
def annotatedElseBranch : Option Statement → Bool
  | none => true
  | some s => Statement.annotated s
end

mutual
/-- The expression with every `ScopeIndex` set to 0: what the analysis never
changes. -/
def Expression.erase : Expression → Expression
  | .IfExpression cond value els =>
    .IfExpression (eraseCondition cond) (Expression.erase value) (eraseCondition els)
  | .BinaryOperationExpression a b =>
    .BinaryOperationExpression (Expression.erase a) (Expression.erase b)
  | .LookupExpression id _ => .LookupExpression id 0
  | .CallExpression callee params =>
    .CallExpression (Expression.erase callee) (eraseExpressions params)
  | .Function params stmts => .Function params (eraseStatements stmts)
  | .Other text => .Other text
/-- `Expression.erase` for an expression that may be nil. -/
def eraseCondition : Option Expression → Option Expression
  | none => none
  | some e => some (Expression.erase e)
/-- `Expression.erase` along a list. -/
def eraseExpressions : List Expression → List Expression
  | [] => []
  | e :: es => Expression.erase e :: eraseExpressions es
/-- The statement with every `ScopeIndex` set to 0. -/
def Statement.erase : Statement → Statement
  | .IfStatement cond stmts els =>
    .IfStatement (eraseCondition cond) (eraseStatements stmts) (eraseElseBranch els)
  | .WhileStatement cond stmts => .WhileStatement (Expression.erase cond) (eraseStatements stmts)
  | .DeclarationStatement id value => .DeclarationStatement id (Expression.erase value)
  | .AssignmentStatement id value _ => .AssignmentStatement id (Expression.erase value) 0
  | .ReturnStatement e => .ReturnStatement (Expression.erase e)
  | .ExpressionStatement e => .ExpressionStatement (Expression.erase e)
/-- `Statement.erase` along a list. -/
def eraseStatements : List Statement → List Statement
  | [] => []
  | s :: ss => Statement.erase s :: eraseStatements ss
/-- `Statement.erase` for an else-branch that may be nil. -/
def eraseElseBranch : Option Statement → Option Statement
  | none => none
  | some s => some (Statement.erase s)
end

mutual
/-- Every lookup of `x` that the expression makes in the scope it is analysed
in (one not inside the body of a function literal) carries `ScopeIndex = k`. -/
def Expression.directLookupsAre (x : String) (k : Int) : Expression → Bool
  | .IfExpression cond value els =>
    directLookupsAreCondition x k cond && Expression.directLookupsAre x k value
      && directLookupsAreCondition x k els
  | .BinaryOperationExpression a b =>
    Expression.directLookupsAre x k a && Expression.directLookupsAre x k b
  | .LookupExpression id idx => decide (id = x → idx = k)
  | .CallExpression callee params =>
    Expression.directLookupsAre x k callee && directLookupsAreExpressions x k params
  | .Function _ _ => true
  | .Other _ => true
/-- `Expression.directLookupsAre` for an expression that may be nil. -/
def directLookupsAreCondition (x : String) (k : Int) : Option Expression → Bool
  | none => true
  | some e => Expression.directLookupsAre x k e
/-- `Expression.directLookupsAre` for every expression of a list. -/
def directLookupsAreExpressions (x : String) (k : Int) : List Expression → Bool
  | [] => true
  | e :: es => Expression.directLookupsAre x k e && directLookupsAreExpressions x k es
end

/-- Every lookup of `x` that the statement makes in the scope it is analysed in
carries `ScopeIndex = k`: the lookups of its own expressions and, for an
if-statement, of its else-branch; not those inside the block of an if- or
while-statement or inside a function body, which are made in a child scope. -/
def Statement.directLookupsAre (x : String) (k : Int) : Statement → Bool
  | .IfStatement cond _ none => directLookupsAreCondition x k cond
  | .IfStatement cond _ (some els) =>
    directLookupsAreCondition x k cond && Statement.directLookupsAre x k els
  | .WhileStatement cond _ => Expression.directLookupsAre x k cond
  | .DeclarationStatement _ value => Expression.directLookupsAre x k value
  | .AssignmentStatement _ value _ => Expression.directLookupsAre x k value
  | .ReturnStatement e => Expression.directLookupsAre x k e
  | .ExpressionStatement e => Expression.directLookupsAre x k e

/-! ## The programs of the specification

Each takes the value `i` that the `ScopeIndex` fields hold before the analysis
(the parser leaves 0). -/

/-- The program `x := 1; x := 2;`. -/
def programRedeclaration : Program :=
  { Statements := [.DeclarationStatement "x" (.Other "1"), .DeclarationStatement "x" (.Other "2")] }

/-- The program `y = 1;`. -/
def programUndeclaredAssignment (i : Int) : Program :=
  { Statements := [.AssignmentStatement "y" (.Other "1") i] }

/-- The program `x := 1; if (x) { y := x; }`. -/
def programIfLookup (i : Int) : Program :=
  { Statements := [.DeclarationStatement "x" (.Other "1"),
      .IfStatement (some (.LookupExpression "x" i))
        [.DeclarationStatement "y" (.LookupExpression "x" i)] none] }

/-- The program `f := fn(a) { g := fn(b) { a + b }; }`. -/
def programNestedFunctions (i : Int) : Program :=
  { Statements := [.DeclarationStatement "f" (.Function ["a"]
      [.DeclarationStatement "g" (.Function ["b"]
        [.ExpressionStatement (.BinaryOperationExpression
          (.LookupExpression "a" i) (.LookupExpression "b" i))])])] }

/-- The program `x := 1; if (true) { x := 2; y := x; }`. -/
def programShadowing (i : Int) : Program :=
  { Statements := [.DeclarationStatement "x" (.Other "1"),
      .IfStatement (some (.Other "true"))
        [.DeclarationStatement "x" (.Other "2"),
         .DeclarationStatement "y" (.LookupExpression "x" i)] none] }

/-- The `ScopeIndex` of the lookup of `a` in a program of the shape of
`programNestedFunctions`: the left operand in the body of the inner function. -/
def scopeIndexOfAInG (p : Program) : Option Int :=
  match p.Statements with
  | [.DeclarationStatement _ (.Function _
      [.DeclarationStatement _ (.Function _
        [.ExpressionStatement (.BinaryOperationExpression (.LookupExpression _ k) _)])])] =>
    some k
  | _ => none

/-- The three constructs whose analysis enters a new block scope: the block of
an if-statement (with its condition and its else-branch, either of which may be
absent), the body of a while-statement, the body of a function literal. -/
inductive BlockKind where
  | ifBlock (cond : Option Expression) (els : Option Statement)
  | whileBody (cond : Expression)
  | functionBody (params : List String)

/-- The names registered in the block scope before the block is analysed: the
parameters of a function literal, none for if and while. -/
def BlockKind.params : BlockKind → List String
  | .ifBlock _ _ => []
  | .whileBody _ => []
  | .functionBody params => params

/-- The condition of the if- or while-statement, analysed in `S` before the
block is entered, returns no error. -/
def BlockKind.conditionOk (S : definitionScope) : BlockKind → Prop
  | .ifBlock cond _ => (analyzeCondition S cond).err = none
  | .whileBody cond => (analyzeExpression S cond).err = none
  | .functionBody _ => True

/-- The error the construct returns once its block is analysed without error:
that of the else-branch of an if-statement, analysed in `S`; none for the
others. -/
def BlockKind.errAfter (S : definitionScope) : BlockKind → Option String
  | .ifBlock _ els => (analyzeElseBranch S els).err
  | .whileBody _ => none
  | .functionBody _ => none

/-- The scope in which the block of a construct analysed in `S` starts. -/
def blockScope (S : definitionScope) (kind : BlockKind) : definitionScope :=
  declareAll S.newScope kind.params

/-- The analysis in `S` of the construct of the given kind around `block` (an
if-statement, a while-statement, a function literal): the error it returns and
the block it leaves. -/
def analyzeBlock (S : definitionScope) : BlockKind → List Statement → Option String × List Statement
  | .ifBlock cond els, block =>
    match analyzeStatement S (.IfStatement cond block els) with
    | ⟨_, .IfStatement _ block1 _, err⟩ => (err, block1)
    | ⟨_, _, err⟩ => (err, block)
  | .whileBody cond, block =>
    match analyzeStatement S (.WhileStatement cond block) with
    | ⟨_, .WhileStatement _ block1, err⟩ => (err, block1)
    | ⟨_, _, err⟩ => (err, block)
  | .functionBody params, block =>
    match analyzeExpression S (.Function params block) with
    | ⟨_, .Function _ block1, err⟩ => (err, block1)
    | ⟨_, _, err⟩ => (err, block)

/-- A statement that, analysed in a scope, may register `x` in that very scope:
a declaration of `x`, or an if-statement whose else-branch (analysed in the
scope of the if-statement) does. -/
def declaresDirectly (x : String) : Statement → Bool
  | .DeclarationStatement id _ => id == x
  | .IfStatement _ _ (some els) => declaresDirectly x els
  | _ => false

/-- How analysing something in scope `sc` may change it into `sc1`: the parent
is the same, every declared name stays declared, and a new name satisfies `P`. -/
structure Frame (sc sc1 : definitionScope) (P : String → Prop) : Prop where
  parent_eq : sc1.parent = sc.parent
  mono : ∀ id, id ∈ sc.definitions → id ∈ sc1.definitions
  fresh : ∀ id, id ∈ sc1.definitions → id ∈ sc.definitions ∨ P id

/-- The program `x := x;`. -/
def programSelfDeclaration (i : Int) : Program :=
  { Statements := [.DeclarationStatement "x" (.LookupExpression "x" i)] }

/-- An if-statement whose else-branch is absent or is again such an
if-statement. -/
def ifChain : Statement → Bool
  | .IfStatement _ _ none => true
  | .IfStatement _ _ (some els) => ifChain els
  | _ => false

/-- A while-statement, or an if-statement whose else-branch is absent or is
again such an if-statement: a statement that declares only inside blocks. -/
def blockOnly : Statement → Bool
  | .WhileStatement _ _ => true
  | s => ifChain s

/-- The program `c := 1; if (c) { y := 1; } y = 2;`. -/
def programUseAfterBlock (i : Int) : Program :=
  { Statements := [.DeclarationStatement "c" (.Other "1"),
      .IfStatement (some (.LookupExpression "c" i)) [.DeclarationStatement "y" (.Other "1")] none,
      .AssignmentStatement "y" (.Other "2") i] }

mutual
/-- Every lookup of `x` that the expression makes in the scope it is analysed
in (one not inside the body of a function literal) carries a `ScopeIndex` from
the list `ks`. -/
def Expression.directLookupsIn (x : String) (ks : List Int) : Expression → Bool
  | .IfExpression cond value els =>
    directLookupsInCondition x ks cond && Expression.directLookupsIn x ks value
      && directLookupsInCondition x ks els
  | .BinaryOperationExpression a b =>
    Expression.directLookupsIn x ks a && Expression.directLookupsIn x ks b
  | .LookupExpression id idx => decide (id = x → idx ∈ ks)
  | .CallExpression callee params =>
    Expression.directLookupsIn x ks callee && directLookupsInExpressions x ks params
  | .Function _ _ => true
  | .Other _ => true
/-- `Expression.directLookupsIn` for an expression that may be nil. -/
def directLookupsInCondition (x : String) (ks : List Int) : Option Expression → Bool
  | none => true
  | some e => Expression.directLookupsIn x ks e
/-- `Expression.directLookupsIn` for every expression of a list. -/
def directLookupsInExpressions (x : String) (ks : List Int) : List Expression → Bool
  | [] => true
  | e :: es => Expression.directLookupsIn x ks e && directLookupsInExpressions x ks es
end

/-- Every lookup of `x` that the statement makes in the scope it is analysed in
(as for `Statement.directLookupsAre`) carries a `ScopeIndex` from the list
`ks`. -/
def Statement.directLookupsIn (x : String) (ks : List Int) : Statement → Bool
  | .IfStatement cond _ none => directLookupsInCondition x ks cond
  | .IfStatement cond _ (some els) =>
    directLookupsInCondition x ks cond && Statement.directLookupsIn x ks els
  | .WhileStatement cond _ => Expression.directLookupsIn x ks cond
  | .DeclarationStatement _ value => Expression.directLookupsIn x ks value
  | .AssignmentStatement _ value _ => Expression.directLookupsIn x ks value
  | .ReturnStatement e => Expression.directLookupsIn x ks e
  | .ExpressionStatement e => Expression.directLookupsIn x ks e

mutual
/-- Every free lookup of `x` in the expression carries `ScopeIndex = n + k`,
where `k` is the number of block scopes opened inside the expression around
the lookup (bodies of function literals, blocks of if- and while-statements):
`n` for a lookup made in the scope the expression is analysed in. A lookup of
`x` is free when nothing inside the expression binds it: it is not inside a
function literal that has `x` as a parameter, and in no block around it does a
statement that declares `x` come before the statement it is in. -/
def Expression.freeLookupsAre (x : String) (n : Int) : Expression → Bool
  | .IfExpression cond value els =>
    freeLookupsAreCondition x n cond && Expression.freeLookupsAre x n value
      && freeLookupsAreCondition x n els
  | .BinaryOperationExpression a b =>
    Expression.freeLookupsAre x n a && Expression.freeLookupsAre x n b
  | .LookupExpression id idx => decide (id = x → idx = n)
  | .CallExpression callee params =>
    Expression.freeLookupsAre x n callee && freeLookupsAreExpressions x n params
  | .Function params stmts =>
    decide (x ∈ params) || freeLookupsAreStatements x (n + 1) stmts
  | .Other _ => true
/-- `Expression.freeLookupsAre` for an expression that may be nil. -/
def freeLookupsAreCondition (x : String) (n : Int) : Option Expression → Bool
  | none => true
  | some e => Expression.freeLookupsAre x n e
/-- `Expression.freeLookupsAre` for every expression of a list. -/
def freeLookupsAreExpressions (x : String) (n : Int) : List Expression → Bool
  | [] => true
  | e :: es => Expression.freeLookupsAre x n e && freeLookupsAreExpressions x n es
/-- `Expression.freeLookupsAre` for the expressions, the blocks and the
else-branch of a statement analysed in a scope at distance `n`. -/
def Statement.freeLookupsAre (x : String) (n : Int) : Statement → Bool
  | .IfStatement cond stmts els =>
    freeLookupsAreCondition x n cond && freeLookupsAreStatements x (n + 1) stmts
      && freeLookupsAreElseBranch x n els
  | .WhileStatement cond stmts =>
    Expression.freeLookupsAre x n cond && freeLookupsAreStatements x (n + 1) stmts
  | .DeclarationStatement _ value => Expression.freeLookupsAre x n value
  | .AssignmentStatement _ value _ => Expression.freeLookupsAre x n value
  | .ReturnStatement e => Expression.freeLookupsAre x n e
  | .ExpressionStatement e => Expression.freeLookupsAre x n e
/-- `Statement.freeLookupsAre` for the statements of a block, up to and
including the first one that declares `x` in the block. -/
def freeLookupsAreStatements (x : String) (n : Int) : List Statement → Bool
  | [] => true
  | s :: ss =>
    Statement.freeLookupsAre x n s && (declaresDirectly x s || freeLookupsAreStatements x n ss)
/-- `Statement.freeLookupsAre` for an else-branch that may be nil. -/
def freeLookupsAreElseBranch (x : String) (n : Int) : Option Statement → Bool
  | none => true
  | some s => Statement.freeLookupsAre x n s
end

mutual
/-- The expression has a free lookup of `x` (as for
`Expression.freeLookupsAre`), at any depth. -/
def Expression.hasFreeLookup (x : String) : Expression → Bool
  | .IfExpression cond value els =>
    hasFreeLookupCondition x cond || Expression.hasFreeLookup x value
      || hasFreeLookupCondition x els
  | .BinaryOperationExpression a b =>
    Expression.hasFreeLookup x a || Expression.hasFreeLookup x b
  | .LookupExpression id _ => decide (id = x)
  | .CallExpression callee params =>
    Expression.hasFreeLookup x callee || hasFreeLookupExpressions x params
  | .Function params stmts =>
    !decide (x ∈ params) && hasFreeLookupStatements x stmts
  | .Other _ => false
/-- `Expression.hasFreeLookup` for an expression that may be nil. -/
def hasFreeLookupCondition (x : String) : Option Expression → Bool
  | none => false
  | some e => Expression.hasFreeLookup x e
/-- `Expression.hasFreeLookup` for some expression of a list. -/
def hasFreeLookupExpressions (x : String) : List Expression → Bool
  | [] => false
  | e :: es => Expression.hasFreeLookup x e || hasFreeLookupExpressions x es
/-- `Expression.hasFreeLookup` for the expressions, the blocks and the
else-branch of a statement. -/
def Statement.hasFreeLookup (x : String) : Statement → Bool
  | .IfStatement cond stmts els =>
    hasFreeLookupCondition x cond || hasFreeLookupStatements x stmts
      || hasFreeLookupElseBranch x els
  | .WhileStatement cond stmts =>
    Expression.hasFreeLookup x cond || hasFreeLookupStatements x stmts
  | .DeclarationStatement _ value => Expression.hasFreeLookup x value
  | .AssignmentStatement _ value _ => Expression.hasFreeLookup x value
  | .ReturnStatement e => Expression.hasFreeLookup x e
  | .ExpressionStatement e => Expression.hasFreeLookup x e
/-- `Statement.hasFreeLookup` for some statement of a block, up to and
including the first one that declares `x` in the block. -/
def hasFreeLookupStatements (x : String) : List Statement → Bool
  | [] => false
  | s :: ss =>
    Statement.hasFreeLookup x s || (!declaresDirectly x s && hasFreeLookupStatements x ss)
/-- `Statement.hasFreeLookup` for an else-branch that may be nil. -/
def hasFreeLookupElseBranch (x : String) : Option Statement → Bool
  | none => false
  | some s => Statement.hasFreeLookup x s
end

mutual
/-- The expression has, at any depth, an assignment statement to `x`. -/
def Expression.assigns (x : String) : Expression → Bool
  | .IfExpression cond value els =>
    assignsCondition x cond || Expression.assigns x value || assignsCondition x els
  | .BinaryOperationExpression a b => Expression.assigns x a || Expression.assigns x b
  | .LookupExpression _ _ => false
  | .CallExpression callee params => Expression.assigns x callee || assignsExpressions x params
  | .Function _ stmts => assignsStatements x stmts
  | .Other _ => false
/-- `Expression.assigns` for an expression that may be nil. -/
def assignsCondition (x : String) : Option Expression → Bool
  | none => false
  | some e => Expression.assigns x e
/-- `Expression.assigns` for some expression of a list. -/
def assignsExpressions (x : String) : List Expression → Bool
  | [] => false
  | e :: es => Expression.assigns x e || assignsExpressions x es
/-- The statement is, or has at any depth, an assignment statement to `x`. -/
def Statement.assigns (x : String) : Statement → Bool
  | .IfStatement cond stmts els =>
    assignsCondition x cond || assignsStatements x stmts || assignsElseBranch x els
  | .WhileStatement cond stmts => Expression.assigns x cond || assignsStatements x stmts
  | .DeclarationStatement _ value => Expression.assigns x value
  | .AssignmentStatement id value _ => decide (id = x) || Expression.assigns x value
  | .ReturnStatement e => Expression.assigns x e
  | .ExpressionStatement e => Expression.assigns x e
/-- `Statement.assigns` for some statement of a list. -/
def assignsStatements (x : String) : List Statement → Bool
  | [] => false
  | s :: ss => Statement.assigns x s || assignsStatements x ss
/-- `Statement.assigns` for an else-branch that may be nil. -/
def assignsElseBranch (x : String) : Option Statement → Bool
  | none => false
  | some s => Statement.assigns x s
end

/-- The scope `sc` with one more scope beyond its global scope, declaring `x`
alone: the chain of `sc` as it would be were `x` declared outside everything. -/
def definitionScope.withOuter (x : String) : definitionScope → definitionScope
  | .mk d none => .mk d (some (.mk [x] none))
  | .mk d (some p) => .mk d (some (definitionScope.withOuter x p))

/-- The error is one of the two errors for an undeclared `x`: the
undeclared-lookup error naming `x`, or, when `assigned` holds, the
undeclared-assignment error naming `x`. -/
def undeclaredError (x : String) (assigned : Bool) (err : Option String) : Prop :=
  err = some (x ++ " must be declared before usage")
    ∨ (assigned = true ∧ err = some (x ++ " must be declared before assignment"))

mutual
/-- Every free lookup of `x` in the expression (as for
`Expression.freeLookupsAre`) carries `ScopeIndex = n + k`, where `k` is the
number of block scopes opened inside the expression around the lookup, or a
`ScopeIndex` from the list `ks`. -/
def Expression.freeLookupsIn (x : String) (n : Int) (ks : List Int) : Expression → Bool
  | .IfExpression cond value els =>
    freeLookupsInCondition x n ks cond && Expression.freeLookupsIn x n ks value
      && freeLookupsInCondition x n ks els
  | .BinaryOperationExpression a b =>
    Expression.freeLookupsIn x n ks a && Expression.freeLookupsIn x n ks b
  | .LookupExpression id idx => decide (id = x → idx = n ∨ idx ∈ ks)
  | .CallExpression callee params =>
    Expression.freeLookupsIn x n ks callee && freeLookupsInExpressions x n ks params
  | .Function params stmts =>
    decide (x ∈ params) || freeLookupsInStatements x (n + 1) ks stmts
  | .Other _ => true
/-- `Expression.freeLookupsIn` for an expression that may be nil. -/
def freeLookupsInCondition (x : String) (n : Int) (ks : List Int) : Option Expression → Bool
  | none => true
  | some e => Expression.freeLookupsIn x n ks e
/-- `Expression.freeLookupsIn` for every expression of a list. -/
def freeLookupsInExpressions (x : String) (n : Int) (ks : List Int) : List Expression → Bool
  | [] => true
  | e :: es => Expression.freeLookupsIn x n ks e && freeLookupsInExpressions x n ks es
/-- `Expression.freeLookupsIn` for the expressions, the blocks and the
else-branch of a statement analysed in a scope at distance `n`. -/
def Statement.freeLookupsIn (x : String) (n : Int) (ks : List Int) : Statement → Bool
  | .IfStatement cond stmts els =>
    freeLookupsInCondition x n ks cond && freeLookupsInStatements x (n + 1) ks stmts
      && freeLookupsInElseBranch x n ks els
  | .WhileStatement cond stmts =>
    Expression.freeLookupsIn x n ks cond && freeLookupsInStatements x (n + 1) ks stmts
  | .DeclarationStatement _ value => Expression.freeLookupsIn x n ks value
  | .AssignmentStatement _ value _ => Expression.freeLookupsIn x n ks value
  | .ReturnStatement e => Expression.freeLookupsIn x n ks e
  | .ExpressionStatement e => Expression.freeLookupsIn x n ks e
/-- `Statement.freeLookupsIn` for the statements of a block, up to and
including the first one that declares `x` in the block. -/
def freeLookupsInStatements (x : String) (n : Int) (ks : List Int) : List Statement → Bool
  | [] => true
  | s :: ss =>
    Statement.freeLookupsIn x n ks s
      && (declaresDirectly x s || freeLookupsInStatements x n ks ss)
/-- `Statement.freeLookupsIn` for an else-branch that may be nil. -/
def freeLookupsInElseBranch (x : String) (n : Int) (ks : List Int) : Option Statement → Bool
  | none => true
  | some s => Statement.freeLookupsIn x n ks s
end

/-- The error of two steps run one after the other: the error of the first
step, or else that of the second. -/
def firstError (a b : Option String) : Option String :=
  match a with
  | some err => some err
  | none => b

end semantics

/-! # Theorems -/

namespace lexer

/-! ## Reader and loop facts -/

theorem asciiTables_standard : asciiTables.Standard where
  space_ascii := fun _ _ => rfl
  letter_ascii := fun _ _ => rfl
  digit_ascii := fun _ _ => rfl
  letter_not_digit := by
    intro c h
    simp only [asciiTables, asciiIsLetter, asciiIsDigit, Bool.or_eq_true, Bool.and_eq_true,
      decide_eq_true_eq] at h ⊢
    simp only [Bool.and_eq_false_iff, decide_eq_false_iff_not]
    omega
  space_not_letter := by
    intro c h
    simp only [asciiTables, asciiIsLetter, asciiIsSpace, Bool.or_eq_true, Bool.and_eq_true,
      decide_eq_true_eq] at h ⊢
    simp only [Bool.or_eq_false_iff, Bool.and_eq_false_iff, decide_eq_false_iff_not]
    omega
  space_not_digit := by
    intro c h
    simp only [asciiTables, asciiIsDigit, asciiIsSpace, Bool.or_eq_true, Bool.and_eq_true,
      decide_eq_true_eq] at h ⊢
    simp only [Bool.and_eq_false_iff, decide_eq_false_iff_not]
    omega

/-- The two outcomes of `ReadRune` are the two patterns the loops match on. -/
theorem ReadRune_nil (l : Option Char) :
    ReadRune { unread := [], lastRune := l } = (.error .EOF, { unread := [], lastRune := none }) :=
  rfl

theorem ReadRune_cons (r : Char) (rest : List Char) (l : Option Char) :
    ReadRune { unread := r :: rest, lastRune := l }
      = (.ok r, { unread := rest, lastRune := some r }) :=
  rfl

/-- When `scanString` returns an error it is `io.EOF` and nothing is left unread. -/
theorem scanStringLoop_error (l : List Char) (s : String) (err : Error) (rd : Reader)
    (h : scanStringLoop l s = (.error err, rd)) : err = .EOF ∧ rd.unread = [] := by
  induction l generalizing s with
  | nil =>
    simp only [scanStringLoop, Prod.mk.injEq, Except.error.injEq] at h
    exact ⟨h.1.symm, by rw [← h.2]⟩
  | cons r rest ih =>
    simp only [scanStringLoop] at h
    split at h
    · simp at h
    · exact ih _ h

/-- When `scanIdentifier` returns an error it is `io.EOF` and nothing is left unread. -/
theorem scanIdentifierLoop_error (U : UnicodeTables) (l : List Char) (s : String) (err : Error)
    (rd : Reader) (h : scanIdentifierLoop U l s = (.error err, rd)) :
    err = .EOF ∧ rd.unread = [] := by
  induction l generalizing s with
  | nil =>
    simp only [scanIdentifierLoop, Prod.mk.injEq, Except.error.injEq] at h
    exact ⟨h.1.symm, by rw [← h.2]⟩
  | cons r rest ih =>
    simp only [scanIdentifierLoop, UnreadRune] at h
    split at h
    · simp at h
    · exact ih _ h

/-- After the white-space loop, `readNext` returns `io.EOF` only with nothing
left unread, and returns no error only with a token that is not `EOF`. -/
theorem readNextDispatch_spec (U : UnicodeTables) (tok : Option Token) (r : Char) (rd : Reader) :
    (∀ s, readNextDispatch U tok r rd = (some .EOF, s) → s.rd.unread = []) ∧
    (∀ s, readNextDispatch U tok r rd = (none, s) → ∃ t, s.Token = some t ∧ t.Typ ≠ .EOF) := by
  have hstr : ∀ res, scanString rd = res →
      (res.1 = .error .EOF → res.2.unread = []) ∧ (∀ e, res.1 = .error e → e = .EOF) := by
    intro res h
    obtain ⟨x, rd1⟩ := res
    exact ⟨fun hx => (scanStringLoop_error _ _ _ _ (by rw [← hx]; exact h)).2,
      fun e hx => (scanStringLoop_error _ _ _ _ (by rw [← hx]; exact h)).1⟩
  have hid : ∀ res, scanIdentifier U rd = res →
      (res.1 = .error .EOF → res.2.unread = []) ∧ (∀ e, res.1 = .error e → e = .EOF) := by
    intro res h
    obtain ⟨x, rd1⟩ := res
    exact ⟨fun hx => (scanIdentifierLoop_error _ _ _ _ _ (by rw [← hx]; exact h)).2,
      fun e hx => (scanIdentifierLoop_error _ _ _ _ _ (by rw [← hx]; exact h)).1⟩
  have hone : ∀ (k : TokenType) (v : String), k ≠ .EOF →
      (∀ s, ((none, { rd := rd, Token := some { Typ := k, Value := v } }) : Option Error × Scanner)
          = (some .EOF, s) → s.rd.unread = []) ∧
      (∀ s, ((none, { rd := rd, Token := some { Typ := k, Value := v } }) : Option Error × Scanner)
          = (none, s) → ∃ t, s.Token = some t ∧ t.Typ ≠ .EOF) := by
    intro k v hk
    constructor
    · intro s hs; simp at hs
    · intro s hs
      simp only [Prod.mk.injEq, true_and] at hs
      exact ⟨_, by rw [← hs], hk⟩
  unfold readNextDispatch
  by_cases h1 : r = quote
  · rw [if_pos h1]
    obtain ⟨hA, hB⟩ := hstr _ rfl
    generalize scanString rd = res at hA hB ⊢
    obtain ⟨x, rd1⟩ := res
    cases x with
    | error err =>
      have he := hB err rfl
      subst he
      constructor
      · intro s hs
        simp only [Prod.mk.injEq, true_and] at hs
        rw [← hs]; exact hA rfl
      · intro s hs; simp at hs
    | ok v =>
      constructor
      · intro s hs; simp at hs
      · intro s hs
        simp only [Prod.mk.injEq, true_and] at hs
        exact ⟨_, by rw [← hs], by simp⟩
  rw [if_neg h1]
  by_cases h2 : (U.IsLetter r || r = '_') = true
  · rw [if_pos h2]
    obtain ⟨hA, hB⟩ := hid _ rfl
    generalize scanIdentifier U rd = res at hA hB ⊢
    obtain ⟨x, rd1⟩ := res
    cases x with
    | error err =>
      have he := hB err rfl
      subst he
      constructor
      · intro s hs
        simp only [Prod.mk.injEq, true_and] at hs
        rw [← hs]; exact hA rfl
      · intro s hs; simp at hs
    | ok v =>
      constructor
      · intro s hs; simp at hs
      · intro s hs
        simp only [Prod.mk.injEq, true_and] at hs
        exact ⟨_, by rw [← hs], by simp⟩
  rw [if_neg h2]
  by_cases h3 : U.IsDigit r = true
  · rw [if_pos h3]
    obtain ⟨hA, hB⟩ := hid _ rfl
    generalize scanIdentifier U rd = res at hA hB ⊢
    obtain ⟨x, rd1⟩ := res
    cases x with
    | error err =>
      have he := hB err rfl
      subst he
      constructor
      · intro s hs
        simp only [Prod.mk.injEq, true_and] at hs
        rw [← hs]; exact hA rfl
      · intro s hs; simp at hs
    | ok v =>
      constructor
      · intro s hs; simp at hs
      · intro s hs
        simp only [Prod.mk.injEq, true_and] at hs
        exact ⟨_, by rw [← hs], by simp⟩
  rw [if_neg h3]
  by_cases h4 : r = ':'
  · rw [if_pos h4]
    cases hu : rd.unread with
    | nil =>
      constructor
      · intro s hs
        simp only [ReadRune, hu, Prod.mk.injEq, true_and] at hs
        rw [← hs]
      · intro s hs; simp [ReadRune, hu] at hs
    | cons r2 rest =>
      simp only [ReadRune, hu]
      by_cases h5 : r2 ≠ '='
      · rw [if_pos h5]
        constructor
        · intro s hs; simp at hs
        · intro s hs; simp at hs
      · rw [if_neg h5]
        exact ⟨fun s hs => by simp at hs, fun s hs => by
          simp only [Prod.mk.injEq, true_and] at hs
          exact ⟨_, by rw [← hs], by simp⟩⟩
  rw [if_neg h4]
  by_cases h5 : r = '='
  · rw [if_pos h5]; exact hone _ _ (by simp)
  rw [if_neg h5]
  by_cases h6 : r = ';'
  · rw [if_pos h6]; exact hone _ _ (by simp)
  rw [if_neg h6]
  by_cases h7 : r = '('
  · rw [if_pos h7]; exact hone _ _ (by simp)
  rw [if_neg h7]
  by_cases h8 : r = ')'
  · rw [if_pos h8]; exact hone _ _ (by simp)
  rw [if_neg h8]
  by_cases h9 : r = '*'
  · rw [if_pos h9]; exact hone _ _ (by simp)
  rw [if_neg h9]
  by_cases h10 : r = '/'
  · rw [if_pos h10]; exact hone _ _ (by simp)
  rw [if_neg h10]
  by_cases h11 : r = '+'
  · rw [if_pos h11]; exact hone _ _ (by simp)
  rw [if_neg h11]
  by_cases h12 : r = '-'
  · rw [if_pos h12]; exact hone _ _ (by simp)
  rw [if_neg h12]
  exact ⟨fun s hs => by simp at hs, fun s hs => by simp at hs⟩

theorem readNextLoop_spec (U : UnicodeTables) (tok : Option Token) (l : List Char) :
    (∀ s, readNextLoop U tok l = (some .EOF, s) → s.rd.unread = []) ∧
    (∀ s, readNextLoop U tok l = (none, s) → ∃ t, s.Token = some t ∧ t.Typ ≠ .EOF) := by
  induction l with
  | nil =>
    constructor
    · intro s hs
      simp only [readNextLoop, Prod.mk.injEq, true_and] at hs
      rw [← hs]
    · intro s hs; simp [readNextLoop] at hs
  | cons r rest ih =>
    simp only [readNextLoop]
    split
    · exact ih
    · exact readNextDispatch_spec U tok r _

/-- On a scanner with nothing left unread, `ReadNext` returns no error and
leaves the scanner exhausted, holding the end-of-input token. -/
theorem ReadNext_exhausted (U : UnicodeTables) (s : Scanner) (h : s.rd.unread = []) :
    ReadNext U s = (none, { rd := { unread := [], lastRune := none }, Token := some eofToken }) := by
  unfold ReadNext readNext
  rw [h]
  rfl

/-- A call of `ReadNext` that returns no error and holds the end-of-input token
has left nothing unread. -/
theorem ReadNext_eof_exhausted (U : UnicodeTables) (s : Scanner)
    (herr : (ReadNext U s).1 = none)
    (htok : ∃ t, (ReadNext U s).2.Token = some t ∧ t.Typ = .EOF) :
    (ReadNext U s).2.rd.unread = [] := by
  have hspec := readNextLoop_spec U s.Token s.rd.unread
  unfold ReadNext readNext at herr htok ⊢
  cases h : readNextLoop U s.Token s.rd.unread with
  | mk e s1 =>
    rw [h] at herr htok
    cases e with
    | none =>
      obtain ⟨t, ht, hne⟩ := hspec.2 s1 h
      obtain ⟨t2, ht2, heq⟩ := htok
      simp only at ht2
      rw [ht] at ht2
      cases ht2
      exact absurd heq hne
    | some e =>
      cases e with
      | EOF => exact hspec.1 s1 h
      | ErrInvalidUnreadRune => simp at herr
      | Errorf m => simp at herr

theorem afterCalls_exhausted (U : UnicodeTables) (s : Scanner) (h : s.rd.unread = []) (n : Nat) :
    (afterCalls U s n).rd.unread = [] := by
  induction n with
  | zero => exact h
  | succ n ih =>
    show (ReadNext U (afterCalls U s n)).2.rd.unread = []
    rw [ReadNext_exhausted U _ ih]

/-- The white-space loop runs to the end of an input of white space only. -/
theorem readNextLoop_whitespace (U : UnicodeTables) (tok : Option Token) (ws : List Char)
    (hws : ∀ c ∈ ws, U.IsSpace c = true) :
    readNextLoop U tok ws
      = (some .EOF, { rd := { unread := [], lastRune := none }, Token := tok }) := by
  induction ws with
  | nil => rfl
  | cons c rest ih =>
    have hc : U.IsSpace c = true := hws c (List.mem_cons_self _ _)
    simp only [readNextLoop, hc, if_true]
    exact ih (fun d hd => hws d (List.mem_cons_of_mem _ hd))

/-- Leading white space is skipped: the loop goes on with the rest. -/
theorem readNextLoop_skip (U : UnicodeTables) (tok : Option Token) (ws rest : List Char)
    (hws : ∀ c ∈ ws, U.IsSpace c = true) :
    readNextLoop U tok (ws ++ rest) = readNextLoop U tok rest := by
  induction ws with
  | nil => rfl
  | cons c cs ih =>
    have hc : U.IsSpace c = true := hws c (List.mem_cons_self _ _)
    simp only [List.cons_append, readNextLoop, hc, if_true]
    exact ih (fun d hd => hws d (List.mem_cons_of_mem _ hd))

/-- A run of letters, digits and underscores followed by a rune outside that
class: `scanIdentifier` returns the run appended to `s` and leaves the rune
that ended it unread. -/
theorem scanIdentifierLoop_run (U : UnicodeTables) (run : List Char) (c : Char)
    (rest : List Char) (s : String)
    (hrun : ∀ d ∈ run, endsRun U d = false) (hc : endsRun U c = true) :
    scanIdentifierLoop U (run ++ c :: rest) s
      = (.ok (s ++ String.mk run), { unread := c :: rest, lastRune := none }) := by
  induction run generalizing s with
  | nil =>
    have hc2 : (!U.IsLetter c && !U.IsDigit c && c != '_') = true := hc
    have hs : s ++ String.mk [] = s := String.ext (by simp)
    rw [List.nil_append, scanIdentifierLoop, hc2, hs]
    rfl
  | cons d ds ih =>
    have hd : (!U.IsLetter d && !U.IsDigit d && d != '_') = false :=
      hrun d (List.mem_cons_self _ _)
    have hs : s ++ String.singleton d ++ String.mk ds = s ++ String.mk (d :: ds) :=
      String.ext (by simp)
    rw [List.cons_append, scanIdentifierLoop, hd, if_neg (by simp),
      ih _ (fun e he => hrun e (List.mem_cons_of_mem _ he)), hs]

theorem feed_nil (s : Scanner) : feed s [] = s := by
  cases s with
  | mk rd tok =>
    cases rd with
    | mk unread lastRune => simp [feed]

/-- When nothing arrives, the calls are those on the input as it is. -/
theorem afterCallsFed_final (U : UnicodeTables) (s : Scanner) (arrivals : Nat → List Char)
    (hfinal : ∀ k, arrivals k = []) (n : Nat) :
    afterCallsFed U s arrivals n = afterCalls U s n := by
  induction n with
  | zero => rfl
  | succ n ih =>
    show (ReadNext U (feed (afterCallsFed U s arrivals n) (arrivals n))).2
      = (ReadNext U (afterCalls U s n)).2
    rw [ih, hfinal n, feed_nil]

/-- Amended C1: once a call of `ReadNext` has returned no error and left the
scanner holding the end-of-input token, each later call on that scanner (call
number `n` after it, for every `n`) returns no error and holds the
end-of-input token again, on an input whose end is final: on the input as it
is, and for every sequence of arrivals from the underlying reader in which
nothing arrives after the reader has returned `io.EOF`. -/
theorem C1_eof_is_fixed_point (U : UnicodeTables) (s : Scanner)
    (herr : (ReadNext U s).1 = none)
    (htok : ∃ t, (ReadNext U s).2.Token = some t ∧ t.Typ = .EOF) (n : Nat) :
    ((callResult U (ReadNext U s).2 n).1 = none ∧
      (callResult U (ReadNext U s).2 n).2.Token = some eofToken) ∧
    (∀ arrivals : Nat → List Char, (∀ k, arrivals k = []) →
      (callResultFed U (ReadNext U s).2 arrivals n).1 = none ∧
      (callResultFed U (ReadNext U s).2 arrivals n).2.Token = some eofToken) := by
  have h0 := ReadNext_eof_exhausted U s herr htok
  have hn := afterCalls_exhausted U _ h0 n
  have hc : callResult U (ReadNext U s).2 n
      = (none, { rd := { unread := [], lastRune := none }, Token := some eofToken }) := by
    unfold callResult
    rw [ReadNext_exhausted U _ hn]
  refine ⟨by rw [hc]; exact ⟨rfl, rfl⟩, ?_⟩
  intro arrivals hfinal
  have hf : callResultFed U (ReadNext U s).2 arrivals n = callResult U (ReadNext U s).2 n := by
    unfold callResultFed callResult
    rw [afterCallsFed_final U _ arrivals hfinal n, hfinal n, feed_nil]
  rw [hf, hc]
  exact ⟨rfl, rfl⟩

theorem C1_eof_is_fixed_point_witness :
    (ReadNext asciiTables (NewScanner [' ', 'x'])).1 = none ∧
    ((callResult asciiTables (ReadNext asciiTables (NewScanner [' ', 'x'])).2 5).1 = none ∧
      (callResult asciiTables (ReadNext asciiTables (NewScanner [' ', 'x'])).2 5).2.Token
        = some eofToken) ∧
    (callResultFed asciiTables (ReadNext asciiTables (NewScanner [' ', 'x'])).2
      (fun _ => []) 5).2.Token = some eofToken :=
  ⟨by decide,
    (C1_eof_is_fixed_point asciiTables (NewScanner [' ', 'x']) (by decide)
      ⟨eofToken, by decide, rfl⟩ 5).1,
    ((C1_eof_is_fixed_point asciiTables (NewScanner [' ', 'x']) (by decide)
      ⟨eofToken, by decide, rfl⟩ 5).2 (fun _ => []) (fun _ => rfl)).2⟩

/-- C1 as stated fails on a reader that yields runes after `io.EOF`: the
first `ReadNext` on the input so far, which is empty, returns no error and
holds the end-of-input token; then the runes `x;` arrive, and the next
`ReadNext` on the same scanner (the call number 0 after it) returns no error
and holds the identifier `x`. -/
theorem C1_counterexample_input_after_eof :
    ReadNext asciiTables (NewScanner []) = eofResult ∧
    ReadNext asciiTables (feed (ReadNext asciiTables (NewScanner [])).2 ['x', ';'])
      = (none, { rd := { unread := [';'], lastRune := none },
                 Token := some { Typ := .Identifier, Value := "x" } }) ∧
    callResultFed asciiTables (ReadNext asciiTables (NewScanner [])).2
        (fun k => if k = 0 then ['x', ';'] else []) 0
      = (none, { rd := { unread := [';'], lastRune := none },
                 Token := some { Typ := .Identifier, Value := "x" } }) := by
  decide

/-- Amended C2: for a lexeme `L` matching `[A-Za-z_][A-Za-z0-9_]*` and an input
made of white space, then `L`, then a rune outside the class letter / digit /
underscore, then anything, the first `ReadNext` returns no error and holds the
identifier token whose text is exactly `L`; the rune that ended `L` stays
unread. -/
theorem C2_identifier_before_delimiter (U : UnicodeTables) (hU : U.Standard)
    (ws L : List Char) (c : Char) (rest : List Char)
    (hws : ∀ w ∈ ws, U.IsSpace w = true) (hL : IsIdentifierLexeme L = true)
    (hc : endsRun U c = true) :
    ReadNext U (NewScanner (ws ++ L ++ c :: rest))
      = (none, { rd := { unread := c :: rest, lastRune := none },
                 Token := some { Typ := .Identifier, Value := String.mk L } }) := by
  cases L with
  | nil => simp [IsIdentifierLexeme] at hL
  | cons a tl =>
    simp only [IsIdentifierLexeme, Bool.and_eq_true, List.all_eq_true] at hL
    obtain ⟨ha, htl⟩ := hL
    have hrun : ∀ d ∈ tl, endsRun U d = false := by
      intro d hd
      have h := htl d hd
      simp only [isLexemePart, asciiIsLetter, asciiIsDigit, Bool.or_eq_true, Bool.and_eq_true,
        decide_eq_true_eq] at h
      rcases h with (h | h) | h
      · have h1 := hU.letter_ascii d (by omega)
        have h2 : asciiIsLetter d = true := by
          simp only [asciiIsLetter, Bool.or_eq_true, Bool.and_eq_true, decide_eq_true_eq]
          exact h
        simp [endsRun, h1, h2]
      · have h1 := hU.digit_ascii d (by omega)
        have h2 : asciiIsDigit d = true := by
          simp only [asciiIsDigit, Bool.and_eq_true, decide_eq_true_eq]
          exact h
        simp [endsRun, h1, h2]
      · simp [endsRun, h]
    have ha128 : a.toNat < 128 := by
      simp only [isLexemeStart, asciiIsLetter, Bool.or_eq_true, Bool.and_eq_true,
        decide_eq_true_eq] at ha
      rcases ha with ha | ha
      · omega
      · subst ha; decide
    have hspace : U.IsSpace a = false := by
      rw [hU.space_ascii a ha128]
      simp only [isLexemeStart, asciiIsLetter, Bool.or_eq_true, Bool.and_eq_true,
        decide_eq_true_eq] at ha
      rcases ha with ha | ha
      · simp only [asciiIsSpace, Bool.or_eq_false_iff, Bool.and_eq_false_iff,
          decide_eq_false_iff_not]
        omega
      · subst ha; decide
    have hquote : a ≠ quote := by
      intro h
      subst h
      revert ha; decide
    have hstart : (U.IsLetter a || a = '_') = true := by
      rw [hU.letter_ascii a ha128]
      exact ha
    unfold ReadNext readNext NewScanner NewReader
    simp only [List.append_assoc]
    rw [readNextLoop_skip U _ ws _ hws, List.cons_append, readNextLoop, hspace]
    rw [if_neg (by simp)]
    unfold readNextDispatch
    rw [if_neg hquote, if_pos hstart]
    unfold scanIdentifier
    simp only
    rw [scanIdentifierLoop_run U tl c rest "" hrun hc]
    simp only [String.empty_append]
    rfl

theorem C2_identifier_before_delimiter_witness :
    ReadNext asciiTables (NewScanner ([' ', ' '] ++ ['x', '_', '1'] ++ ';' :: [' ', 'y']))
      = (none, { rd := { unread := ';' :: [' ', 'y'], lastRune := none },
                 Token := some { Typ := .Identifier, Value := String.mk ['x', '_', '1'] } }) :=
  C2_identifier_before_delimiter asciiTables asciiTables_standard [' ', ' '] ['x', '_', '1'] ';'
    [' ', 'y'] (by decide) (by decide) (by decide)

/-- C2 as stated fails when the lexeme is followed by the end of the input: on
the input `x` the first `ReadNext` returns no error and holds the end-of-input
token, not the identifier `x`. -/
theorem C2_counterexample_identifier_at_end :
    IsIdentifierLexeme ['x'] = true ∧
    ReadNext asciiTables (NewScanner ([] ++ ['x']))
      = (none, { rd := { unread := [], lastRune := none }, Token := some eofToken }) ∧
    (ReadNext asciiTables (NewScanner ([] ++ ['x']))).2.Token
      ≠ some { Typ := .Identifier, Value := "x" } := by
  decide

/-- C3: on an input of white space only (the empty input included) every call
of `ReadNext`, the first one and each later one, returns no error and leaves
the scanner holding the end-of-input token; none returns a lex error or holds
another token. -/
theorem C3_whitespace_only (U : UnicodeTables) (ws : List Char)
    (hws : ∀ c ∈ ws, U.IsSpace c = true) (n : Nat) :
    callResult U (NewScanner ws) n
      = (none, { rd := { unread := [], lastRune := none }, Token := some eofToken }) := by
  have h0 : ReadNext U (NewScanner ws)
      = (none, { rd := { unread := [], lastRune := none }, Token := some eofToken }) := by
    unfold ReadNext readNext NewScanner NewReader
    simp only
    rw [readNextLoop_whitespace U _ _ hws]
    rfl
  cases n with
  | zero => exact h0
  | succ n =>
    unfold callResult
    have h1 : (afterCalls U (NewScanner ws) 1).rd.unread = [] := by
      show (ReadNext U (NewScanner ws)).2.rd.unread = []
      rw [h0]
    have h2 : afterCalls U (NewScanner ws) (n + 1)
        = afterCalls U (afterCalls U (NewScanner ws) 1) n := by
      induction n with
      | zero => rfl
      | succ m ih =>
        show (ReadNext U (afterCalls U (NewScanner ws) (m + 1))).2 = _
        rw [ih]
        rfl
    rw [h2]
    exact ReadNext_exhausted U _ (afterCalls_exhausted U _ h1 n)

theorem C3_whitespace_only_witness :
    callResult asciiTables (NewScanner [' ', '\t', '\n', ' ']) 3
      = (none, { rd := { unread := [], lastRune := none }, Token := some eofToken }) :=
  C3_whitespace_only asciiTables [' ', '\t', '\n', ' '] (by decide) 3

end lexer

namespace semantics

/-! ## Scopes -/

theorem has_iff (d : definitionSet) (id : String) : definitionSet.has d id = true ↔ id ∈ d := by
  simp [definitionSet.has]

theorem declare_parent (sc : definitionScope) (id : String) :
    (sc.declare id).parent = sc.parent := rfl

theorem declare_definitions (sc : definitionScope) (id : String) :
    (sc.declare id).definitions = sc.definitions.insert id := rfl

theorem newScope_parent (sc : definitionScope) : sc.newScope.parent = some sc := rfl

theorem newScope_definitions (sc : definitionScope) : sc.newScope.definitions = [] := rfl

theorem leave_of_parent (ds sc p : definitionScope) (h : ds.parent = some p) :
    ds.leave sc = p := by
  simp [definitionScope.leave, h]

theorem declareAll_parent (ds : definitionScope) (ps : List String) :
    (declareAll ds ps).parent = ds.parent := by
  induction ps generalizing ds with
  | nil => rfl
  | cons p ps ih => simp only [declareAll]; rw [ih, declare_parent]

theorem declareAll_definitions (ds : definitionScope) (ps : List String) (id : String) :
    id ∈ (declareAll ds ps).definitions ↔ id ∈ ds.definitions ∨ id ∈ ps := by
  induction ps generalizing ds with
  | nil => simp [declareAll]
  | cons p ps ih =>
    simp only [declareAll]
    rw [ih, declare_definitions, List.mem_insert_iff, List.mem_cons]
    tauto

theorem Frame.refl (sc : definitionScope) (P : String → Prop) : Frame sc sc P :=
  ⟨rfl, fun _ h => h, fun _ h => Or.inl h⟩

theorem Frame.weaken {sc sc1 : definitionScope} {P Q : String → Prop} (h : Frame sc sc1 P)
    (hPQ : ∀ id, P id → Q id) : Frame sc sc1 Q :=
  ⟨h.parent_eq, h.mono, fun id hid => (h.fresh id hid).imp (fun h0 => h0) (hPQ id)⟩

theorem Frame.trans {sc sc1 sc2 : definitionScope} {P Q : String → Prop} (h1 : Frame sc sc1 P)
    (h2 : Frame sc1 sc2 Q) : Frame sc sc2 (fun id => P id ∨ Q id) :=
  ⟨h2.parent_eq.trans h1.parent_eq, fun id hid => h2.mono id (h1.mono id hid), fun id hid => by
    rcases h2.fresh id hid with h | h
    · rcases h1.fresh id h with h | h
      · exact Or.inl h
      · exact Or.inr (Or.inl h)
    · exact Or.inr (Or.inr h)⟩

/-- `lookup` computes the distance in the chain, added to the start distance,
or -1. -/
theorem lookup_eq : ∀ (sc : definitionScope) (id : String) (depth : Int),
    sc.lookup id depth
      = match distanceIn sc.chain id with
        | some k => depth + (k : Int)
        | none => -1
  | .mk d none, id, depth => by
    by_cases h : id ∈ d
    · simp [definitionScope.lookup, definitionScope.chain, distanceIn, definitionSet.has, h]
    · simp [definitionScope.lookup, definitionScope.chain, distanceIn, definitionSet.has, h]
  | .mk d (some p), id, depth => by
    have ih := lookup_eq p id (depth + 1)
    by_cases h : id ∈ d
    · simp [definitionScope.lookup, definitionScope.chain, distanceIn, definitionSet.has, h]
    · simp only [definitionScope.lookup, definitionScope.chain, distanceIn, definitionSet.has, h,
        decide_False, Bool.false_eq_true, if_false]
      rw [ih]
      cases distanceIn p.chain id with
      | none => rfl
      | some k =>
        simp only [Option.map_some']
        push_cast
        ring

theorem distanceIn_eq_none_iff (c : List definitionSet) (id : String) :
    distanceIn c id = none ↔ ∀ d ∈ c, id ∉ d := by
  induction c with
  | nil => simp [distanceIn]
  | cons d ds ih =>
    by_cases h : id ∈ d
    · simp [distanceIn, h]
    · simp [distanceIn, h, ih]

/-- From a start distance 0, `lookup` returns the failure signal -1 exactly when
no scope of the chain declares the identifier. -/
theorem lookup_eq_neg_one_iff (sc : definitionScope) (id : String) :
    sc.lookup id 0 = -1 ↔ ∀ d ∈ sc.chain, id ∉ d := by
  rw [lookup_eq, ← distanceIn_eq_none_iff]
  cases distanceIn sc.chain id with
  | none => simp
  | some k =>
    simp only [zero_add, reduceCtorEq, iff_false]

/-- From a start distance 0, `lookup` returns -1 or a non-negative distance. -/
theorem lookup_nonneg (sc : definitionScope) (id : String) :
    sc.lookup id 0 = -1 ∨ 0 ≤ sc.lookup id 0 := by
  rw [lookup_eq]
  cases distanceIn sc.chain id with
  | none => exact Or.inl rfl
  | some k => right; simp

theorem lookup_of_mem (sc : definitionScope) (id : String) (depth : Int)
    (h : id ∈ sc.definitions) : sc.lookup id depth = depth := by
  cases sc with
  | mk d p =>
    have h1 : definitionSet.has d id = true := (has_iff d id).2 h
    cases p with
    | none => simp [definitionScope.lookup, h1]
    | some p => simp [definitionScope.lookup, h1]

theorem lookup_of_not_mem (sc p : definitionScope) (id : String) (depth : Int)
    (h : id ∉ sc.definitions) (hp : sc.parent = some p) :
    sc.lookup id depth = p.lookup id (depth + 1) := by
  cases sc with
  | mk d q =>
    have h1 : definitionSet.has d id = false := by
      cases hh : definitionSet.has d id with
      | false => rfl
      | true => exact absurd ((has_iff d id).1 hh) h
    cases q with
    | none => simp [definitionScope.parent] at hp
    | some q =>
      simp only [definitionScope.parent, Option.some.injEq] at hp
      subst hp
      simp [definitionScope.lookup, h1]

/-! ## What the analysis does to the scope -/

mutual
/-- Analysing an expression leaves the scope as it was. -/
theorem analyzeExpression_scope : ∀ (e : Expression) (sc : definitionScope),
    (analyzeExpression sc e).scope = sc
  | .IfExpression cond value els, sc => by
    have h1 := analyzeCondition_scope cond sc
    have h2 := analyzeExpression_scope value sc
    have h3 := analyzeCondition_scope els sc
    simp only [analyzeExpression]
    split
    · exact h1
    · rw [h1]
      split
      · exact h2
      · rw [h2]; exact h3
  | .BinaryOperationExpression a b, sc => by
    have h1 := analyzeExpression_scope a sc
    have h2 := analyzeExpression_scope b sc
    simp only [analyzeExpression]
    split
    · exact h1
    · rw [h1]; exact h2
  | .LookupExpression id idx, sc => by
    simp only [analyzeExpression]
    split <;> rfl
  | .CallExpression callee params, sc => by
    have h1 := analyzeExpression_scope callee sc
    have h2 := analyzeExpressions_scope params sc
    simp only [analyzeExpression]
    split
    · exact h1
    · rw [h1]; exact h2
  | .Function params stmts, sc => by
    have h1 := analyzeStatements_frame stmts (declareAll sc.newScope params)
    simp only [analyzeExpression]
    exact leave_of_parent _ _ _
      (by rw [h1.parent_eq, declareAll_parent, newScope_parent])
  | .Other text, sc => rfl
theorem analyzeCondition_scope : ∀ (e : Option Expression) (sc : definitionScope),
    (analyzeCondition sc e).scope = sc
  | none, sc => rfl
  | some e, sc => by
    simp only [analyzeCondition]
    exact analyzeExpression_scope e sc
theorem analyzeExpressions_scope : ∀ (es : List Expression) (sc : definitionScope),
    (analyzeExpressions sc es).scope = sc
  | [], sc => rfl
  | e :: es, sc => by
    have h1 := analyzeExpression_scope e sc
    have h2 := analyzeExpressions_scope es sc
    simp only [analyzeExpressions]
    split
    · exact h1
    · rw [h1]; exact h2
/-- Analysing a statement keeps the parent of the scope and every name declared
in it; a name it adds comes from a declaration made directly in that scope. -/
theorem analyzeStatement_frame : ∀ (s : Statement) (sc : definitionScope),
    Frame sc (analyzeStatement sc s).scope (fun id => declaresDirectly id s = true)
  | .IfStatement cond stmts els, sc => by
    have h1 := analyzeCondition_scope cond sc
    have h2 := analyzeStatements_frame stmts sc.newScope
    have h3 := analyzeElseBranch_frame els sc
    have hl : (analyzeStatements sc.newScope stmts).scope.leave sc = sc :=
      leave_of_parent _ _ _ (by rw [h2.parent_eq, newScope_parent])
    simp only [analyzeStatement]
    split
    · rw [h1]; exact Frame.refl _ _
    · rw [h1, hl]
      split
      · exact Frame.refl _ _
      · refine h3.weaken ?_
        intro id hid
        obtain ⟨s, hs, hd⟩ := hid
        subst hs
        simpa [declaresDirectly] using hd
  | .WhileStatement cond stmts, sc => by
    have h1 := analyzeExpression_scope cond sc
    have h2 := analyzeStatements_frame stmts sc.newScope
    have hl : (analyzeStatements sc.newScope stmts).scope.leave sc = sc :=
      leave_of_parent _ _ _ (by rw [h2.parent_eq, newScope_parent])
    simp only [analyzeStatement]
    split
    · rw [h1]; exact Frame.refl _ _
    · rw [h1, hl]; exact Frame.refl _ _
  | .DeclarationStatement id value, sc => by
    have h1 := analyzeExpression_scope value sc
    simp only [analyzeStatement]
    split
    · rw [h1]; exact Frame.refl _ _
    · rw [h1]
      split
      · exact Frame.refl _ _
      · refine ⟨rfl, ?_, ?_⟩
        · intro x hx
          rw [declare_definitions, List.mem_insert_iff]
          exact Or.inr hx
        · intro x hx
          rw [declare_definitions, List.mem_insert_iff] at hx
          rcases hx with hx | hx
          · right; simp [declaresDirectly, hx]
          · exact Or.inl hx
  | .AssignmentStatement id value idx, sc => by
    have h1 := analyzeExpression_scope value sc
    simp only [analyzeStatement]
    split
    · rw [h1]; exact Frame.refl _ _
    · rw [h1]
      split <;> exact Frame.refl _ _
  | .ReturnStatement e, sc => by
    simp only [analyzeStatement]
    rw [analyzeExpression_scope e sc]; exact Frame.refl _ _
  | .ExpressionStatement e, sc => by
    simp only [analyzeStatement]
    rw [analyzeExpression_scope e sc]; exact Frame.refl _ _
theorem analyzeStatements_frame : ∀ (ss : List Statement) (sc : definitionScope),
    Frame sc (analyzeStatements sc ss).scope (fun id => ∃ s ∈ ss, declaresDirectly id s = true)
  | [], sc => Frame.refl _ _
  | s :: ss, sc => by
    have h1 := analyzeStatement_frame s sc
    have h2 := analyzeStatements_frame ss (analyzeStatement sc s).scope
    simp only [analyzeStatements]
    split
    · exact h1.weaken (fun id h => ⟨s, List.mem_cons_self _ _, h⟩)
    · refine (h1.trans h2).weaken ?_
      intro id h
      rcases h with h | ⟨t, ht, hd⟩
      · exact ⟨s, List.mem_cons_self _ _, h⟩
      · exact ⟨t, List.mem_cons_of_mem _ ht, hd⟩
theorem analyzeElseBranch_frame : ∀ (els : Option Statement) (sc : definitionScope),
    Frame sc (analyzeElseBranch sc els).scope
      (fun id => ∃ s, els = some s ∧ declaresDirectly id s = true)
  | none, sc => Frame.refl _ _
  | some s, sc => by
    simp only [analyzeElseBranch]
    exact (analyzeStatement_frame s sc).weaken (fun id h => ⟨s, rfl, h⟩)
end

/-! ## Every node is visited -/

mutual
theorem analyzeExpression_annotated : ∀ (e : Expression) (sc : definitionScope),
    (analyzeExpression sc e).err = none → Expression.annotated (analyzeExpression sc e).node = true
  | .IfExpression cond value els, sc => by
    intro h
    have h1 := analyzeCondition_annotated cond sc
    have h2 := analyzeExpression_annotated value (analyzeCondition sc cond).scope
    have h3 := analyzeCondition_annotated els
      (analyzeExpression (analyzeCondition sc cond).scope value).scope
    simp only [analyzeExpression] at h ⊢
    cases hc : (analyzeCondition sc cond).err with
    | some err => simp [hc] at h
    | none =>
      simp only [hc] at h ⊢
      cases hv : (analyzeExpression (analyzeCondition sc cond).scope value).err with
      | some err => simp [hv] at h
      | none =>
        simp only [hv] at h ⊢
        simp [Expression.annotated, h1 hc, h2 hv, h3 h]
  | .BinaryOperationExpression a b, sc => by
    intro h
    have h1 := analyzeExpression_annotated a sc
    have h2 := analyzeExpression_annotated b (analyzeExpression sc a).scope
    simp only [analyzeExpression] at h ⊢
    cases ha : (analyzeExpression sc a).err with
    | some err => simp [ha] at h
    | none =>
      simp only [ha] at h ⊢
      simp [Expression.annotated, h1 ha, h2 h]
  | .LookupExpression id idx, sc => by
    intro h
    simp only [analyzeExpression] at h ⊢
    by_cases hl : sc.lookup id 0 = -1
    · simp [hl] at h
    · simp only [hl, if_false, Expression.annotated, decide_eq_true_eq]
      exact (lookup_nonneg sc id).resolve_left hl
  | .CallExpression callee params, sc => by
    intro h
    have h1 := analyzeExpression_annotated callee sc
    have h2 := analyzeExpressions_annotated params (analyzeExpression sc callee).scope
    simp only [analyzeExpression] at h ⊢
    cases hc : (analyzeExpression sc callee).err with
    | some err => simp [hc] at h
    | none =>
      simp only [hc] at h ⊢
      simp [Expression.annotated, h1 hc, h2 h]
  | .Function params stmts, sc => by
    intro h
    have h1 := analyzeStatements_annotated stmts (declareAll sc.newScope params)
    simp only [analyzeExpression] at h ⊢
    simp [Expression.annotated, h1 h]
  | .Other text, sc => by
    intro _
    rfl
theorem analyzeCondition_annotated : ∀ (e : Option Expression) (sc : definitionScope),
    (analyzeCondition sc e).err = none → annotatedCondition (analyzeCondition sc e).node = true
  | none, sc => fun _ => rfl
  | some e, sc => by
    intro h
    simp only [analyzeCondition] at h ⊢
    simp [annotatedCondition, analyzeExpression_annotated e sc h]
theorem analyzeExpressions_annotated : ∀ (es : List Expression) (sc : definitionScope),
    (analyzeExpressions sc es).err = none →
      annotatedExpressions (analyzeExpressions sc es).node = true
  | [], sc => fun _ => rfl
  | e :: es, sc => by
    intro h
    have h1 := analyzeExpression_annotated e sc
    have h2 := analyzeExpressions_annotated es (analyzeExpression sc e).scope
    simp only [analyzeExpressions] at h ⊢
    cases he : (analyzeExpression sc e).err with
    | some err => simp [he] at h
    | none =>
      simp only [he] at h ⊢
      simp [annotatedExpressions, h1 he, h2 h]
theorem analyzeStatement_annotated : ∀ (s : Statement) (sc : definitionScope),
    (analyzeStatement sc s).err = none → Statement.annotated (analyzeStatement sc s).node = true
  | .IfStatement cond stmts els, sc => by
    intro h
    have h1 := analyzeCondition_annotated cond sc
    have h2 := analyzeStatements_annotated stmts (analyzeCondition sc cond).scope.newScope
    have h3 := analyzeElseBranch_annotated els
      ((analyzeStatements (analyzeCondition sc cond).scope.newScope stmts).scope.leave
        (analyzeCondition sc cond).scope)
    simp only [analyzeStatement] at h ⊢
    cases hc : (analyzeCondition sc cond).err with
    | some err => simp [hc] at h
    | none =>
      simp only [hc] at h ⊢
      cases hb : (analyzeStatements (analyzeCondition sc cond).scope.newScope stmts).err with
      | some err => simp [hb] at h
      | none =>
        simp only [hb] at h ⊢
        simp [Statement.annotated, h1 hc, h2 hb, h3 h]
  | .WhileStatement cond stmts, sc => by
    intro h
    have h1 := analyzeExpression_annotated cond sc
    have h2 := analyzeStatements_annotated stmts (analyzeExpression sc cond).scope.newScope
    simp only [analyzeStatement] at h ⊢
    cases hc : (analyzeExpression sc cond).err with
    | some err => simp [hc] at h
    | none =>
      simp only [hc] at h ⊢
      simp [Statement.annotated, h1 hc, h2 h]
  | .DeclarationStatement id value, sc => by
    intro h
    have h1 := analyzeExpression_annotated value sc
    simp only [analyzeStatement] at h ⊢
    cases hv : (analyzeExpression sc value).err with
    | some err => simp [hv] at h
    | none =>
      simp only [hv] at h ⊢
      split
      · simp [Statement.annotated, h1 hv]
      · simp [Statement.annotated, h1 hv]
  | .AssignmentStatement id value idx, sc => by
    intro h
    have h1 := analyzeExpression_annotated value sc
    simp only [analyzeStatement] at h ⊢
    cases hv : (analyzeExpression sc value).err with
    | some err => simp [hv] at h
    | none =>
      simp only [hv] at h ⊢
      by_cases hl : (analyzeExpression sc value).scope.lookup id 0 = -1
      · simp [hl] at h
      · simp only [hl, if_false, Statement.annotated, h1 hv, Bool.true_and, decide_eq_true_eq]
        exact (lookup_nonneg _ id).resolve_left hl
  | .ReturnStatement e, sc => by
    intro h
    simp only [analyzeStatement] at h ⊢
    simp [Statement.annotated, analyzeExpression_annotated e sc h]
  | .ExpressionStatement e, sc => by
    intro h
    simp only [analyzeStatement] at h ⊢
    simp [Statement.annotated, analyzeExpression_annotated e sc h]
theorem analyzeStatements_annotated : ∀ (ss : List Statement) (sc : definitionScope),
    (analyzeStatements sc ss).err = none →
      annotatedStatements (analyzeStatements sc ss).node = true
  | [], sc => fun _ => rfl
  | s :: ss, sc => by
    intro h
    have h1 := analyzeStatement_annotated s sc
    have h2 := analyzeStatements_annotated ss (analyzeStatement sc s).scope
    simp only [analyzeStatements] at h ⊢
    cases hs : (analyzeStatement sc s).err with
    | some err => simp [hs] at h
    | none =>
      simp only [hs] at h ⊢
      simp [annotatedStatements, h1 hs, h2 h]
theorem analyzeElseBranch_annotated : ∀ (els : Option Statement) (sc : definitionScope),
    (analyzeElseBranch sc els).err = none →
      annotatedElseBranch (analyzeElseBranch sc els).node = true
  | none, sc => fun _ => rfl
  | some s, sc => by
    intro h
    simp only [analyzeElseBranch] at h ⊢
    simp [annotatedElseBranch, analyzeStatement_annotated s sc h]
end

/-! ## The analysis changes nothing but `ScopeIndex` -/

mutual
theorem analyzeExpression_erase : ∀ (e : Expression) (sc : definitionScope),
    Expression.erase (analyzeExpression sc e).node = Expression.erase e
  | .IfExpression cond value els, sc => by
    have h1 := analyzeCondition_erase cond sc
    have h2 := analyzeExpression_erase value (analyzeCondition sc cond).scope
    have h3 := analyzeCondition_erase els
      (analyzeExpression (analyzeCondition sc cond).scope value).scope
    simp only [analyzeExpression]
    split
    · simp only [Expression.erase, h1]
    · split
      · simp only [Expression.erase, h1, h2]
      · simp only [Expression.erase, h1, h2, h3]
  | .BinaryOperationExpression a b, sc => by
    have h1 := analyzeExpression_erase a sc
    have h2 := analyzeExpression_erase b (analyzeExpression sc a).scope
    simp only [analyzeExpression]
    split
    · simp only [Expression.erase, h1]
    · simp only [Expression.erase, h1, h2]
  | .LookupExpression id idx, sc => by
    simp only [analyzeExpression]
    split <;> rfl
  | .CallExpression callee params, sc => by
    have h1 := analyzeExpression_erase callee sc
    have h2 := analyzeExpressions_erase params (analyzeExpression sc callee).scope
    simp only [analyzeExpression]
    split
    · simp only [Expression.erase, h1]
    · simp only [Expression.erase, h1, h2]
  | .Function params stmts, sc => by
    have h1 := analyzeStatements_erase stmts (declareAll sc.newScope params)
    simp only [analyzeExpression, Expression.erase, h1]
  | .Other text, sc => rfl
theorem analyzeCondition_erase : ∀ (e : Option Expression) (sc : definitionScope),
    eraseCondition (analyzeCondition sc e).node = eraseCondition e
  | none, sc => rfl
  | some e, sc => by
    simp only [analyzeCondition, eraseCondition, analyzeExpression_erase e sc]
theorem analyzeExpressions_erase : ∀ (es : List Expression) (sc : definitionScope),
    eraseExpressions (analyzeExpressions sc es).node = eraseExpressions es
  | [], sc => rfl
  | e :: es, sc => by
    have h1 := analyzeExpression_erase e sc
    have h2 := analyzeExpressions_erase es (analyzeExpression sc e).scope
    simp only [analyzeExpressions]
    split
    · simp only [eraseExpressions, h1]
    · simp only [eraseExpressions, h1, h2]
theorem analyzeStatement_erase : ∀ (s : Statement) (sc : definitionScope),
    Statement.erase (analyzeStatement sc s).node = Statement.erase s
  | .IfStatement cond stmts els, sc => by
    have h1 := analyzeCondition_erase cond sc
    have h2 := analyzeStatements_erase stmts (analyzeCondition sc cond).scope.newScope
    have h3 := analyzeElseBranch_erase els
      ((analyzeStatements (analyzeCondition sc cond).scope.newScope stmts).scope.leave
        (analyzeCondition sc cond).scope)
    simp only [analyzeStatement]
    split
    · simp only [Statement.erase, h1]
    · split
      · simp only [Statement.erase, h1, h2]
      · simp only [Statement.erase, h1, h2, h3]
  | .WhileStatement cond stmts, sc => by
    have h1 := analyzeExpression_erase cond sc
    have h2 := analyzeStatements_erase stmts (analyzeExpression sc cond).scope.newScope
    simp only [analyzeStatement]
    split
    · simp only [Statement.erase, h1]
    · simp only [Statement.erase, h1, h2]
  | .DeclarationStatement id value, sc => by
    have h1 := analyzeExpression_erase value sc
    simp only [analyzeStatement]
    split
    · simp only [Statement.erase, h1]
    · split <;> simp only [Statement.erase, h1]
  | .AssignmentStatement id value idx, sc => by
    have h1 := analyzeExpression_erase value sc
    simp only [analyzeStatement]
    split
    · simp only [Statement.erase, h1]
    · split <;> simp only [Statement.erase, h1]
  | .ReturnStatement e, sc => by
    simp only [analyzeStatement, Statement.erase, analyzeExpression_erase e sc]
  | .ExpressionStatement e, sc => by
    simp only [analyzeStatement, Statement.erase, analyzeExpression_erase e sc]
theorem analyzeStatements_erase : ∀ (ss : List Statement) (sc : definitionScope),
    eraseStatements (analyzeStatements sc ss).node = eraseStatements ss
  | [], sc => rfl
  | s :: ss, sc => by
    have h1 := analyzeStatement_erase s sc
    have h2 := analyzeStatements_erase ss (analyzeStatement sc s).scope
    simp only [analyzeStatements]
    split
    · simp only [eraseStatements, h1]
    · simp only [eraseStatements, h1, h2]
theorem analyzeElseBranch_erase : ∀ (els : Option Statement) (sc : definitionScope),
    eraseElseBranch (analyzeElseBranch sc els).node = eraseElseBranch els
  | none, sc => rfl
  | some s, sc => by
    simp only [analyzeElseBranch, eraseElseBranch, analyzeStatement_erase s sc]
end

/-- C4: when `AnalyzeLookups` returns no error, the program it leaves is the
program it was given with only `ScopeIndex` fields changed, and every lookup
and every assignment node of it, at any depth (blocks of if and while,
else-branches, if-expressions, call arguments, function bodies), carries a
non-negative `ScopeIndex`, whatever the fields held before; so -1 is stored on
no node. -/
theorem C4_success_annotates_every_node (p : Program)
    (h : (AnalyzeLookups p).err = none) :
    annotatedStatements (AnalyzeLookups p).node.Statements = true ∧
      eraseStatements (AnalyzeLookups p).node.Statements = eraseStatements p.Statements :=
  ⟨analyzeStatements_annotated p.Statements (.mk [] none) h,
    analyzeStatements_erase p.Statements (.mk [] none)⟩

theorem C4_success_annotates_every_node_witness :
    (AnalyzeLookups (programIfLookup (-7))).err = none ∧
    annotatedStatements (AnalyzeLookups (programIfLookup (-7))).node.Statements = true ∧
    eraseStatements (AnalyzeLookups (programIfLookup (-7))).node.Statements
      = eraseStatements (programIfLookup (-7)).Statements :=
  ⟨rfl, C4_success_annotates_every_node (programIfLookup (-7)) rfl⟩

/-! ## Statement lists -/

theorem analyzeStatements_cons_ok (sc : definitionScope) (s : Statement) (ss : List Statement)
    (h : (analyzeStatement sc s).err = none) :
    analyzeStatements sc (s :: ss)
      = ⟨(analyzeStatements (analyzeStatement sc s).scope ss).scope,
          (analyzeStatement sc s).node :: (analyzeStatements (analyzeStatement sc s).scope ss).node,
          (analyzeStatements (analyzeStatement sc s).scope ss).err⟩ := by
  simp only [analyzeStatements, h]

theorem analyzeStatements_cons_err (sc : definitionScope) (s : Statement) (ss : List Statement)
    (err : String) (h : (analyzeStatement sc s).err = some err) :
    analyzeStatements sc (s :: ss)
      = ⟨(analyzeStatement sc s).scope, (analyzeStatement sc s).node :: ss, some err⟩ := by
  simp only [analyzeStatements, h]

/-- The loop over a list `a ++ b` whose part `a` is analysed without error goes
on with `b` in the scope `a` has left. -/
theorem analyzeStatements_append (a b : List Statement) (sc : definitionScope)
    (h : (analyzeStatements sc a).err = none) :
    analyzeStatements sc (a ++ b)
      = ⟨(analyzeStatements (analyzeStatements sc a).scope b).scope,
          (analyzeStatements sc a).node ++ (analyzeStatements (analyzeStatements sc a).scope b).node,
          (analyzeStatements (analyzeStatements sc a).scope b).err⟩ := by
  induction a generalizing sc with
  | nil => rfl
  | cons s ss ih =>
    simp only [analyzeStatements] at h
    cases hs : (analyzeStatement sc s).err with
    | some err => simp [hs] at h
    | none =>
      simp only [hs] at h
      rw [List.cons_append, analyzeStatements_cons_ok _ _ _ hs, ih _ h,
        analyzeStatements_cons_ok _ _ _ hs]
      rfl

/-- The loop returns at the first error: when `a ++ b` is analysed without
error, so is `a`. -/
theorem analyzeStatements_append_ok (a b : List Statement) (sc : definitionScope)
    (h : (analyzeStatements sc (a ++ b)).err = none) : (analyzeStatements sc a).err = none := by
  induction a generalizing sc with
  | nil => rfl
  | cons s ss ih =>
    rw [List.cons_append] at h
    cases hs : (analyzeStatement sc s).err with
    | some err => rw [analyzeStatements_cons_err _ _ _ _ hs] at h; simp at h
    | none =>
      rw [analyzeStatements_cons_ok _ _ _ hs] at h ⊢
      exact ih _ h

/-- A declaration analysed without error has registered its identifier. -/
theorem declaration_ok_mem (sc : definitionScope) (x : String) (e : Expression)
    (h : (analyzeStatement sc (.DeclarationStatement x e)).err = none) :
    x ∈ (analyzeStatement sc (.DeclarationStatement x e)).scope.definitions := by
  simp only [analyzeStatement] at h ⊢
  cases hv : (analyzeExpression sc e).err with
  | some err => simp [hv] at h
  | none =>
    simp only [hv] at h ⊢
    split
    · rename_i hh; simp [hh] at h
    · rw [declare_definitions, List.mem_insert_iff]
      exact Or.inl rfl

/-- A declaration of a name the scope already holds fails with the
redeclaration error, once its value has been analysed without error. -/
theorem declaration_of_mem (sc : definitionScope) (x : String) (e : Expression)
    (hx : x ∈ sc.definitions) (he : (analyzeExpression sc e).err = none) :
    analyzeStatement sc (.DeclarationStatement x e)
      = ⟨sc, .DeclarationStatement x (analyzeExpression sc e).node,
          some ("Redeclaration of " ++ x ++ " in same scope")⟩ := by
  have hsc := analyzeExpression_scope e sc
  simp only [analyzeStatement, he, hsc, (has_iff _ _).2 hx, if_true]

/-- A declaration of a name the scope does not hold yet registers it, once its
value has been analysed without error. -/
theorem declaration_of_not_mem (sc : definitionScope) (x : String) (e : Expression)
    (hx : x ∉ sc.definitions) (he : (analyzeExpression sc e).err = none) :
    analyzeStatement sc (.DeclarationStatement x e)
      = ⟨sc.declare x, .DeclarationStatement x (analyzeExpression sc e).node, none⟩ := by
  have hsc := analyzeExpression_scope e sc
  have hh : definitionSet.has sc.definitions x = false := by
    cases h : definitionSet.has sc.definitions x with
    | false => rfl
    | true => exact absurd ((has_iff _ _).1 h) hx
  simp only [analyzeStatement, he, hsc, hh, Bool.false_eq_true, if_false]

/-- C5: in a statement list analysed in one scope, let `x` be declared by a
statement of the list and declared again by a later one. When the statements
before the second declaration are analysed without error, and so is the value
of the second declaration, the analysis of the list returns the redeclaration
error naming `x`; it stops there, leaving the statements after the second
declaration as they were. -/
theorem C5_redeclaration_in_same_scope (sc : definitionScope) (x : String)
    (e1 e2 : Expression) (ss1 ss2 ss3 : List Statement)
    (hpre : (analyzeStatements sc (ss1 ++ .DeclarationStatement x e1 :: ss2)).err = none)
    (hval : (analyzeExpression
      (analyzeStatements sc (ss1 ++ .DeclarationStatement x e1 :: ss2)).scope e2).err = none) :
    (analyzeStatements sc
        ((ss1 ++ .DeclarationStatement x e1 :: ss2) ++ .DeclarationStatement x e2 :: ss3)).err
      = some ("Redeclaration of " ++ x ++ " in same scope") ∧
    (analyzeStatements sc
        ((ss1 ++ .DeclarationStatement x e1 :: ss2) ++ .DeclarationStatement x e2 :: ss3)).node
      = (analyzeStatements sc (ss1 ++ .DeclarationStatement x e1 :: ss2)).node
        ++ .DeclarationStatement x (analyzeExpression
            (analyzeStatements sc (ss1 ++ .DeclarationStatement x e1 :: ss2)).scope e2).node
          :: ss3 := by
  have hmem : x ∈ (analyzeStatements sc (ss1 ++ .DeclarationStatement x e1 :: ss2)).scope.definitions := by
    have h1 := analyzeStatements_append_ok ss1 _ sc hpre
    rw [analyzeStatements_append ss1 _ sc h1] at hpre ⊢
    simp only at hpre ⊢
    generalize (analyzeStatements sc ss1).scope = sc1 at hpre ⊢
    simp only [analyzeStatements] at hpre ⊢
    cases hd : (analyzeStatement sc1 (.DeclarationStatement x e1)).err with
    | some err => simp [hd] at hpre
    | none =>
      simp only [hd]
      exact (analyzeStatements_frame ss2 _).mono x (declaration_ok_mem sc1 x e1 hd)
  rw [analyzeStatements_append _ _ sc hpre]
  simp only [analyzeStatements, declaration_of_mem _ x e2 hmem hval, and_self]

theorem C5_redeclaration_in_same_scope_witness :
    (AnalyzeLookups programRedeclaration).err = some "Redeclaration of x in same scope" ∧
    (AnalyzeLookups programRedeclaration).node.Statements = programRedeclaration.Statements :=
  C5_redeclaration_in_same_scope (.mk [] none) "x" (.Other "1") (.Other "2") [] [] [] rfl rfl

/-! ## Assignments and lookups -/

/-- C6: an assignment `y = e` analysed in a scope chain none of whose scopes,
from the current one out to the global one, declares `y`, and whose value is
analysed without error, returns the undeclared-assignment error naming `y`;
the scope is left as it was and the `ScopeIndex` of the node keeps the value
`idx` it had. -/
theorem C6_undeclared_assignment (sc : definitionScope) (y : String) (e : Expression) (idx : Int)
    (hy : ∀ d ∈ sc.chain, y ∉ d) (he : (analyzeExpression sc e).err = none) :
    analyzeStatement sc (.AssignmentStatement y e idx)
      = ⟨sc, .AssignmentStatement y (analyzeExpression sc e).node idx,
          some (y ++ " must be declared before assignment")⟩ := by
  have hsc := analyzeExpression_scope e sc
  have hl := (lookup_eq_neg_one_iff sc y).2 hy
  simp only [analyzeStatement, he, hsc, hl, if_true]

theorem C6_undeclared_assignment_witness :
    (AnalyzeLookups (programUndeclaredAssignment 5)).err
      = some "y must be declared before assignment" ∧
    analyzeStatement (.mk [] none) (.AssignmentStatement "y" (.Other "1") 5)
      = ⟨.mk [] none, .AssignmentStatement "y" (.Other "1") 5,
          some "y must be declared before assignment"⟩ :=
  ⟨rfl, C6_undeclared_assignment (.mk [] none) "y" (.Other "1") 5 (by decide) rfl⟩

/-- C7: a lookup of `x` analysed in a scope chain returns the undeclared-lookup
error naming `x` exactly when no scope of the chain, from the current one out
to the global one, declares `x`. Otherwise it returns no error and stores the
distance `k` of `x` in the chain, and an assignment to `x` analysed in the same
scope, with a value analysed without error, stores the same `k`. -/
theorem C7_lookup_resolution (sc : definitionScope) (x : String) (idx : Int) :
    ((analyzeExpression sc (.LookupExpression x idx)).err
        = some (x ++ " must be declared before usage") ↔ ∀ d ∈ sc.chain, x ∉ d) ∧
    ((∃ d ∈ sc.chain, x ∈ d) →
      ∃ k : Nat, distanceIn sc.chain x = some k ∧
        analyzeExpression sc (.LookupExpression x idx)
          = ⟨sc, .LookupExpression x (k : Int), none⟩ ∧
        ∀ (e : Expression) (j : Int), (analyzeExpression sc e).err = none →
          analyzeStatement sc (.AssignmentStatement x e j)
            = ⟨sc, .AssignmentStatement x (analyzeExpression sc e).node (k : Int), none⟩) := by
  constructor
  · rw [← lookup_eq_neg_one_iff]
    by_cases hl : sc.lookup x 0 = -1
    · simp [analyzeExpression, hl]
    · simp [analyzeExpression, hl]
  · intro hd
    have hne : distanceIn sc.chain x ≠ none := by
      rw [Ne, distanceIn_eq_none_iff]
      obtain ⟨d, hd1, hd2⟩ := hd
      exact fun h => h d hd1 hd2
    obtain ⟨k, hk⟩ := Option.ne_none_iff_exists'.1 hne
    have hl : sc.lookup x 0 = (k : Int) := by
      rw [lookup_eq, hk]
      simp
    have hl1 : ¬ ((k : Int) = -1) := by
      have := Int.natCast_nonneg k
      omega
    refine ⟨k, hk, ?_, ?_⟩
    · simp only [analyzeExpression, hl, hl1, if_false]
    · intro e j he
      have hsc := analyzeExpression_scope e sc
      simp only [analyzeStatement, he, hsc, hl, hl1, if_false]

theorem C7_lookup_resolution_witness :
    analyzeExpression (.mk ["y"] (some (.mk ["x"] none))) (.LookupExpression "x" 9)
      = ⟨.mk ["y"] (some (.mk ["x"] none)), .LookupExpression "x" 1, none⟩ ∧
    analyzeStatement (.mk ["y"] (some (.mk ["x"] none)))
        (.AssignmentStatement "x" (.LookupExpression "y" 9) 9)
      = ⟨.mk ["y"] (some (.mk ["x"] none)),
          .AssignmentStatement "x" (.LookupExpression "y" 0) 1, none⟩ := by
  obtain ⟨k, hk, h1, h2⟩ :=
    (C7_lookup_resolution (.mk ["y"] (some (.mk ["x"] none))) "x" 9).2 ⟨["x"], by decide, by decide⟩
  have hk1 : k = 1 := by
    have h : distanceIn (definitionScope.chain (.mk ["y"] (some (.mk ["x"] none)))) "x" = some 1 := by
      decide
    rw [h] at hk
    exact (Option.some.inj hk).symm
  subst hk1
  exact ⟨h1, h2 (.LookupExpression "y" 9) 9 rfl⟩

/-! ## Lookups made in the scope of a statement -/

mutual
/-- An expression analysed without error has stored `lookup(x, 0)` of its scope
on every lookup of `x` it makes in that scope. -/
theorem analyzeExpression_direct (x : String) : ∀ (e : Expression) (sc : definitionScope),
    (analyzeExpression sc e).err = none →
      Expression.directLookupsAre x (sc.lookup x 0) (analyzeExpression sc e).node = true
  | .IfExpression cond value els, sc => by
    intro h
    have h1 := analyzeCondition_direct x cond sc
    have h2 := analyzeExpression_direct x value (analyzeCondition sc cond).scope
    have h3 := analyzeCondition_direct x els
      (analyzeExpression (analyzeCondition sc cond).scope value).scope
    rw [analyzeExpression_scope, analyzeCondition_scope] at h3
    rw [analyzeCondition_scope] at h2
    simp only [analyzeExpression] at h ⊢
    cases hc : (analyzeCondition sc cond).err with
    | some err => simp [hc] at h
    | none =>
      simp only [hc] at h ⊢
      rw [analyzeCondition_scope] at h ⊢
      cases hv : (analyzeExpression sc value).err with
      | some err => simp [hv] at h
      | none =>
        simp only [hv] at h ⊢
        rw [analyzeExpression_scope] at h ⊢
        simp [Expression.directLookupsAre, h1 hc, h2 hv, h3 h]
  | .BinaryOperationExpression a b, sc => by
    intro h
    have h1 := analyzeExpression_direct x a sc
    have h2 := analyzeExpression_direct x b (analyzeExpression sc a).scope
    rw [analyzeExpression_scope] at h2
    simp only [analyzeExpression] at h ⊢
    cases ha : (analyzeExpression sc a).err with
    | some err => simp [ha] at h
    | none =>
      simp only [ha] at h ⊢
      rw [analyzeExpression_scope] at h ⊢
      simp [Expression.directLookupsAre, h1 ha, h2 h]
  | .LookupExpression id idx, sc => by
    intro h
    simp only [analyzeExpression] at h ⊢
    by_cases hl : sc.lookup id 0 = -1
    · simp [hl] at h
    · simp only [hl, if_false, Expression.directLookupsAre, decide_eq_true_eq]
      intro hx
      rw [hx]
  | .CallExpression callee params, sc => by
    intro h
    have h1 := analyzeExpression_direct x callee sc
    have h2 := analyzeExpressions_direct x params (analyzeExpression sc callee).scope
    rw [analyzeExpression_scope] at h2
    simp only [analyzeExpression] at h ⊢
    cases hc : (analyzeExpression sc callee).err with
    | some err => simp [hc] at h
    | none =>
      simp only [hc] at h ⊢
      rw [analyzeExpression_scope] at h ⊢
      simp [Expression.directLookupsAre, h1 hc, h2 h]
  | .Function params stmts, sc => by
    intro _
    simp only [analyzeExpression, Expression.directLookupsAre]
  | .Other text, sc => by
    intro _
    rfl
theorem analyzeCondition_direct (x : String) : ∀ (e : Option Expression) (sc : definitionScope),
    (analyzeCondition sc e).err = none →
      directLookupsAreCondition x (sc.lookup x 0) (analyzeCondition sc e).node = true
  | none, sc => fun _ => rfl
  | some e, sc => by
    intro h
    simp only [analyzeCondition] at h ⊢
    simp [directLookupsAreCondition, analyzeExpression_direct x e sc h]
theorem analyzeExpressions_direct (x : String) : ∀ (es : List Expression) (sc : definitionScope),
    (analyzeExpressions sc es).err = none →
      directLookupsAreExpressions x (sc.lookup x 0) (analyzeExpressions sc es).node = true
  | [], sc => fun _ => rfl
  | e :: es, sc => by
    intro h
    have h1 := analyzeExpression_direct x e sc
    have h2 := analyzeExpressions_direct x es (analyzeExpression sc e).scope
    rw [analyzeExpression_scope] at h2
    simp only [analyzeExpressions] at h ⊢
    cases he : (analyzeExpression sc e).err with
    | some err => simp [he] at h
    | none =>
      simp only [he] at h ⊢
      rw [analyzeExpression_scope] at h ⊢
      simp [directLookupsAreExpressions, h1 he, h2 h]
end

/-- The scope an if-statement goes on with after its block is the scope it was
given. -/
theorem leave_block (sc : definitionScope) (stmts : List Statement) :
    (analyzeStatements sc.newScope stmts).scope.leave sc = sc :=
  leave_of_parent _ _ _ (by rw [(analyzeStatements_frame stmts sc.newScope).parent_eq,
    newScope_parent])

/-- A statement analysed without error has stored `lookup(x, 0)` of its scope on
every lookup of `x` it makes in that scope. -/
theorem analyzeStatement_direct (x : String) : ∀ (s : Statement) (sc : definitionScope),
    (analyzeStatement sc s).err = none →
      Statement.directLookupsAre x (sc.lookup x 0) (analyzeStatement sc s).node = true
  | .IfStatement cond stmts none, sc => by
    intro h
    have h1 := analyzeCondition_direct x cond sc
    simp only [analyzeStatement] at h ⊢
    cases hc : (analyzeCondition sc cond).err with
    | some err => simp [hc] at h
    | none =>
      simp only [hc] at h ⊢
      cases hb : (analyzeStatements (analyzeCondition sc cond).scope.newScope stmts).err with
      | some err => simp [hb] at h
      | none =>
        simp only [hb, analyzeElseBranch] at h ⊢
        simp [Statement.directLookupsAre, h1 hc]
  | .IfStatement cond stmts (some els), sc => by
    intro h
    have h1 := analyzeCondition_direct x cond sc
    have h2 := analyzeStatement_direct x els sc
    simp only [analyzeStatement] at h ⊢
    cases hc : (analyzeCondition sc cond).err with
    | some err => simp [hc] at h
    | none =>
      simp only [hc] at h ⊢
      rw [analyzeCondition_scope] at h ⊢
      cases hb : (analyzeStatements sc.newScope stmts).err with
      | some err => simp [hb] at h
      | none =>
        simp only [hb, analyzeElseBranch] at h ⊢
        rw [leave_block] at h ⊢
        simp [Statement.directLookupsAre, h1 hc, h2 h]
  | .WhileStatement cond stmts, sc => by
    intro h
    have h1 := analyzeExpression_direct x cond sc
    simp only [analyzeStatement] at h ⊢
    cases hc : (analyzeExpression sc cond).err with
    | some err => simp [hc] at h
    | none =>
      simp only [hc] at h ⊢
      simp [Statement.directLookupsAre, h1 hc]
  | .DeclarationStatement id value, sc => by
    intro h
    have h1 := analyzeExpression_direct x value sc
    simp only [analyzeStatement] at h ⊢
    cases hv : (analyzeExpression sc value).err with
    | some err => simp [hv] at h
    | none =>
      simp only [hv] at h ⊢
      split <;> simp [Statement.directLookupsAre, h1 hv]
  | .AssignmentStatement id value idx, sc => by
    intro h
    have h1 := analyzeExpression_direct x value sc
    simp only [analyzeStatement] at h ⊢
    cases hv : (analyzeExpression sc value).err with
    | some err => simp [hv] at h
    | none =>
      simp only [hv] at h ⊢
      split <;> simp [Statement.directLookupsAre, h1 hv]
  | .ReturnStatement e, sc => by
    intro h
    simp only [analyzeStatement] at h ⊢
    simp [Statement.directLookupsAre, analyzeExpression_direct x e sc h]
  | .ExpressionStatement e, sc => by
    intro h
    simp only [analyzeStatement] at h ⊢
    simp [Statement.directLookupsAre, analyzeExpression_direct x e sc h]

/-- Along a statement list analysed without error, when every scope the loop
goes through satisfies an invariant `I` that fixes `lookup(x, 0)` to `k`, every
lookup of `x` made in the scope of the list carries `k`. -/
theorem analyzeStatements_direct (x : String) (k : Int) (I : definitionScope → Prop)
    (hI : ∀ sc, I sc → sc.lookup x 0 = k) :
    ∀ (ss : List Statement) (sc : definitionScope), I sc →
      (∀ s ∈ ss, ∀ sc1, I sc1 → I (analyzeStatement sc1 s).scope) →
      (analyzeStatements sc ss).err = none →
      ∀ s1 ∈ (analyzeStatements sc ss).node, Statement.directLookupsAre x k s1 = true
  | [], sc => by
    intro _ _ _ s1 hs1
    simp [analyzeStatements] at hs1
  | s :: ss, sc => by
    intro hsc hstep h s1 hs1
    cases hs : (analyzeStatement sc s).err with
    | some err => rw [analyzeStatements_cons_err _ _ _ _ hs] at h; simp at h
    | none =>
      rw [analyzeStatements_cons_ok _ _ _ hs] at h hs1
      simp only [List.mem_cons] at hs1
      rcases hs1 with hs1 | hs1
      · rw [hs1, ← hI sc hsc]
        exact analyzeStatement_direct x s sc hs
      · exact analyzeStatements_direct x k I hI ss _
          (hstep s (List.mem_cons_self _ _) sc hsc)
          (fun t ht => hstep t (List.mem_cons_of_mem _ ht)) h s1 hs1

/-! ## Blocks -/

/-- In the block of an if-statement entered from a scope that declares `x`,
as long as no statement of the block declares `x`, `lookup(x, 0)` is 1. -/
theorem then_block_invariant (S : definitionScope) (x : String) (hx : x ∈ S.definitions)
    (sc : definitionScope) (h : x ∉ sc.definitions ∧ sc.parent = some S) :
    sc.lookup x 0 = 1 := by
  rw [lookup_of_not_mem sc S x 0 h.1 h.2, lookup_of_mem S x _ hx]
  rfl

/-- Amended C9: for the program `f := fn(a) { g := fn(b) { a + b }; }`,
whatever the `ScopeIndex` fields hold before, `AnalyzeLookups` returns no error
and stores `ScopeIndex = 1` on the lookup of `a` inside the body of `g` (one
scope out, from the scope of `g` to the scope of `f`), and 0 on the lookup of
`b`. -/
theorem C9_nested_function_lookup (i : Int) :
    (AnalyzeLookups (programNestedFunctions i)).err = none ∧
    (AnalyzeLookups (programNestedFunctions i)).node.Statements
      = [.DeclarationStatement "f" (.Function ["a"]
          [.DeclarationStatement "g" (.Function ["b"]
            [.ExpressionStatement (.BinaryOperationExpression
              (.LookupExpression "a" 1) (.LookupExpression "b" 0))])])] ∧
    scopeIndexOfAInG (AnalyzeLookups (programNestedFunctions i)).node = some 1 :=
  ⟨rfl, rfl, rfl⟩

/-- C9 as stated fails: on `f := fn(a) { g := fn(b) { a + b }; }` the analysis
succeeds and the `ScopeIndex` stored on the lookup of `a` inside the body of
`g` is 1, not 2. -/
theorem C9_counterexample_index_is_one :
    (AnalyzeLookups (programNestedFunctions 0)).err = none ∧
    scopeIndexOfAInG (AnalyzeLookups (programNestedFunctions 0)).node = some 1 ∧
    scopeIndexOfAInG (AnalyzeLookups (programNestedFunctions 0)).node ≠ some 2 :=
  ⟨rfl, rfl, by decide⟩

end semantics

namespace semantics

/-! ## Declarations: the value comes first -/

theorem distanceIn_chain_of_mem (sc : definitionScope) (x : String) (h : x ∈ sc.definitions) :
    distanceIn sc.chain x = some 0 := by
  cases sc with
  | mk d p =>
    have h1 : x ∈ d := h
    cases p with
    | none => simp [definitionScope.chain, distanceIn, h1]
    | some p => simp [definitionScope.chain, distanceIn, h1]

/-- A declaration whose value fails returns the error of the value and registers
nothing. -/
theorem declaration_of_value_error (sc : definitionScope) (x : String) (e : Expression)
    (err : String) (he : (analyzeExpression sc e).err = some err) :
    analyzeStatement sc (.DeclarationStatement x e)
      = ⟨sc, .DeclarationStatement x (analyzeExpression sc e).node, some err⟩ := by
  have hsc := analyzeExpression_scope e sc
  simp only [analyzeStatement, he, hsc]

/-! ## Fail-fast -/

/-- C12: let the top-level statements of a program be `ss1 ++ s :: ss2`, where
`ss1` is analysed without error and `s`, analysed in the scope `ss1` leaves,
returns the error `e`. Then `AnalyzeLookups` returns exactly `e`, whatever
`ss2` is, and leaves the statements `ss2` as they were: none of their nodes is
visited. -/
theorem C12_fail_fast (ss1 ss2 : List Statement) (s : Statement) (e : String)
    (h1 : (analyzeStatements (.mk [] none) ss1).err = none)
    (hs : (analyzeStatement (analyzeStatements (.mk [] none) ss1).scope s).err = some e) :
    (AnalyzeLookups { Statements := ss1 ++ s :: ss2 }).err = some e ∧
    (AnalyzeLookups { Statements := ss1 ++ s :: ss2 }).node.Statements
      = (analyzeStatements (.mk [] none) ss1).node
        ++ (analyzeStatement (analyzeStatements (.mk [] none) ss1).scope s).node :: ss2 := by
  simp only [AnalyzeLookups]
  rw [analyzeStatements_append _ _ _ h1, analyzeStatements_cons_err _ _ _ _ hs]
  exact ⟨rfl, rfl⟩

theorem C12_fail_fast_witness :
    (AnalyzeLookups { Statements := [.DeclarationStatement "x" (.Other "1")]
        ++ .AssignmentStatement "y" (.Other "2") 7
          :: [.DeclarationStatement "x" (.LookupExpression "z" 7),
              .ExpressionStatement (.LookupExpression "x" 7)] }).err
      = some "y must be declared before assignment" ∧
    (AnalyzeLookups { Statements := [.DeclarationStatement "x" (.Other "1")]
        ++ .AssignmentStatement "y" (.Other "2") 7
          :: [.DeclarationStatement "x" (.LookupExpression "z" 7),
              .ExpressionStatement (.LookupExpression "x" 7)] }).node.Statements
      = [.DeclarationStatement "x" (.Other "1"), .AssignmentStatement "y" (.Other "2") 7,
          .DeclarationStatement "x" (.LookupExpression "z" 7),
          .ExpressionStatement (.LookupExpression "x" 7)] :=
  C12_fail_fast [.DeclarationStatement "x" (.Other "1")]
    [.DeclarationStatement "x" (.LookupExpression "z" 7),
      .ExpressionStatement (.LookupExpression "x" 7)]
    (.AssignmentStatement "y" (.Other "2") 7) "y must be declared before assignment" rfl rfl

end semantics

namespace lexer

/-! ## Runs, consumption and the held token -/

/-- A rune that starts a run is neither white space nor the double quote. -/
theorem startsRun_not_space (U : UnicodeTables) (hU : U.Standard) (r : Char)
    (h : startsRun U r = true) : U.IsSpace r = false ∧ r ≠ quote := by
  simp only [startsRun, Bool.or_eq_true, decide_eq_true_eq] at h
  have hq1 : U.IsLetter quote = false := by rw [hU.letter_ascii quote (by decide)]; decide
  have hq2 : U.IsDigit quote = false := by rw [hU.digit_ascii quote (by decide)]; decide
  rcases h with (h | h) | h
  · constructor
    · cases hs : U.IsSpace r with
      | false => rfl
      | true => rw [hU.space_not_letter r hs] at h; exact absurd h (by simp)
    · intro hq; rw [hq, hq1] at h; exact absurd h (by simp)
  · subst h
    constructor
    · rw [hU.space_ascii '_' (by decide)]; decide
    · decide
  · constructor
    · cases hs : U.IsSpace r with
      | false => rfl
      | true => rw [hU.space_not_digit r hs] at h; exact absurd h (by simp)
    · intro hq; rw [hq, hq2] at h; exact absurd h (by simp)

/-- After a rune that starts a run, `readNext` hands over to `scanIdentifier`:
the case that it returns a string. -/
theorem readNextLoop_run_ok (U : UnicodeTables) (hU : U.Standard) (tok : Option Token)
    (r : Char) (l : List Char) (v : String) (rd : Reader) (h : startsRun U r = true)
    (hscan : scanIdentifierLoop U l "" = (.ok v, rd)) :
    readNextLoop U tok (r :: l)
      = (none, { rd := rd, Token := some { Typ := runKind U r, Value := String.singleton r ++ v } }) := by
  obtain ⟨hs, hq⟩ := startsRun_not_space U hU r h
  rw [readNextLoop, hs, if_neg (by simp)]
  unfold readNextDispatch
  rw [if_neg hq]
  by_cases h1 : (U.IsLetter r || decide (r = '_')) = true
  · rw [if_pos h1]
    simp only [scanIdentifier, hscan, runKind, h1, if_true]
  · rw [if_neg h1]
    have h2 : U.IsDigit r = true := by
      unfold startsRun at h
      cases hd : U.IsDigit r with
      | true => rfl
      | false =>
        rw [hd, Bool.or_false] at h
        exact absurd h h1
    rw [if_pos h2]
    simp only [scanIdentifier, hscan, runKind, h1, if_false, Bool.false_eq_true]

/-- After a rune that starts a run, `readNext` hands over to `scanIdentifier`:
the case that it returns an error. -/
theorem readNextLoop_run_error (U : UnicodeTables) (hU : U.Standard) (tok : Option Token)
    (r : Char) (l : List Char) (err : Error) (rd : Reader) (h : startsRun U r = true)
    (hscan : scanIdentifierLoop U l "" = (.error err, rd)) :
    readNextLoop U tok (r :: l) = (some err, { rd := rd, Token := tok }) := by
  obtain ⟨hs, hq⟩ := startsRun_not_space U hU r h
  rw [readNextLoop, hs, if_neg (by simp)]
  unfold readNextDispatch
  rw [if_neg hq]
  by_cases h1 : (U.IsLetter r || decide (r = '_')) = true
  · rw [if_pos h1]
    simp only [scanIdentifier, hscan]
  · rw [if_neg h1]
    have h2 : U.IsDigit r = true := by
      unfold startsRun at h
      cases hd : U.IsDigit r with
      | true => rfl
      | false =>
        rw [hd, Bool.or_false] at h
        exact absurd h h1
    rw [if_pos h2]
    simp only [scanIdentifier, hscan]

/-- A run that goes on to the end of the input: `scanIdentifier` returns `io.EOF`. -/
theorem scanIdentifierLoop_eof (U : UnicodeTables) (run : List Char) (s : String)
    (hrun : ∀ d ∈ run, endsRun U d = false) :
    scanIdentifierLoop U run s = (.error .EOF, { unread := [], lastRune := none }) := by
  induction run generalizing s with
  | nil => rfl
  | cons d ds ih =>
    have hd : (!U.IsLetter d && !U.IsDigit d && d != '_') = false :=
      hrun d (List.mem_cons_self _ _)
    rw [scanIdentifierLoop, hd, if_neg (by simp)]
    exact ih _ (fun e he => hrun e (List.mem_cons_of_mem _ he))

/-- A string body with no closing quote: `scanString` returns `io.EOF`. -/
theorem scanStringLoop_eof (body : List Char) (s : String) (hbody : quote ∉ body) :
    scanStringLoop body s = (.error .EOF, { unread := [], lastRune := none }) := by
  induction body generalizing s with
  | nil => rfl
  | cons d ds ih =>
    have hd : d ≠ quote := fun h => hbody (by rw [h]; exact List.mem_cons_self _ _)
    rw [scanStringLoop, if_neg hd]
    exact ih _ (fun h => hbody (List.mem_cons_of_mem _ h))

/-- What `scanString` leaves unread is the end of what it was given. -/
theorem scanStringLoop_suffix (l : List Char) (s : String) (res : Except Error String)
    (rd : Reader) (h : scanStringLoop l s = (res, rd)) :
    ∃ consumed, l = consumed ++ rd.unread := by
  induction l generalizing s with
  | nil =>
    simp only [scanStringLoop, Prod.mk.injEq] at h
    exact ⟨[], by rw [← h.2]; rfl⟩
  | cons r rest ih =>
    simp only [scanStringLoop] at h
    split at h
    · simp only [Prod.mk.injEq] at h
      exact ⟨[r], by rw [← h.2]; rfl⟩
    · obtain ⟨c, hc⟩ := ih _ h
      exact ⟨r :: c, by rw [List.cons_append, ← hc]⟩

/-- What `scanIdentifier` leaves unread is the end of what it was given. -/
theorem scanIdentifierLoop_suffix (U : UnicodeTables) (l : List Char) (s : String)
    (res : Except Error String) (rd : Reader) (h : scanIdentifierLoop U l s = (res, rd)) :
    ∃ consumed, l = consumed ++ rd.unread := by
  induction l generalizing s with
  | nil =>
    simp only [scanIdentifierLoop, Prod.mk.injEq] at h
    exact ⟨[], by rw [← h.2]; rfl⟩
  | cons r rest ih =>
    simp only [scanIdentifierLoop, UnreadRune] at h
    split at h
    · simp only [Prod.mk.injEq] at h
      exact ⟨[], by rw [← h.2]; rfl⟩
    · obtain ⟨c, hc⟩ := ih _ h
      exact ⟨r :: c, by rw [List.cons_append, ← hc]⟩

/-- The two ways the dispatch of `readNext` ends, the same whatever token the
scanner holds: with no error, a new token that is not `EOF`, and a reader whose
unread runes are the end of the ones it was given; or with an error, the held
token unchanged. -/
theorem readNextDispatch_shape (U : UnicodeTables) (r : Char) (rd : Reader) :
    (∃ rd1 t consumed, rd.unread = consumed ++ rd1.unread ∧ t.Typ ≠ .EOF ∧
      ∀ tok, readNextDispatch U tok r rd = (none, { rd := rd1, Token := some t })) ∨
    (∃ e rd1, ∀ tok, readNextDispatch U tok r rd = (some e, { rd := rd1, Token := tok })) := by
  have hone : ∀ (k : TokenType) (v : String), k ≠ .EOF →
      (∀ tok, readNextDispatch U tok r rd
        = (none, { rd := rd, Token := some { Typ := k, Value := v } })) →
      (∃ rd1 t consumed, rd.unread = consumed ++ rd1.unread ∧ t.Typ ≠ .EOF ∧
        ∀ tok, readNextDispatch U tok r rd = (none, { rd := rd1, Token := some t })) ∨
      (∃ e rd1, ∀ tok, readNextDispatch U tok r rd = (some e, { rd := rd1, Token := tok })) :=
    fun k v hk h => Or.inl ⟨rd, _, [], rfl, hk, h⟩
  by_cases h1 : r = quote
  · cases hscan : scanString rd with
    | mk res rd1 =>
      obtain ⟨consumed, hcons⟩ := scanStringLoop_suffix _ _ _ _ hscan
      cases res with
      | error err =>
        right
        exact ⟨err, rd1, fun tok => by unfold readNextDispatch; rw [if_pos h1, hscan]⟩
      | ok v =>
        left
        exact ⟨rd1, { Typ := .String, Value := v }, consumed, hcons, by simp,
          fun tok => by unfold readNextDispatch; rw [if_pos h1, hscan]⟩
  by_cases h2 : (U.IsLetter r || decide (r = '_')) = true
  · cases hscan : scanIdentifier U rd with
    | mk res rd1 =>
      obtain ⟨consumed, hcons⟩ := scanIdentifierLoop_suffix _ _ _ _ _ hscan
      cases res with
      | error err =>
        right
        exact ⟨err, rd1, fun tok => by
          unfold readNextDispatch; rw [if_neg h1, if_pos h2, hscan]⟩
      | ok v =>
        left
        exact ⟨rd1, { Typ := .Identifier, Value := String.singleton r ++ v }, consumed, hcons,
          by simp, fun tok => by unfold readNextDispatch; rw [if_neg h1, if_pos h2, hscan]⟩
  by_cases h3 : U.IsDigit r = true
  · cases hscan : scanIdentifier U rd with
    | mk res rd1 =>
      obtain ⟨consumed, hcons⟩ := scanIdentifierLoop_suffix _ _ _ _ _ hscan
      cases res with
      | error err =>
        right
        exact ⟨err, rd1, fun tok => by
          unfold readNextDispatch; rw [if_neg h1, if_neg h2, if_pos h3, hscan]⟩
      | ok v =>
        left
        exact ⟨rd1, { Typ := .Integer, Value := String.singleton r ++ v }, consumed, hcons,
          by simp, fun tok => by
            unfold readNextDispatch; rw [if_neg h1, if_neg h2, if_pos h3, hscan]⟩
  by_cases h4 : r = ':'
  · cases hu : rd.unread with
    | nil =>
      right
      exact ⟨.EOF, { unread := [], lastRune := none }, fun tok => by
        unfold readNextDispatch
        rw [if_neg h1, if_neg h2, if_neg h3, if_pos h4]
        simp only [ReadRune, hu]⟩
    | cons r2 rest =>
      by_cases h5 : r2 ≠ '='
      · right
        exact ⟨.Errorf ("Unexpected symbol " ++ String.singleton r2),
          { unread := rest, lastRune := some r2 }, fun tok => by
            unfold readNextDispatch
            rw [if_neg h1, if_neg h2, if_neg h3, if_pos h4]
            simp only [ReadRune, hu]
            rw [if_pos h5]⟩
      · left
        exact ⟨{ unread := rest, lastRune := some r2 },
          { Typ := .DeclarationOperator, Value := ":=" }, [r2], rfl, by simp, fun tok => by
            unfold readNextDispatch
            rw [if_neg h1, if_neg h2, if_neg h3, if_pos h4]
            simp only [ReadRune, hu]
            rw [if_neg h5]⟩
  by_cases h5 : r = '='
  · exact hone .AssignmentOperator "=" (by simp) (fun tok => by
      unfold readNextDispatch
      rw [if_neg h1, if_neg h2, if_neg h3, if_neg h4, if_pos h5])
  by_cases h6 : r = ';'
  · exact hone .Semicolon ";" (by simp) (fun tok => by
      unfold readNextDispatch
      rw [if_neg h1, if_neg h2, if_neg h3, if_neg h4, if_neg h5, if_pos h6])
  by_cases h7 : r = '('
  · exact hone .LeftParen "(" (by simp) (fun tok => by
      unfold readNextDispatch
      rw [if_neg h1, if_neg h2, if_neg h3, if_neg h4, if_neg h5, if_neg h6, if_pos h7])
  by_cases h8 : r = ')'
  · exact hone .RightParen ")" (by simp) (fun tok => by
      unfold readNextDispatch
      rw [if_neg h1, if_neg h2, if_neg h3, if_neg h4, if_neg h5, if_neg h6, if_neg h7,
        if_pos h8])
  by_cases h9 : r = '*'
  · exact hone .MultiplicationOperator "*" (by simp) (fun tok => by
      unfold readNextDispatch
      rw [if_neg h1, if_neg h2, if_neg h3, if_neg h4, if_neg h5, if_neg h6, if_neg h7,
        if_neg h8, if_pos h9])
  by_cases h10 : r = '/'
  · exact hone .DivisionOperator "/" (by simp) (fun tok => by
      unfold readNextDispatch
      rw [if_neg h1, if_neg h2, if_neg h3, if_neg h4, if_neg h5, if_neg h6, if_neg h7,
        if_neg h8, if_neg h9, if_pos h10])
  by_cases h11 : r = '+'
  · exact hone .AdditionOperator "+" (by simp) (fun tok => by
      unfold readNextDispatch
      rw [if_neg h1, if_neg h2, if_neg h3, if_neg h4, if_neg h5, if_neg h6, if_neg h7,
        if_neg h8, if_neg h9, if_neg h10, if_pos h11])
  by_cases h12 : r = '-'
  · exact hone .SubstractionOperator "-" (by simp) (fun tok => by
      unfold readNextDispatch
      rw [if_neg h1, if_neg h2, if_neg h3, if_neg h4, if_neg h5, if_neg h6, if_neg h7,
        if_neg h8, if_neg h9, if_neg h10, if_neg h11, if_pos h12])
  right
  exact ⟨.Errorf ("Unexpected symbol " ++ String.singleton r), rd, fun tok => by
    unfold readNextDispatch
    rw [if_neg h1, if_neg h2, if_neg h3, if_neg h4, if_neg h5, if_neg h6, if_neg h7,
      if_neg h8, if_neg h9, if_neg h10, if_neg h11, if_neg h12]⟩

/-- The two ways `readNext` ends on the unread runes `l`, the same whatever
token the scanner holds: with no error, a new token that is not `EOF` and at
least one rune consumed; or with an error, the held token unchanged. -/
theorem readNextLoop_shape (U : UnicodeTables) (l : List Char) :
    (∃ rd1 t consumed, consumed ≠ [] ∧ l = consumed ++ rd1.unread ∧ t.Typ ≠ .EOF ∧
      ∀ tok, readNextLoop U tok l = (none, { rd := rd1, Token := some t })) ∨
    (∃ e rd1, ∀ tok, readNextLoop U tok l = (some e, { rd := rd1, Token := tok })) := by
  induction l with
  | nil => exact Or.inr ⟨.EOF, { unread := [], lastRune := none }, fun _ => rfl⟩
  | cons r rest ih =>
    by_cases hs : U.IsSpace r = true
    · rcases ih with ⟨rd1, t, consumed, _, h2, h3, h4⟩ | ⟨e, rd1, h⟩
      · exact Or.inl ⟨rd1, t, r :: consumed, by simp, by rw [h2]; rfl, h3, fun tok => by
          rw [readNextLoop, if_pos hs]; exact h4 tok⟩
      · exact Or.inr ⟨e, rd1, fun tok => by rw [readNextLoop, if_pos hs]; exact h tok⟩
    · rcases readNextDispatch_shape U r { unread := rest, lastRune := some r } with
        ⟨rd1, t, consumed, h2, h3, h4⟩ | ⟨e, rd1, h⟩
      · exact Or.inl ⟨rd1, t, r :: consumed, by simp,
          by rw [List.cons_append, ← show rest = consumed ++ rd1.unread from h2], h3,
          fun tok => by rw [readNextLoop, if_neg hs]; exact h4 tok⟩
      · exact Or.inr ⟨e, rd1, fun tok => by rw [readNextLoop, if_neg hs]; exact h tok⟩

/-- The three ways a call of `ReadNext` ends on a scanner whose unread runes are
`l`, whatever token it holds: a new token that is not `EOF`, with at least one
rune consumed and none added; the end-of-input token; or an error, with the held
token unchanged. -/
theorem ReadNext_shape (U : UnicodeTables) (l : List Char) :
    (∃ rd1 t consumed, consumed ≠ [] ∧ l = consumed ++ rd1.unread ∧ t.Typ ≠ .EOF ∧
      ∀ last tok, ReadNext U { rd := { unread := l, lastRune := last }, Token := tok }
        = (none, { rd := rd1, Token := some t })) ∨
    (∃ rd1, ∀ last tok, ReadNext U { rd := { unread := l, lastRune := last }, Token := tok }
        = (none, { rd := rd1, Token := some eofToken })) ∨
    (∃ e rd1, e ≠ .EOF ∧
      ∀ last tok, ReadNext U { rd := { unread := l, lastRune := last }, Token := tok }
        = (some e, { rd := rd1, Token := tok })) := by
  rcases readNextLoop_shape U l with ⟨rd1, t, consumed, h1, h2, h3, h4⟩ | ⟨e, rd1, h⟩
  · exact Or.inl ⟨rd1, t, consumed, h1, h2, h3, fun last tok => by
      unfold ReadNext readNext
      simp only [h4 tok]⟩
  · cases e with
    | EOF =>
      exact Or.inr (Or.inl ⟨rd1, fun last tok => by
        unfold ReadNext readNext
        simp only [h tok]
        rfl⟩)
    | ErrInvalidUnreadRune =>
      exact Or.inr (Or.inr ⟨.ErrInvalidUnreadRune, rd1, by simp, fun last tok => by
        unfold ReadNext readNext
        simp only [h tok]⟩)
    | Errorf m =>
      exact Or.inr (Or.inr ⟨.Errorf m, rd1, by simp, fun last tok => by
        unfold ReadNext readNext
        simp only [h tok]⟩)

theorem afterCalls_succ_left (U : UnicodeTables) (s : Scanner) (n : Nat) :
    afterCalls U s (n + 1) = afterCalls U (ReadNext U s).2 n := by
  induction n with
  | zero => rfl
  | succ m ih =>
    show (ReadNext U (afterCalls U s (m + 1))).2 = _
    rw [ih]
    rfl

end lexer

namespace lexer

/-! ## Integer runs, push-back, end of input inside a token, progress -/

/-- White space, then a run that a rune outside the class ends: `ReadNext`
returns the token of the run and leaves that rune and what follows unread,
whatever the scanner held. -/
theorem ReadNext_run (U : UnicodeTables) (hU : U.Standard) (ws run : List Char) (r0 c : Char)
    (rest : List Char) (last : Option Char) (tok : Option Token)
    (hws : ∀ w ∈ ws, U.IsSpace w = true) (h0 : startsRun U r0 = true)
    (hrun : ∀ d ∈ run, endsRun U d = false) (hc : endsRun U c = true) :
    ReadNext U { rd := { unread := ws ++ r0 :: (run ++ c :: rest), lastRune := last }, Token := tok }
      = (none, { rd := { unread := c :: rest, lastRune := none },
                 Token := some { Typ := runKind U r0, Value := String.mk (r0 :: run) } }) := by
  have hscan := scanIdentifierLoop_run U run c rest "" hrun hc
  have hv : String.singleton r0 ++ ("" ++ String.mk run) = String.mk (r0 :: run) :=
    String.ext (by simp)
  unfold ReadNext readNext
  simp only
  rw [readNextLoop_skip U _ ws _ hws, readNextLoop_run_ok U hU _ r0 _ _ _ h0 hscan, hv]

/-- C13: when the first rune after the white space is a digit, followed by a
run (possibly empty) of letters, digits and underscores and then by a rune
outside that class, the first `ReadNext` returns no error and holds an integer
token whose text is the digit and the whole run, letters included; the rune
that ended the run stays unread. -/
theorem C13_digit_run_is_integer (U : UnicodeTables) (hU : U.Standard) (ws run : List Char)
    (d c : Char) (rest : List Char)
    (hws : ∀ w ∈ ws, U.IsSpace w = true) (hd : U.IsDigit d = true)
    (hrun : ∀ r ∈ run, endsRun U r = false) (hc : endsRun U c = true) :
    ReadNext U (NewScanner (ws ++ d :: (run ++ c :: rest)))
      = (none, { rd := { unread := c :: rest, lastRune := none },
                 Token := some { Typ := .Integer, Value := String.mk (d :: run) } }) := by
  have h0 : startsRun U d = true := by simp [startsRun, hd]
  have hl : U.IsLetter d = false := by
    cases h : U.IsLetter d with
    | false => rfl
    | true => rw [hU.letter_not_digit d h] at hd; exact absurd hd (by simp)
  have hu : d ≠ '_' := by
    intro h
    rw [h, hU.digit_ascii '_' (by decide)] at hd
    exact absurd hd (by decide)
  have hk : runKind U d = .Integer := by simp [runKind, hl, hu]
  rw [← hk]
  exact ReadNext_run U hU ws run d c rest none none hws h0 hrun hc

theorem C13_digit_run_is_integer_witness :
    ReadNext asciiTables (NewScanner ([' '] ++ '3' :: (['x'] ++ ';' :: [])))
      = (none, { rd := { unread := ';' :: [], lastRune := none },
                 Token := some { Typ := .Integer, Value := "3x" } }) :=
  C13_digit_run_is_integer asciiTables asciiTables_standard [' '] ['x'] '3' ';' []
    (by decide) (by decide) (by decide) (by decide)

/-- C17: on an input made of white space, a run (a letter, an underscore or a
digit, then letters, digits and underscores), a rune `c` outside the class and
anything after it, the first `ReadNext` returns the token of the run and leaves
exactly `c` and what follows unread. The second `ReadNext` returns what
`ReadNext` returns on the input `c` and what follows alone: the same error or
none, the same reader, and the same token when there is no error. -/
theorem C17_one_rune_pushed_back (U : UnicodeTables) (hU : U.Standard) (ws run : List Char)
    (r0 c : Char) (rest : List Char)
    (hws : ∀ w ∈ ws, U.IsSpace w = true) (h0 : startsRun U r0 = true)
    (hrun : ∀ d ∈ run, endsRun U d = false) (hc : endsRun U c = true) :
    ReadNext U (NewScanner (ws ++ r0 :: (run ++ c :: rest)))
      = (none, { rd := { unread := c :: rest, lastRune := none },
                 Token := some { Typ := runKind U r0, Value := String.mk (r0 :: run) } }) ∧
    (callResult U (NewScanner (ws ++ r0 :: (run ++ c :: rest))) 1).1
      = (ReadNext U (NewScanner (c :: rest))).1 ∧
    (callResult U (NewScanner (ws ++ r0 :: (run ++ c :: rest))) 1).2.rd
      = (ReadNext U (NewScanner (c :: rest))).2.rd ∧
    ((ReadNext U (NewScanner (c :: rest))).1 = none →
      (callResult U (NewScanner (ws ++ r0 :: (run ++ c :: rest))) 1).2.Token
        = (ReadNext U (NewScanner (c :: rest))).2.Token) := by
  have h1 := ReadNext_run U hU ws run r0 c rest none none hws h0 hrun hc
  have hcall : callResult U (NewScanner (ws ++ r0 :: (run ++ c :: rest))) 1
      = ReadNext U { rd := { unread := c :: rest, lastRune := none },
                     Token := some { Typ := runKind U r0, Value := String.mk (r0 :: run) } } := by
    show ReadNext U (ReadNext U (NewScanner (ws ++ r0 :: (run ++ c :: rest)))).2 = _
    unfold NewScanner NewReader
    rw [h1]
  refine ⟨h1, ?_⟩
  rw [hcall]
  unfold NewScanner NewReader
  rcases ReadNext_shape U (c :: rest) with ⟨rd1, t, consumed, _, _, _, h⟩ | ⟨rd1, h⟩ | ⟨e, rd1, _, h⟩
  · rw [h none _, h none none]
    exact ⟨rfl, rfl, fun _ => rfl⟩
  · rw [h none _, h none none]
    exact ⟨rfl, rfl, fun _ => rfl⟩
  · rw [h none _, h none none]
    exact ⟨rfl, rfl, fun hn => absurd hn (by simp)⟩

theorem C17_one_rune_pushed_back_witness :
    ReadNext asciiTables (NewScanner ([] ++ 'x' :: ([] ++ ';' :: [])))
      = (none, { rd := { unread := ';' :: [], lastRune := none },
                 Token := some { Typ := .Identifier, Value := "x" } }) ∧
    callResult asciiTables (NewScanner ([] ++ 'x' :: ([] ++ ';' :: []))) 1
      = (none, { rd := { unread := [], lastRune := some ';' },
                 Token := some { Typ := .Semicolon, Value := ";" } }) ∧
    (callResult asciiTables (NewScanner ([] ++ 'x' :: ([] ++ ';' :: []))) 1).1
      = (ReadNext asciiTables (NewScanner (';' :: []))).1 :=
  ⟨(C17_one_rune_pushed_back asciiTables asciiTables_standard [] [] 'x' ';' []
      (by decide) (by decide) (by decide) (by decide)).1,
    by decide,
    (C17_one_rune_pushed_back asciiTables asciiTables_standard [] [] 'x' ';' []
      (by decide) (by decide) (by decide) (by decide)).2.1⟩

/-- C18: a call of `ReadNext` on any scanner, whatever token it holds and
whatever calls came before, whose unread input is white space followed by the
start of a token that the end of the input cuts short, returns no error and
holds the end-of-input token, with nothing left unread: the very result
`ReadNext` returns at an ordinary end of input, on that scanner with nothing
but white space unread and on the empty input. The token cut short is an
opening quote with no closing one, a run of an identifier or integer, or a lone
`:`. The partial lexeme is not produced. -/
theorem C18_end_of_input_inside_token (U : UnicodeTables) (hU : U.Standard) (s : Scanner)
    (ws : List Char) (hws : ∀ w ∈ ws, U.IsSpace w = true) :
    (∀ body : List Char, quote ∉ body → s.rd.unread = ws ++ quote :: body →
      ReadNext U s = eofResult) ∧
    (∀ (r0 : Char) (run : List Char), startsRun U r0 = true →
      (∀ d ∈ run, endsRun U d = false) → s.rd.unread = ws ++ r0 :: run →
      ReadNext U s = eofResult) ∧
    (s.rd.unread = ws ++ [':'] → ReadNext U s = eofResult) ∧
    (s.rd.unread = ws → ReadNext U s = eofResult) ∧
    ReadNext U (NewScanner []) = eofResult := by
  have hqs : U.IsSpace quote = false := by rw [hU.space_ascii quote (by decide)]; decide
  have hcs : U.IsSpace ':' = false := by rw [hU.space_ascii ':' (by decide)]; decide
  have hcl : U.IsLetter ':' = false := by rw [hU.letter_ascii ':' (by decide)]; decide
  have hcd : U.IsDigit ':' = false := by rw [hU.digit_ascii ':' (by decide)]; decide
  refine ⟨?_, ?_, ?_, ?_, rfl⟩
  rotate_right
  · intro hs
    unfold ReadNext readNext
    rw [hs, readNextLoop_whitespace U _ ws hws]
    rfl
  · intro body hbody hs
    unfold ReadNext readNext
    rw [hs, readNextLoop_skip U _ ws _ hws, readNextLoop, hqs, if_neg (by simp)]
    unfold readNextDispatch
    rw [if_pos rfl]
    unfold scanString
    simp only
    rw [scanStringLoop_eof body "" hbody]
    rfl
  · intro r0 run h0 hrun hs
    unfold ReadNext readNext
    rw [hs, readNextLoop_skip U _ ws _ hws,
      readNextLoop_run_error U hU _ r0 run _ _ h0 (scanIdentifierLoop_eof U run "" hrun)]
    rfl
  · intro hs
    unfold ReadNext readNext
    rw [hs, readNextLoop_skip U _ ws _ hws, readNextLoop, hcs, if_neg (by simp)]
    unfold readNextDispatch
    rw [if_neg (by decide), hcl, hcd, if_neg (by decide), if_neg (by simp), if_pos rfl]
    rfl

theorem C18_end_of_input_inside_token_witness :
    (afterCalls asciiTables (NewScanner ['x', ';', ' ', quote, 'a', 'b']) 2).Token
      = some { Typ := .Semicolon, Value := ";" } ∧
    callResult asciiTables (NewScanner ['x', ';', ' ', quote, 'a', 'b']) 2 = eofResult ∧
    callResult asciiTables (NewScanner ['x', ';', ' ', 'y', '1']) 2 = eofResult ∧
    callResult asciiTables (NewScanner ['x', ';', ' ', '3', 'x']) 2 = eofResult ∧
    callResult asciiTables (NewScanner ['x', ';', ' ', ':']) 2 = eofResult ∧
    ReadNext asciiTables (NewScanner ([' '] ++ quote :: ['a', 'b'])) = eofResult :=
  ⟨by decide,
    (C18_end_of_input_inside_token asciiTables asciiTables_standard
      (afterCalls asciiTables (NewScanner ['x', ';', ' ', quote, 'a', 'b']) 2) [' ']
      (by decide)).1 ['a', 'b'] (by decide) (by decide),
    (C18_end_of_input_inside_token asciiTables asciiTables_standard
      (afterCalls asciiTables (NewScanner ['x', ';', ' ', 'y', '1']) 2) [' ']
      (by decide)).2.1 'y' ['1'] (by decide) (by decide) (by decide),
    (C18_end_of_input_inside_token asciiTables asciiTables_standard
      (afterCalls asciiTables (NewScanner ['x', ';', ' ', '3', 'x']) 2) [' ']
      (by decide)).2.1 '3' ['x'] (by decide) (by decide) (by decide),
    (C18_end_of_input_inside_token asciiTables asciiTables_standard
      (afterCalls asciiTables (NewScanner ['x', ';', ' ', ':']) 2) [' ']
      (by decide)).2.2.1 (by decide),
    (C18_end_of_input_inside_token asciiTables asciiTables_standard
      (NewScanner ([' '] ++ quote :: ['a', 'b'])) [' '] (by decide)).1 ['a', 'b']
      (by decide) rfl⟩

/-- From a scanner with at most `n` unread runes, one of the first `n + 1` calls
of `ReadNext` returns an error or holds the end-of-input token. -/
theorem reaches_end (U : UnicodeTables) : ∀ (n : Nat) (s : Scanner), s.rd.unread.length ≤ n →
    ∃ k, k ≤ n ∧
      ((callResult U s k).1 ≠ none ∨ (callResult U s k).2.Token = some eofToken)
  | 0, s, h => by
    have hnil : s.rd.unread = [] := List.length_eq_zero.1 (Nat.le_zero.1 h)
    refine ⟨0, le_refl 0, Or.inr ?_⟩
    show (ReadNext U s).2.Token = some eofToken
    rw [ReadNext_exhausted U s hnil]
  | n + 1, s, h => by
    obtain ⟨⟨l, last⟩, tok⟩ := s
    rcases ReadNext_shape U l with ⟨rd1, t, consumed, h1, h2, _, h4⟩ | ⟨rd1, h4⟩ | ⟨e, rd1, _, h4⟩
    · have hlen : rd1.unread.length ≤ n := by
        have hc : 0 < consumed.length := List.length_pos.2 h1
        have hl : l.length = consumed.length + rd1.unread.length := by
          rw [h2, List.length_append]
        have hle : l.length ≤ n + 1 := h
        omega
      obtain ⟨k, hk, hres⟩ := reaches_end U n { rd := rd1, Token := some t } hlen
      refine ⟨k + 1, Nat.succ_le_succ hk, ?_⟩
      have hshift : callResult U { rd := { unread := l, lastRune := last }, Token := tok } (k + 1)
          = callResult U { rd := rd1, Token := some t } k := by
        unfold callResult
        rw [afterCalls_succ_left, h4 last tok]
      rw [hshift]
      exact hres
    · refine ⟨0, Nat.zero_le _, Or.inr ?_⟩
      show (ReadNext U { rd := { unread := l, lastRune := last }, Token := tok }).2.Token
        = some eofToken
      rw [h4 last tok]
    · refine ⟨0, Nat.zero_le _, Or.inl ?_⟩
      show (ReadNext U { rd := { unread := l, lastRune := last }, Token := tok }).1 ≠ none
      rw [h4 last tok]
      simp

/-- C20: (1) a call of `ReadNext` that returns no error and holds a token other
than the end-of-input token has consumed at least one unread rune and added
none: the unread runes before the call are a non-empty list `consumed`
followed by the unread runes after it. (2) On an input of `n` runes, the call
number `k + 1` of `ReadNext`, for some `k <= n`, returns an error or holds the
end-of-input token. -/
theorem C20_progress_and_termination (U : UnicodeTables) :
    (∀ (s : Scanner) (t : Token), (ReadNext U s).1 = none →
      (ReadNext U s).2.Token = some t → t.Typ ≠ .EOF →
      ∃ consumed, consumed ≠ [] ∧ s.rd.unread = consumed ++ (ReadNext U s).2.rd.unread ∧
        (ReadNext U s).2.rd.unread.length < s.rd.unread.length) ∧
    (∀ input : List Char, ∃ k, k ≤ input.length ∧
      ((callResult U (NewScanner input) k).1 ≠ none ∨
        (callResult U (NewScanner input) k).2.Token = some eofToken)) := by
  constructor
  · intro s t herr htok ht
    obtain ⟨⟨l, last⟩, tok⟩ := s
    rcases ReadNext_shape U l with ⟨rd1, t1, consumed, h1, h2, _, h4⟩ | ⟨rd1, h4⟩ | ⟨e, rd1, _, h4⟩
    · rw [h4 last tok]
      refine ⟨consumed, h1, h2, ?_⟩
      have hc : 0 < consumed.length := List.length_pos.2 h1
      show rd1.unread.length < l.length
      rw [h2, List.length_append]
      omega
    · rw [h4 last tok] at htok
      simp only [Option.some.injEq] at htok
      rw [← htok] at ht
      exact absurd rfl ht
    · rw [h4 last tok] at herr
      simp at herr
  · intro input
    exact reaches_end U input.length (NewScanner input) (le_refl _)

theorem C20_progress_and_termination_witness :
    (∃ consumed, consumed ≠ [] ∧
      (NewScanner [' ', 'x', ';']).rd.unread
        = consumed ++ (ReadNext asciiTables (NewScanner [' ', 'x', ';'])).2.rd.unread ∧
      (ReadNext asciiTables (NewScanner [' ', 'x', ';'])).2.rd.unread.length
        < (NewScanner [' ', 'x', ';']).rd.unread.length) ∧
    (callResult asciiTables (NewScanner [' ', 'x', ';']) 2).2.Token = some eofToken :=
  ⟨(C20_progress_and_termination asciiTables).1 (NewScanner [' ', 'x', ';'])
      { Typ := .Identifier, Value := "x" } (by decide) (by decide) (by decide),
    by decide⟩

end lexer

namespace lexer

/-! ## Lex errors -/

/-- The white-space loop stops at the first rune that is not white space. -/
theorem readNextLoop_dropWhile (U : UnicodeTables) (tok : Option Token) (l : List Char) :
    (l.dropWhile U.IsSpace = [] →
      readNextLoop U tok l = (some .EOF, { rd := { unread := [], lastRune := none }, Token := tok })) ∧
    (∀ c rest, l.dropWhile U.IsSpace = c :: rest →
      readNextLoop U tok l = readNextDispatch U tok c { unread := rest, lastRune := some c }) := by
  induction l with
  | nil =>
    constructor
    · intro _; rfl
    · intro c rest h; simp at h
  | cons r t ih =>
    by_cases hs : U.IsSpace r = true
    · rw [List.dropWhile_cons_of_pos hs, readNextLoop, if_pos hs]
      exact ih
    · rw [List.dropWhile_cons_of_neg hs, readNextLoop, if_neg hs]
      constructor
      · intro h; simp at h
      · intro c rest h
        simp only [List.cons.injEq] at h
        rw [h.1, h.2]

/-- `ReadNext` returns the error of `readNext`, except `io.EOF`. -/
theorem ReadNext_error_iff (U : UnicodeTables) (s : Scanner) (err : Error) :
    (ReadNext U s).1 = some err ↔ (readNext U s).1 = some err ∧ err ≠ .EOF := by
  unfold ReadNext
  cases h : readNext U s with
  | mk e s1 =>
    cases e with
    | none => simp
    | some e =>
      cases e with
      | EOF =>
        simp only [Option.some.injEq, ne_eq]
        constructor
        · intro h1; simp at h1
        · intro h1; exact absurd h1.1.symm h1.2
      | ErrInvalidUnreadRune =>
        simp only [Option.some.injEq, ne_eq]
        constructor
        · intro h1; subst h1; exact ⟨rfl, by simp⟩
        · intro h1; exact h1.1
      | Errorf m =>
        simp only [Option.some.injEq, ne_eq]
        constructor
        · intro h1; subst h1; exact ⟨rfl, by simp⟩
        · intro h1; exact h1.1

/-- After the white-space loop, `readNext` returns an error other than `io.EOF`
in two cases only: the rune `c` has no case, and the error names `c`; or `c` is
`:` and the next rune `d` is not `=`, and the error names `d`. -/
theorem readNextDispatch_lex_error (U : UnicodeTables) (hU : U.Standard) (tok : Option Token)
    (c : Char) (rest : List Char) (err : Error) :
    ((readNextDispatch U tok c { unread := rest, lastRune := some c }).1 = some err ∧ err ≠ .EOF) ↔
      ((isUnexpected U c = true ∧ err = unexpectedSymbol c) ∨
        (c = ':' ∧ ∃ d rest1, rest = d :: rest1 ∧ d ≠ '=' ∧ err = unexpectedSymbol d)) := by
  have hcl : U.IsLetter ':' = false := by rw [hU.letter_ascii ':' (by decide)]; decide
  have hcd : U.IsDigit ':' = false := by rw [hU.digit_ascii ':' (by decide)]; decide
  have hfalse : ∀ x : Option Error, (x = none ∨ x = some .EOF) →
      (readNextDispatch U tok c { unread := rest, lastRune := some c }).1 = x →
      isUnexpected U c = false → c ≠ ':' →
      (((readNextDispatch U tok c { unread := rest, lastRune := some c }).1 = some err
          ∧ err ≠ .EOF) ↔
        ((isUnexpected U c = true ∧ err = unexpectedSymbol c) ∨
          (c = ':' ∧ ∃ d rest1, rest = d :: rest1 ∧ d ≠ '=' ∧ err = unexpectedSymbol d))) := by
    intro x hx hd hu hc
    rw [hd, hu]
    constructor
    · intro h
      rcases hx with hx | hx
      · rw [hx] at h; exact absurd h.1 (by simp)
      · rw [hx] at h
        exact absurd (Option.some.inj h.1).symm h.2
    · intro h
      rcases h with h | h
      · exact absurd h.1 (by simp)
      · exact absurd h.1 hc
  have hsingle : ∀ (k : TokenType) (v : String),
      readNextDispatch U tok c { unread := rest, lastRune := some c }
        = (none, { rd := { unread := rest, lastRune := some c },
                   Token := some { Typ := k, Value := v } }) →
      isUnexpected U c = false → c ≠ ':' →
      (((readNextDispatch U tok c { unread := rest, lastRune := some c }).1 = some err
          ∧ err ≠ .EOF) ↔
        ((isUnexpected U c = true ∧ err = unexpectedSymbol c) ∨
          (c = ':' ∧ ∃ d rest1, rest = d :: rest1 ∧ d ≠ '=' ∧ err = unexpectedSymbol d))) :=
    fun k v h hu hc => hfalse none (Or.inl rfl) (by rw [h]) hu hc
  by_cases h1 : c = quote
  · have hu : isUnexpected U c = false := by simp [isUnexpected, h1]
    have hc : c ≠ ':' := by rw [h1]; decide
    cases hscan : scanString { unread := rest, lastRune := some c } with
    | mk res rd1 =>
      cases res with
      | error e =>
        have he := (scanStringLoop_error _ _ _ _ hscan).1
        subst he
        exact hfalse (some .EOF) (Or.inr rfl)
          (by unfold readNextDispatch; rw [if_pos h1, hscan]) hu hc
      | ok v =>
        exact hfalse none (Or.inl rfl)
          (by unfold readNextDispatch; rw [if_pos h1, hscan]) hu hc
  by_cases h2 : (U.IsLetter c || decide (c = '_')) = true
  · have hu : isUnexpected U c = false := by
      simp only [Bool.or_eq_true, decide_eq_true_eq] at h2
      rcases h2 with h2 | h2
      · simp [isUnexpected, h2]
      · simp [isUnexpected, h2]
    have hc : c ≠ ':' := by
      intro h
      rw [h, hcl] at h2
      exact absurd h2 (by decide)
    cases hscan : scanIdentifier U { unread := rest, lastRune := some c } with
    | mk res rd1 =>
      cases res with
      | error e =>
        have he := (scanIdentifierLoop_error _ _ _ _ _ hscan).1
        subst he
        exact hfalse (some .EOF) (Or.inr rfl)
          (by unfold readNextDispatch; rw [if_neg h1, if_pos h2, hscan]) hu hc
      | ok v =>
        exact hfalse none (Or.inl rfl)
          (by unfold readNextDispatch; rw [if_neg h1, if_pos h2, hscan]) hu hc
  by_cases h3 : U.IsDigit c = true
  · have hu : isUnexpected U c = false := by simp [isUnexpected, h3]
    have hc : c ≠ ':' := by
      intro h
      rw [h, hcd] at h3
      exact absurd h3 (by decide)
    cases hscan : scanIdentifier U { unread := rest, lastRune := some c } with
    | mk res rd1 =>
      cases res with
      | error e =>
        have he := (scanIdentifierLoop_error _ _ _ _ _ hscan).1
        subst he
        exact hfalse (some .EOF) (Or.inr rfl)
          (by unfold readNextDispatch; rw [if_neg h1, if_neg h2, if_pos h3, hscan]) hu hc
      | ok v =>
        exact hfalse none (Or.inl rfl)
          (by unfold readNextDispatch; rw [if_neg h1, if_neg h2, if_pos h3, hscan]) hu hc
  by_cases h4 : c = ':'
  · have hu : isUnexpected U c = false := by simp [isUnexpected, h4]
    rw [hu]
    cases rest with
    | nil =>
      have hd : (readNextDispatch U tok c { unread := [], lastRune := some c }).1
          = some .EOF := by
        unfold readNextDispatch
        rw [if_neg h1, if_neg h2, if_neg h3, if_pos h4]
        rfl
      rw [hd]
      constructor
      · intro h; exact absurd (Option.some.inj h.1).symm h.2
      · intro h
        rcases h with h | ⟨_, d, rest1, h, _⟩
        · exact absurd h.1 (by simp)
        · simp at h
    | cons d rest1 =>
      by_cases h5 : d ≠ '='
      · have hd : (readNextDispatch U tok c { unread := d :: rest1, lastRune := some c }).1
            = some (unexpectedSymbol d) := by
          unfold readNextDispatch
          rw [if_neg h1, if_neg h2, if_neg h3, if_pos h4]
          simp only [ReadRune]
          rw [if_pos h5]
          rfl
        rw [hd]
        constructor
        · intro h
          exact Or.inr ⟨h4, d, rest1, rfl, h5, (Option.some.inj h.1).symm⟩
        · intro h
          rcases h with h | ⟨_, d2, rest2, h, _, he⟩
          · exact absurd h.1 (by simp)
          · simp only [List.cons.injEq] at h
            rw [he, ← h.1]
            exact ⟨rfl, by simp [unexpectedSymbol]⟩
      · have hd : (readNextDispatch U tok c { unread := d :: rest1, lastRune := some c }).1
            = none := by
          unfold readNextDispatch
          rw [if_neg h1, if_neg h2, if_neg h3, if_pos h4]
          simp only [ReadRune]
          rw [if_neg h5]
        rw [hd]
        constructor
        · intro h; exact absurd h.1 (by simp)
        · intro h
          rcases h with h | ⟨_, d2, rest2, h, hne, _⟩
          · exact absurd h.1 (by simp)
          · simp only [List.cons.injEq] at h
            rw [← h.1] at hne
            exact absurd hne h5
  by_cases h5 : c = '='
  · exact hsingle .AssignmentOperator "=" (by
      unfold readNextDispatch
      rw [if_neg h1, if_neg h2, if_neg h3, if_neg h4, if_pos h5]) (by simp [isUnexpected, h5]) h4
  by_cases h6 : c = ';'
  · exact hsingle .Semicolon ";" (by
      unfold readNextDispatch
      rw [if_neg h1, if_neg h2, if_neg h3, if_neg h4, if_neg h5, if_pos h6])
      (by simp [isUnexpected, h6]) h4
  by_cases h7 : c = '('
  · exact hsingle .LeftParen "(" (by
      unfold readNextDispatch
      rw [if_neg h1, if_neg h2, if_neg h3, if_neg h4, if_neg h5, if_neg h6, if_pos h7])
      (by simp [isUnexpected, h7]) h4
  by_cases h8 : c = ')'
  · exact hsingle .RightParen ")" (by
      unfold readNextDispatch
      rw [if_neg h1, if_neg h2, if_neg h3, if_neg h4, if_neg h5, if_neg h6, if_neg h7,
        if_pos h8]) (by simp [isUnexpected, h8]) h4
  by_cases h9 : c = '*'
  · exact hsingle .MultiplicationOperator "*" (by
      unfold readNextDispatch
      rw [if_neg h1, if_neg h2, if_neg h3, if_neg h4, if_neg h5, if_neg h6, if_neg h7,
        if_neg h8, if_pos h9]) (by simp [isUnexpected, h9]) h4
  by_cases h10 : c = '/'
  · exact hsingle .DivisionOperator "/" (by
      unfold readNextDispatch
      rw [if_neg h1, if_neg h2, if_neg h3, if_neg h4, if_neg h5, if_neg h6, if_neg h7,
        if_neg h8, if_neg h9, if_pos h10]) (by simp [isUnexpected, h10]) h4
  by_cases h11 : c = '+'
  · exact hsingle .AdditionOperator "+" (by
      unfold readNextDispatch
      rw [if_neg h1, if_neg h2, if_neg h3, if_neg h4, if_neg h5, if_neg h6, if_neg h7,
        if_neg h8, if_neg h9, if_neg h10, if_pos h11]) (by simp [isUnexpected, h11]) h4
  by_cases h12 : c = '-'
  · exact hsingle .SubstractionOperator "-" (by
      unfold readNextDispatch
      rw [if_neg h1, if_neg h2, if_neg h3, if_neg h4, if_neg h5, if_neg h6, if_neg h7,
        if_neg h8, if_neg h9, if_neg h10, if_neg h11, if_pos h12])
      (by simp [isUnexpected, h12]) h4
  have hd : (readNextDispatch U tok c { unread := rest, lastRune := some c }).1
      = some (unexpectedSymbol c) := by
    unfold readNextDispatch
    rw [if_neg h1, if_neg h2, if_neg h3, if_neg h4, if_neg h5, if_neg h6, if_neg h7,
      if_neg h8, if_neg h9, if_neg h10, if_neg h11, if_neg h12]
    rfl
  have hu : isUnexpected U c = true := by
    simp only [Bool.or_eq_true, decide_eq_true_eq, not_or] at h2
    simp [isUnexpected, h1, h2.1, h2.2, h3, h4, h5, h6, h7, h8, h9, h10, h11, h12]
  rw [hd, hu]
  constructor
  · intro h
    exact Or.inl ⟨rfl, (Option.some.inj h.1).symm⟩
  · intro h
    rcases h with h | h
    · rw [h.2]
      exact ⟨rfl, by simp [unexpectedSymbol]⟩
    · exact absurd h.1 h4

/-- C14: a call of `ReadNext` returns an error in exactly two situations, the
rune skipped to being the first unread rune that is not white space. (1) That
rune `c` is none of the double quote, a letter, `_`, a digit, `:`, `=`, `;`,
`(`, `)`, `*`, `/`, `+`, `-`: the error is `Unexpected symbol c`. (2) That rune
is `:` and the rune `d` after it is not `=`: the error is `Unexpected symbol
d`. When `:` is followed at once by `=`, the call returns no error and holds
the declaration-operator token with text `:=`. -/
theorem C14_lex_errors (U : UnicodeTables) (hU : U.Standard) (s : Scanner) :
    (∀ err : Error, (ReadNext U s).1 = some err ↔
      ((∃ c rest, s.rd.unread.dropWhile U.IsSpace = c :: rest ∧ isUnexpected U c = true ∧
          err = unexpectedSymbol c) ∨
        (∃ d rest, s.rd.unread.dropWhile U.IsSpace = ':' :: d :: rest ∧ d ≠ '=' ∧
          err = unexpectedSymbol d))) ∧
    (∀ rest, s.rd.unread.dropWhile U.IsSpace = ':' :: '=' :: rest →
      ReadNext U s = (none, { rd := { unread := rest, lastRune := some '=' },
                              Token := some { Typ := .DeclarationOperator, Value := ":=" } })) := by
  have hloop := readNextLoop_dropWhile U s.Token s.rd.unread
  constructor
  · intro err
    rw [ReadNext_error_iff]
    unfold readNext
    cases hd : s.rd.unread.dropWhile U.IsSpace with
    | nil =>
      rw [hloop.1 hd]
      constructor
      · intro h; exact absurd (Option.some.inj h.1).symm h.2
      · intro h
        rcases h with ⟨c, rest, h, _⟩ | ⟨d, rest, h, _⟩
        · simp at h
        · simp at h
    | cons c rest =>
      rw [hloop.2 c rest hd, readNextDispatch_lex_error U hU]
      constructor
      · intro h
        rcases h with h | ⟨hc, d, rest1, hr, hne, he⟩
        · exact Or.inl ⟨c, rest, rfl, h.1, h.2⟩
        · exact Or.inr ⟨d, rest1, by rw [hc, hr], hne, he⟩
      · intro h
        rcases h with ⟨c1, rest1, h, hu, he⟩ | ⟨d, rest1, h, hne, he⟩
        · simp only [List.cons.injEq] at h
          rw [h.1]
          exact Or.inl ⟨hu, he⟩
        · simp only [List.cons.injEq] at h
          exact Or.inr ⟨h.1, d, rest1, h.2, hne, he⟩
  · intro rest hd
    have hcs : U.IsLetter ':' = false := by rw [hU.letter_ascii ':' (by decide)]; decide
    have hcd : U.IsDigit ':' = false := by rw [hU.digit_ascii ':' (by decide)]; decide
    unfold ReadNext readNext
    rw [hloop.2 _ _ hd]
    unfold readNextDispatch
    rw [if_neg (by decide), hcs, hcd, if_neg (by decide), if_neg (by simp), if_pos rfl]
    rfl

theorem C14_lex_errors_witness :
    (ReadNext asciiTables (NewScanner [' ', '#', 'x'])).1 = some (unexpectedSymbol '#') ∧
    (ReadNext asciiTables (NewScanner [' ', ':', 'x'])).1 = some (unexpectedSymbol 'x') ∧
    ReadNext asciiTables (NewScanner [' ', ':', '=', 'x'])
      = (none, { rd := { unread := ['x'], lastRune := some '=' },
                 Token := some { Typ := .DeclarationOperator, Value := ":=" } }) :=
  ⟨((C14_lex_errors asciiTables asciiTables_standard (NewScanner [' ', '#', 'x'])).1 _).2
      (Or.inl ⟨'#', ['x'], by decide, by decide, rfl⟩),
    ((C14_lex_errors asciiTables asciiTables_standard (NewScanner [' ', ':', 'x'])).1 _).2
      (Or.inr ⟨'x', [], by decide, by decide, rfl⟩),
    (C14_lex_errors asciiTables asciiTables_standard (NewScanner [' ', ':', '=', 'x'])).2 ['x']
      (by decide)⟩

end lexer

namespace semantics

/-! ## Else-branches, blocks that end, function parameters -/

/-- The if-statement whose condition and block are analysed without error goes
on with its else-branch in the scope it was given. -/
theorem analyzeStatement_if (S : definitionScope) (cond : Option Expression)
    (stmts : List Statement) (els : Option Statement)
    (hc : (analyzeCondition S cond).err = none)
    (hb : (analyzeStatements S.newScope stmts).err = none) :
    analyzeStatement S (.IfStatement cond stmts els)
      = ⟨(analyzeElseBranch S els).scope,
          .IfStatement (analyzeCondition S cond).node (analyzeStatements S.newScope stmts).node
            (analyzeElseBranch S els).node,
          (analyzeElseBranch S els).err⟩ := by
  have hs := analyzeCondition_scope cond S
  simp only [analyzeStatement, hc]
  rw [hs]
  simp only [hb]
  rw [leave_block]

/-- An if-statement analysed without error has had its condition and its block
analysed without error. -/
theorem analyzeStatement_if_ok (S : definitionScope) (cond : Option Expression)
    (stmts : List Statement) (els : Option Statement)
    (h : (analyzeStatement S (.IfStatement cond stmts els)).err = none) :
    (analyzeCondition S cond).err = none ∧ (analyzeStatements S.newScope stmts).err = none := by
  have hs := analyzeCondition_scope cond S
  simp only [analyzeStatement] at h
  cases hc : (analyzeCondition S cond).err with
  | some err => simp [hc] at h
  | none =>
    simp only [hc] at h
    rw [hs] at h
    cases hb : (analyzeStatements S.newScope stmts).err with
    | some err => simp [hb] at h
    | none => exact ⟨rfl, rfl⟩

/-- In a block entered from a scope that declares `x`, when no statement of the
block declares `x` and the block is analysed without error, every lookup of `x`
made directly in the block carries `ScopeIndex = 1`. -/
theorem block_lookups_one (S : definitionScope) (x : String) (hx : x ∈ S.definitions)
    (stmts : List Statement) (hdecl : ∀ s ∈ stmts, declaresDirectly x s = false)
    (hb : (analyzeStatements S.newScope stmts).err = none) :
    ∀ s1 ∈ (analyzeStatements S.newScope stmts).node,
      Statement.directLookupsAre x 1 s1 = true := by
  refine analyzeStatements_direct x 1 (fun sc => x ∉ sc.definitions ∧ sc.parent = some S)
    (then_block_invariant S x hx) stmts S.newScope ⟨by simp [newScope_definitions], rfl⟩ ?_ hb
  intro s hs sc1 hsc1
  have hf := analyzeStatement_frame s sc1
  refine ⟨fun hmem => ?_, hf.parent_eq.trans hsc1.2⟩
  rcases hf.fresh x hmem with h1 | h1
  · exact hsc1.1 h1
  · rw [hdecl s hs] at h1
    exact Bool.false_ne_true h1

/-- C15: an if-statement with else-branch `els`, analysed in scope `S`, whose
condition and then-block are analysed without error. (1) The else-branch is
analysed in `S` itself, as it would be standing alone in `S`: the if-statement
returns its scope, node and error. (2) A name `y` that no scope of the chain of
`S` declares is not visible there, whatever the then-block declares: a lookup
of `y` as else-branch returns the undeclared-lookup error, an assignment to
`y` the undeclared-assignment error. (3) When the else-branch is itself an
if-statement and `x` is declared in `S`, the lookups of `x` made directly in
its block carry `ScopeIndex = 1`, as those made directly in the then-block do
(no statement of either block declaring `x`). -/
theorem C15_else_branch_in_parent_scope (S : definitionScope) (cond : Option Expression)
    (stmts : List Statement) (els : Statement)
    (hc : (analyzeCondition S cond).err = none)
    (hb : (analyzeStatements S.newScope stmts).err = none) :
    analyzeStatement S (.IfStatement cond stmts (some els))
      = ⟨(analyzeStatement S els).scope,
          .IfStatement (analyzeCondition S cond).node (analyzeStatements S.newScope stmts).node
            (some (analyzeStatement S els).node),
          (analyzeStatement S els).err⟩ ∧
    (∀ y : String, (∀ d ∈ S.chain, y ∉ d) →
      (∀ idx : Int, els = .ExpressionStatement (.LookupExpression y idx) →
        (analyzeStatement S (.IfStatement cond stmts (some els))).err
          = some (y ++ " must be declared before usage")) ∧
      (∀ (e : Expression) (idx : Int), els = .AssignmentStatement y e idx →
        (analyzeExpression S e).err = none →
        (analyzeStatement S (.IfStatement cond stmts (some els))).err
          = some (y ++ " must be declared before assignment"))) ∧
    (∀ (x : String) (c2 : Option Expression) (stmts2 : List Statement) (e2 : Option Statement),
      els = .IfStatement c2 stmts2 e2 → x ∈ S.definitions →
      (∀ s ∈ stmts, declaresDirectly x s = false) →
      (∀ s ∈ stmts2, declaresDirectly x s = false) →
      (analyzeStatement S els).err = none →
      ∃ c3 b2 e3, (analyzeStatement S els).node = .IfStatement c3 b2 e3 ∧
        (∀ s1 ∈ b2, Statement.directLookupsAre x 1 s1 = true) ∧
        (∀ s1 ∈ (analyzeStatements S.newScope stmts).node,
          Statement.directLookupsAre x 1 s1 = true)) := by
  have h1 := analyzeStatement_if S cond stmts (some els) hc hb
  simp only [analyzeElseBranch] at h1
  refine ⟨h1, ?_, ?_⟩
  · intro y hy
    have hl := (lookup_eq_neg_one_iff S y).2 hy
    constructor
    · intro idx he
      rw [h1, he]
      simp [analyzeStatement, analyzeExpression, hl]
    · intro e idx he hv
      have hsc := analyzeExpression_scope e S
      rw [h1, he]
      simp only [analyzeStatement, hv, hsc, hl, if_true]
  · intro x c2 stmts2 e2 he hx hd1 hd2 hok
    subst he
    obtain ⟨hc2, hb2⟩ := analyzeStatement_if_ok S c2 stmts2 e2 hok
    rw [analyzeStatement_if S c2 stmts2 e2 hc2 hb2]
    exact ⟨_, _, _, rfl, block_lookups_one S x hx stmts2 hd2 hb2,
      block_lookups_one S x hx stmts hd1 hb⟩

theorem C15_else_branch_in_parent_scope_witness :
    (analyzeStatement (.mk ["x"] none) (.IfStatement (some (.LookupExpression "x" 7))
        [.DeclarationStatement "y" (.Other "1")]
        (some (.ExpressionStatement (.LookupExpression "y" 7))))).err
      = some "y must be declared before usage" ∧
    analyzeStatement (.mk ["x"] none) (.IfStatement (some (.LookupExpression "x" 7))
        [.DeclarationStatement "y" (.LookupExpression "x" 7)]
        (some (.IfStatement none [.ExpressionStatement (.LookupExpression "x" 7)] none)))
      = ⟨.mk ["x"] none, .IfStatement (some (.LookupExpression "x" 0))
          [.DeclarationStatement "y" (.LookupExpression "x" 1)]
          (some (.IfStatement none [.ExpressionStatement (.LookupExpression "x" 1)] none)),
          none⟩ :=
  ⟨((C15_else_branch_in_parent_scope (.mk ["x"] none) (some (.LookupExpression "x" 7))
      [.DeclarationStatement "y" (.Other "1")]
      (.ExpressionStatement (.LookupExpression "y" 7)) rfl rfl).2.1 "y" (by decide)).1 7 rfl,
    (C15_else_branch_in_parent_scope (.mk ["x"] none) (some (.LookupExpression "x" 7))
      [.DeclarationStatement "y" (.LookupExpression "x" 7)]
      (.IfStatement none [.ExpressionStatement (.LookupExpression "x" 7)] none) rfl rfl).1⟩

/-- An if-statement whose else-branch is absent or again such an if-statement
leaves the scope it was given as it was, error or not. -/
theorem ifChain_scope : ∀ (s : Statement) (S : definitionScope), ifChain s = true →
    (analyzeStatement S s).scope = S
  | .IfStatement cond stmts none, S => by
    intro _
    have hs := analyzeCondition_scope cond S
    simp only [analyzeStatement]
    split
    · exact hs
    · rw [hs, leave_block]
      split
      · rfl
      · rfl
  | .IfStatement cond stmts (some els), S => by
    intro h
    have ih := ifChain_scope els S (by simpa [ifChain] using h)
    have hs := analyzeCondition_scope cond S
    simp only [analyzeStatement]
    split
    · exact hs
    · rw [hs, leave_block]
      split
      · rfl
      · simp only [analyzeElseBranch]
        exact ih
  | .WhileStatement _ _, S => by
    intro h
    simp [ifChain] at h
  | .DeclarationStatement _ _, S => by
    intro h
    simp [ifChain] at h
  | .AssignmentStatement _ _ _, S => by
    intro h
    simp [ifChain] at h
  | .ReturnStatement _, S => by
    intro h
    simp [ifChain] at h
  | .ExpressionStatement _, S => by
    intro h
    simp [ifChain] at h

theorem blockOnly_scope (s : Statement) (S : definitionScope) (h : blockOnly s = true) :
    (analyzeStatement S s).scope = S := by
  cases s with
  | WhileStatement cond stmts =>
    have hs := analyzeExpression_scope cond S
    simp only [analyzeStatement]
    split
    · exact hs
    · rw [hs, leave_block]
  | IfStatement cond stmts els => exact ifChain_scope _ S h
  | DeclarationStatement _ _ => exact ifChain_scope _ S h
  | AssignmentStatement _ _ _ => exact ifChain_scope _ S h
  | ReturnStatement _ => exact ifChain_scope _ S h
  | ExpressionStatement _ => exact ifChain_scope _ S h

/-- C16: a while-statement, or an if-statement whose else-branch is absent or is
again such an if-statement, analysed in scope `S`, leaves `S` as it was, with
the same names declared in it and in each of its ancestors, whether it returns
an error or not. So when it returns no error, a use after it of a name `y` that
no scope of the chain of `S` declares fails as undeclared, whatever the blocks
declared: an assignment to `y` with the undeclared-assignment error, a lookup
of `y` with the undeclared-lookup error. -/
theorem C16_block_declarations_end_with_block (S : definitionScope) (s : Statement)
    (h : blockOnly s = true) :
    (analyzeStatement S s).scope = S ∧
    (∀ (y : String), (∀ d ∈ S.chain, y ∉ d) → (analyzeStatement S s).err = none →
      (∀ (e : Expression) (idx : Int) (rest : List Statement),
        (analyzeExpression S e).err = none →
        (analyzeStatements S (s :: .AssignmentStatement y e idx :: rest)).err
          = some (y ++ " must be declared before assignment")) ∧
      (∀ (idx : Int) (rest : List Statement),
        (analyzeStatements S (s :: .ExpressionStatement (.LookupExpression y idx) :: rest)).err
          = some (y ++ " must be declared before usage"))) := by
  have hs := blockOnly_scope s S h
  refine ⟨hs, ?_⟩
  intro y hy hok
  have hl := (lookup_eq_neg_one_iff S y).2 hy
  constructor
  · intro e idx rest he
    have hsc := analyzeExpression_scope e S
    have herr : (analyzeStatement S (.AssignmentStatement y e idx)).err
        = some (y ++ " must be declared before assignment") := by
      simp only [analyzeStatement, he, hsc, hl, if_true]
    rw [analyzeStatements_cons_ok _ _ _ hok, hs, analyzeStatements_cons_err _ _ _ _ herr]
  · intro idx rest
    have herr : (analyzeStatement S (.ExpressionStatement (.LookupExpression y idx))).err
        = some (y ++ " must be declared before usage") := by
      simp [analyzeStatement, analyzeExpression, hl]
    rw [analyzeStatements_cons_ok _ _ _ hok, hs, analyzeStatements_cons_err _ _ _ _ herr]

theorem C16_block_declarations_end_with_block_witness :
    (AnalyzeLookups (programUseAfterBlock 7)).err = some "y must be declared before assignment" ∧
    (analyzeStatements (.mk ["c"] none)
      (.IfStatement (some (.LookupExpression "c" 7)) [.DeclarationStatement "y" (.Other "1")] none
        :: .AssignmentStatement "y" (.Other "2") 7 :: [])).err
      = some "y must be declared before assignment" :=
  ⟨rfl,
    ((C16_block_declarations_end_with_block (.mk ["c"] none)
      (.IfStatement (some (.LookupExpression "c" 7)) [.DeclarationStatement "y" (.Other "1")] none)
      rfl).2 "y" (by decide) rfl).1 (.Other "2") 7 [] rfl⟩

/-- C19: a function literal with a parameter `a`, analysed in scope `S`.
(1) When its body has, after statements `pre` analysed without error, a
declaration `a := e` whose value is analysed without error, the analysis of
the function literal returns the redeclaration error for `a`. (2) When the
function literal is analysed without error, every lookup of `a` made directly
in its body carries `ScopeIndex = 0`. -/
theorem C19_parameters_share_body_scope (S : definitionScope) (params : List String)
    (a : String) (ha : a ∈ params) :
    (∀ (pre post : List Statement) (e : Expression),
      (analyzeStatements (declareAll S.newScope params) pre).err = none →
      (analyzeExpression (analyzeStatements (declareAll S.newScope params) pre).scope e).err
        = none →
      (analyzeExpression S (.Function params (pre ++ .DeclarationStatement a e :: post))).err
        = some ("Redeclaration of " ++ a ++ " in same scope")) ∧
    (∀ body : List Statement, (analyzeExpression S (.Function params body)).err = none →
      ∃ body1, (analyzeExpression S (.Function params body)).node = .Function params body1 ∧
        ∀ s1 ∈ body1, Statement.directLookupsAre a 0 s1 = true) := by
  have h0 : a ∈ (declareAll S.newScope params).definitions :=
    (declareAll_definitions _ _ _).2 (Or.inr ha)
  constructor
  · intro pre post e hpre he
    have hmem : a ∈ (analyzeStatements (declareAll S.newScope params) pre).scope.definitions :=
      (analyzeStatements_frame pre _).mono a h0
    have hd := declaration_of_mem _ a e hmem he
    simp only [analyzeExpression]
    rw [analyzeStatements_append _ _ _ hpre,
      analyzeStatements_cons_err _ _ _ ("Redeclaration of " ++ a ++ " in same scope")
        (by rw [hd])]
  · intro body h
    simp only [analyzeExpression] at h ⊢
    refine ⟨_, rfl, ?_⟩
    exact analyzeStatements_direct a 0 (fun sc => a ∈ sc.definitions)
      (fun sc hsc => lookup_of_mem sc a 0 hsc) body _ h0
      (fun s _ sc1 hsc1 => (analyzeStatement_frame s sc1).mono a hsc1) h

theorem C19_parameters_share_body_scope_witness :
    (analyzeExpression (.mk [] none)
      (.Function ["a"] ([] ++ .DeclarationStatement "a" (.Other "1") :: []))).err
      = some "Redeclaration of a in same scope" ∧
    (∃ body1, (analyzeExpression (.mk [] none)
        (.Function ["a"] [.ExpressionStatement (.LookupExpression "a" 7)])).node
        = .Function ["a"] body1 ∧
      ∀ s1 ∈ body1, Statement.directLookupsAre "a" 0 s1 = true) ∧
    (analyzeExpression (.mk [] none)
        (.Function ["a"] [.ExpressionStatement (.LookupExpression "a" 7)])).node
      = .Function ["a"] [.ExpressionStatement (.LookupExpression "a" 0)] :=
  ⟨(C19_parameters_share_body_scope (.mk [] none) ["a"] "a" (by decide)).1 [] []
      (.Other "1") rfl rfl,
    (C19_parameters_share_body_scope (.mk [] none) ["a"] "a" (by decide)).2
      [.ExpressionStatement (.LookupExpression "a" 7)] rfl,
    rfl⟩

end semantics

namespace semantics

/-! ## What the analysis stores, on every run -/

mutual
theorem directLookupsIn_mono (x : String) (k : Int) : ∀ (e : Expression) (ks : List Int),
    Expression.directLookupsIn x ks e = true → Expression.directLookupsIn x (k :: ks) e = true
  | .IfExpression cond value els, ks => by
    intro h
    simp only [Expression.directLookupsIn, Bool.and_eq_true] at h ⊢
    exact ⟨⟨directLookupsInCondition_mono x k cond ks h.1.1,
      directLookupsIn_mono x k value ks h.1.2⟩, directLookupsInCondition_mono x k els ks h.2⟩
  | .BinaryOperationExpression a b, ks => by
    intro h
    simp only [Expression.directLookupsIn, Bool.and_eq_true] at h ⊢
    exact ⟨directLookupsIn_mono x k a ks h.1, directLookupsIn_mono x k b ks h.2⟩
  | .LookupExpression id idx, ks => by
    intro h
    simp only [Expression.directLookupsIn, decide_eq_true_eq] at h ⊢
    exact fun hx => List.mem_cons_of_mem _ (h hx)
  | .CallExpression callee params, ks => by
    intro h
    simp only [Expression.directLookupsIn, Bool.and_eq_true] at h ⊢
    exact ⟨directLookupsIn_mono x k callee ks h.1,
      directLookupsInExpressions_mono x k params ks h.2⟩
  | .Function _ _, ks => fun _ => rfl
  | .Other _, ks => fun _ => rfl
theorem directLookupsInCondition_mono (x : String) (k : Int) :
    ∀ (e : Option Expression) (ks : List Int),
    directLookupsInCondition x ks e = true → directLookupsInCondition x (k :: ks) e = true
  | none, ks => fun _ => rfl
  | some e, ks => by
    intro h
    simp only [directLookupsInCondition] at h ⊢
    exact directLookupsIn_mono x k e ks h
theorem directLookupsInExpressions_mono (x : String) (k : Int) :
    ∀ (es : List Expression) (ks : List Int),
    directLookupsInExpressions x ks es = true → directLookupsInExpressions x (k :: ks) es = true
  | [], ks => fun _ => rfl
  | e :: es, ks => by
    intro h
    simp only [directLookupsInExpressions, Bool.and_eq_true] at h ⊢
    exact ⟨directLookupsIn_mono x k e ks h.1, directLookupsInExpressions_mono x k es ks h.2⟩
end

theorem statementLookupsIn_mono (x : String) (k : Int) :
    ∀ (s : Statement) (ks : List Int),
    Statement.directLookupsIn x ks s = true → Statement.directLookupsIn x (k :: ks) s = true
  | .IfStatement cond _ none, ks => by
    intro h
    simp only [Statement.directLookupsIn] at h ⊢
    exact directLookupsInCondition_mono x k cond ks h
  | .IfStatement cond _ (some els), ks => by
    intro h
    simp only [Statement.directLookupsIn, Bool.and_eq_true] at h ⊢
    exact ⟨directLookupsInCondition_mono x k cond ks h.1,
      statementLookupsIn_mono x k els ks h.2⟩
  | .WhileStatement cond _, ks => by
    intro h
    simp only [Statement.directLookupsIn] at h ⊢
    exact directLookupsIn_mono x k cond ks h
  | .DeclarationStatement _ value, ks => by
    intro h
    simp only [Statement.directLookupsIn] at h ⊢
    exact directLookupsIn_mono x k value ks h
  | .AssignmentStatement _ value _, ks => by
    intro h
    simp only [Statement.directLookupsIn] at h ⊢
    exact directLookupsIn_mono x k value ks h
  | .ReturnStatement e, ks => by
    intro h
    simp only [Statement.directLookupsIn] at h ⊢
    exact directLookupsIn_mono x k e ks h
  | .ExpressionStatement e, ks => by
    intro h
    simp only [Statement.directLookupsIn] at h ⊢
    exact directLookupsIn_mono x k e ks h

mutual
/-- Whether it returns an error or not, the analysis of an expression writes
nothing but `lookup(x, 0)` of its scope on the lookups of `x` it makes in that
scope: afterwards each of them carries that value or the one it had. -/
theorem analyzeExpression_stored (x : String) :
    ∀ (e : Expression) (sc : definitionScope) (ks : List Int),
    Expression.directLookupsIn x ks e = true →
      Expression.directLookupsIn x (sc.lookup x 0 :: ks) (analyzeExpression sc e).node = true
  | .IfExpression cond value els, sc, ks => by
    intro h
    simp only [Expression.directLookupsIn, Bool.and_eq_true] at h
    have h1 := analyzeCondition_stored x cond sc ks h.1.1
    have h2 := analyzeExpression_stored x value sc ks h.1.2
    have h3 := analyzeCondition_stored x els sc ks h.2
    have m2 := directLookupsIn_mono x (sc.lookup x 0) value ks h.1.2
    have m3 := directLookupsInCondition_mono x (sc.lookup x 0) els ks h.2
    simp only [analyzeExpression, analyzeCondition_scope, analyzeExpression_scope]
    cases hc : (analyzeCondition sc cond).err with
    | some err => simp [Expression.directLookupsIn, h1, m2, m3]
    | none =>
      cases hv : (analyzeExpression sc value).err with
      | some err => simp [Expression.directLookupsIn, h1, h2, m3]
      | none => simp [Expression.directLookupsIn, h1, h2, h3]
  | .BinaryOperationExpression a b, sc, ks => by
    intro h
    simp only [Expression.directLookupsIn, Bool.and_eq_true] at h
    have h1 := analyzeExpression_stored x a sc ks h.1
    have h2 := analyzeExpression_stored x b sc ks h.2
    have m2 := directLookupsIn_mono x (sc.lookup x 0) b ks h.2
    simp only [analyzeExpression, analyzeExpression_scope]
    cases ha : (analyzeExpression sc a).err with
    | some err => simp [Expression.directLookupsIn, h1, m2]
    | none => simp [Expression.directLookupsIn, h1, h2]
  | .LookupExpression id idx, sc, ks => by
    intro h
    simp only [Expression.directLookupsIn, decide_eq_true_eq] at h
    simp only [analyzeExpression]
    by_cases hl : sc.lookup id 0 = -1
    · simp only [hl, if_true, Expression.directLookupsIn, decide_eq_true_eq]
      exact fun hx => List.mem_cons_of_mem _ (h hx)
    · simp only [hl, if_false, Expression.directLookupsIn, decide_eq_true_eq]
      intro hx
      rw [hx]
      exact List.mem_cons_self _ _
  | .CallExpression callee params, sc, ks => by
    intro h
    simp only [Expression.directLookupsIn, Bool.and_eq_true] at h
    have h1 := analyzeExpression_stored x callee sc ks h.1
    have h2 := analyzeExpressions_stored x params sc ks h.2
    have m2 := directLookupsInExpressions_mono x (sc.lookup x 0) params ks h.2
    simp only [analyzeExpression, analyzeExpression_scope]
    cases hc : (analyzeExpression sc callee).err with
    | some err => simp [Expression.directLookupsIn, h1, m2]
    | none => simp [Expression.directLookupsIn, h1, h2]
  | .Function params stmts, sc, ks => by
    intro _
    simp only [analyzeExpression, Expression.directLookupsIn]
  | .Other text, sc, ks => fun _ => rfl
theorem analyzeCondition_stored (x : String) :
    ∀ (e : Option Expression) (sc : definitionScope) (ks : List Int),
    directLookupsInCondition x ks e = true →
      directLookupsInCondition x (sc.lookup x 0 :: ks) (analyzeCondition sc e).node = true
  | none, sc, ks => fun _ => rfl
  | some e, sc, ks => by
    intro h
    simp only [directLookupsInCondition] at h
    simp only [analyzeCondition, directLookupsInCondition]
    exact analyzeExpression_stored x e sc ks h
theorem analyzeExpressions_stored (x : String) :
    ∀ (es : List Expression) (sc : definitionScope) (ks : List Int),
    directLookupsInExpressions x ks es = true →
      directLookupsInExpressions x (sc.lookup x 0 :: ks) (analyzeExpressions sc es).node = true
  | [], sc, ks => fun _ => rfl
  | e :: es, sc, ks => by
    intro h
    simp only [directLookupsInExpressions, Bool.and_eq_true] at h
    have h1 := analyzeExpression_stored x e sc ks h.1
    have h2 := analyzeExpressions_stored x es sc ks h.2
    have m2 := directLookupsInExpressions_mono x (sc.lookup x 0) es ks h.2
    simp only [analyzeExpressions, analyzeExpression_scope]
    cases he : (analyzeExpression sc e).err with
    | some err => simp [directLookupsInExpressions, h1, m2]
    | none => simp [directLookupsInExpressions, h1, h2]
end

/-- Whether it returns an error or not, the analysis of a statement writes
nothing but `lookup(x, 0)` of its scope on the lookups of `x` it makes in that
scope. -/
theorem analyzeStatement_stored (x : String) :
    ∀ (s : Statement) (sc : definitionScope) (ks : List Int),
    Statement.directLookupsIn x ks s = true →
      Statement.directLookupsIn x (sc.lookup x 0 :: ks) (analyzeStatement sc s).node = true
  | .IfStatement cond stmts none, sc, ks => by
    intro h
    simp only [Statement.directLookupsIn] at h
    have h1 := analyzeCondition_stored x cond sc ks h
    simp only [analyzeStatement, analyzeCondition_scope]
    cases hc : (analyzeCondition sc cond).err with
    | some err => simp [Statement.directLookupsIn, h1]
    | none =>
      cases hb : (analyzeStatements sc.newScope stmts).err with
      | some err => simp [Statement.directLookupsIn, h1]
      | none => simp [Statement.directLookupsIn, analyzeElseBranch, h1]
  | .IfStatement cond stmts (some els), sc, ks => by
    intro h
    simp only [Statement.directLookupsIn, Bool.and_eq_true] at h
    have h1 := analyzeCondition_stored x cond sc ks h.1
    have h2 := analyzeStatement_stored x els sc ks h.2
    have m2 := statementLookupsIn_mono x (sc.lookup x 0) els ks h.2
    simp only [analyzeStatement, analyzeCondition_scope, leave_block]
    cases hc : (analyzeCondition sc cond).err with
    | some err => simp [Statement.directLookupsIn, h1, m2]
    | none =>
      cases hb : (analyzeStatements sc.newScope stmts).err with
      | some err => simp [Statement.directLookupsIn, h1, m2]
      | none => simp [Statement.directLookupsIn, analyzeElseBranch, h1, h2]
  | .WhileStatement cond stmts, sc, ks => by
    intro h
    simp only [Statement.directLookupsIn] at h
    have h1 := analyzeExpression_stored x cond sc ks h
    simp only [analyzeStatement, analyzeExpression_scope]
    cases hc : (analyzeExpression sc cond).err with
    | some err => simp [Statement.directLookupsIn, h1]
    | none => simp [Statement.directLookupsIn, h1]
  | .DeclarationStatement id value, sc, ks => by
    intro h
    simp only [Statement.directLookupsIn] at h
    have h1 := analyzeExpression_stored x value sc ks h
    simp only [analyzeStatement, analyzeExpression_scope]
    cases hv : (analyzeExpression sc value).err with
    | some err => simp [Statement.directLookupsIn, h1]
    | none =>
      by_cases hh : definitionSet.has sc.definitions id = true
      · simp [Statement.directLookupsIn, h1, hh]
      · simp [Statement.directLookupsIn, h1, hh]
  | .AssignmentStatement id value idx, sc, ks => by
    intro h
    simp only [Statement.directLookupsIn] at h
    have h1 := analyzeExpression_stored x value sc ks h
    simp only [analyzeStatement, analyzeExpression_scope]
    cases hv : (analyzeExpression sc value).err with
    | some err => simp [Statement.directLookupsIn, h1]
    | none =>
      by_cases hl : sc.lookup id 0 = -1
      · simp [Statement.directLookupsIn, h1, hl]
      · simp [Statement.directLookupsIn, h1, hl]
  | .ReturnStatement e, sc, ks => by
    intro h
    simp only [Statement.directLookupsIn] at h
    simp only [analyzeStatement, Statement.directLookupsIn]
    exact analyzeExpression_stored x e sc ks h
  | .ExpressionStatement e, sc, ks => by
    intro h
    simp only [Statement.directLookupsIn] at h
    simp only [analyzeStatement, Statement.directLookupsIn]
    exact analyzeExpression_stored x e sc ks h

/-- Along a statement list, whether the loop returns an error or not, when every
scope the loop goes through satisfies an invariant `I` that fixes `lookup(x, 0)`
to `k`: the analysis writes nothing but `k` on the lookups of `x` made in the
scope of the list. -/
theorem analyzeStatements_stored (x : String) (k : Int) (I : definitionScope → Prop)
    (hI : ∀ sc, I sc → sc.lookup x 0 = k) :
    ∀ (ss : List Statement) (sc : definitionScope) (ks : List Int), I sc →
      (∀ s ∈ ss, ∀ sc1, I sc1 → I (analyzeStatement sc1 s).scope) →
      (∀ s ∈ ss, Statement.directLookupsIn x ks s = true) →
      ∀ s1 ∈ (analyzeStatements sc ss).node, Statement.directLookupsIn x (k :: ks) s1 = true
  | [], sc, ks => by
    intro _ _ _ s1 hs1
    simp [analyzeStatements] at hs1
  | s :: ss, sc, ks => by
    intro hsc hstep hin s1 hs1
    have hhead : Statement.directLookupsIn x (k :: ks) (analyzeStatement sc s).node = true := by
      rw [← hI sc hsc]
      exact analyzeStatement_stored x s sc ks (hin s (List.mem_cons_self _ _))
    cases hs : (analyzeStatement sc s).err with
    | some err =>
      rw [analyzeStatements_cons_err _ _ _ _ hs] at hs1
      simp only [List.mem_cons] at hs1
      rcases hs1 with hs1 | hs1
      · rw [hs1]; exact hhead
      · exact statementLookupsIn_mono x k s1 ks (hin s1 (List.mem_cons_of_mem _ hs1))
    | none =>
      rw [analyzeStatements_cons_ok _ _ _ hs] at hs1
      simp only [List.mem_cons] at hs1
      rcases hs1 with hs1 | hs1
      · rw [hs1]; exact hhead
      · exact analyzeStatements_stored x k I hI ss _ ks
          (hstep s (List.mem_cons_self _ _) sc hsc)
          (fun t ht => hstep t (List.mem_cons_of_mem _ ht))
          (fun t ht => hin t (List.mem_cons_of_mem _ ht)) s1 hs1

/-- In a block entered from a scope that declares `x`, when no statement of the
block declares `x`: whether the block returns an error or not, the analysis
writes nothing but 1 on the lookups of `x` made directly in the block. -/
theorem block_stored_one (S : definitionScope) (x : String) (hx : x ∈ S.definitions)
    (stmts : List Statement) (hdecl : ∀ s ∈ stmts, declaresDirectly x s = false)
    (ks : List Int) (hin : ∀ s ∈ stmts, Statement.directLookupsIn x ks s = true) :
    ∀ s1 ∈ (analyzeStatements S.newScope stmts).node,
      Statement.directLookupsIn x (1 :: ks) s1 = true := by
  refine analyzeStatements_stored x 1 (fun sc => x ∉ sc.definitions ∧ sc.parent = some S)
    (then_block_invariant S x hx) stmts S.newScope ks ⟨by simp [newScope_definitions], rfl⟩
    ?_ hin
  intro s hs sc1 hsc1
  have hf := analyzeStatement_frame s sc1
  refine ⟨fun hmem => ?_, hf.parent_eq.trans hsc1.2⟩
  rcases hf.fresh x hmem with h1 | h1
  · exact hsc1.1 h1
  · rw [hdecl s hs] at h1
    exact Bool.false_ne_true h1

/-- The node an if-statement leaves is an if-statement; its block is the block
as the loop over it leaves it when the condition is analysed without error, and
the block as it was when the condition returns an error. -/
theorem analyzeStatement_if_node (S : definitionScope) (cond : Option Expression)
    (stmts : List Statement) (els : Option Statement) :
    ∃ c1 b1 e1, (analyzeStatement S (.IfStatement cond stmts els)).node = .IfStatement c1 b1 e1 ∧
      ((analyzeCondition S cond).err = none → b1 = (analyzeStatements S.newScope stmts).node) ∧
      ((analyzeCondition S cond).err ≠ none → b1 = stmts) := by
  have hs := analyzeCondition_scope cond S
  simp only [analyzeStatement, hs]
  cases hc : (analyzeCondition S cond).err with
  | some err => exact ⟨_, _, _, rfl, fun h => absurd h (by simp), fun _ => rfl⟩
  | none =>
    cases hb : (analyzeStatements S.newScope stmts).err with
    | some err => exact ⟨_, _, _, rfl, fun _ => rfl, fun h => absurd rfl h⟩
    | none => exact ⟨_, _, _, rfl, fun _ => rfl, fun h => absurd rfl h⟩

/-- A declaration of a name the scope does not hold yet returns the error of its
value, if any, and no other: never the redeclaration error. -/
theorem declaration_err_of_not_mem (sc : definitionScope) (x : String) (e : Expression)
    (hx : x ∉ sc.definitions) :
    (analyzeStatement sc (.DeclarationStatement x e)).err = (analyzeExpression sc e).err := by
  cases he : (analyzeExpression sc e).err with
  | none => rw [declaration_of_not_mem sc x e hx he]
  | some err => rw [declaration_of_value_error sc x e err he]

/-- Statements that do not declare `y`, analysed without error from a scope that
does not hold `y`, leave a scope that does not hold `y`. -/
theorem not_mem_after (sc : definitionScope) (y : String) (pre : List Statement)
    (hy : y ∉ sc.definitions) (hdecl : ∀ s ∈ pre, declaresDirectly y s = false) :
    y ∉ (analyzeStatements sc pre).scope.definitions := by
  intro hmem
  rcases (analyzeStatements_frame pre sc).fresh y hmem with h1 | ⟨s, hs, h1⟩
  · exact hy h1
  · rw [hdecl s hs] at h1
    exact Bool.false_ne_true h1

/-- The node a declaration leaves: the declaration of the same name with its
value as analysed, whatever the statement returns. -/
theorem declaration_node (sc : definitionScope) (x : String) (e : Expression) :
    (analyzeStatement sc (.DeclarationStatement x e)).node
      = .DeclarationStatement x (analyzeExpression sc e).node := by
  simp only [analyzeStatement]
  split
  · rfl
  · split <;> rfl

/-- The loop leaves its first statement as analysed, whatever it returns. -/
theorem analyzeStatements_head_node (sc : definitionScope) (s : Statement)
    (ss : List Statement) :
    ∃ rest1, (analyzeStatements sc (s :: ss)).node = (analyzeStatement sc s).node :: rest1 := by
  cases hs : (analyzeStatement sc s).err with
  | some err => exact ⟨_, by rw [analyzeStatements_cons_err _ _ _ _ hs]⟩
  | none => exact ⟨_, by rw [analyzeStatements_cons_ok _ _ _ hs]⟩

/-- In the block of an if-statement entered from a scope that declares `x`,
after statements that do not declare `x`, `lookup(x, 0)` is 1. -/
theorem then_block_lookup_after (S : definitionScope) (x : String) (hx : x ∈ S.definitions)
    (pre : List Statement) (hdecl : ∀ s ∈ pre, declaresDirectly x s = false) :
    (analyzeStatements S.newScope pre).scope.lookup x 0 = 1 :=
  then_block_invariant S x hx _
    ⟨not_mem_after _ x pre (by simp [newScope_definitions]) hdecl,
      (analyzeStatements_frame pre S.newScope).parent_eq.trans (newScope_parent S)⟩

/-- A declaration `y := e` that follows, in a statement list, statements `pre`
analysed without error of which none declares `y`, in a scope that does not
declare `y`: when its value is analysed without error it returns no error and
registers `y`, and the loop goes on with the statements after it. -/
theorem declaration_in_list (sc : definitionScope) (y : String) (e : Expression)
    (pre post : List Statement) (hy : y ∉ sc.definitions)
    (hdecl : ∀ s ∈ pre, declaresDirectly y s = false)
    (hpre : (analyzeStatements sc pre).err = none)
    (he : (analyzeExpression (analyzeStatements sc pre).scope e).err = none) :
    analyzeStatement (analyzeStatements sc pre).scope (.DeclarationStatement y e)
        = ⟨(analyzeStatements sc pre).scope.declare y,
            .DeclarationStatement y (analyzeExpression (analyzeStatements sc pre).scope e).node,
            none⟩ ∧
    analyzeStatements sc (pre ++ .DeclarationStatement y e :: post)
        = ⟨(analyzeStatements ((analyzeStatements sc pre).scope.declare y) post).scope,
            (analyzeStatements sc pre).node
              ++ .DeclarationStatement y
                  (analyzeExpression (analyzeStatements sc pre).scope e).node
                :: (analyzeStatements ((analyzeStatements sc pre).scope.declare y) post).node,
            (analyzeStatements ((analyzeStatements sc pre).scope.declare y) post).err⟩ := by
  have hy1 : y ∉ (analyzeStatements sc pre).scope.definitions := by
    intro hmem
    rcases (analyzeStatements_frame pre sc).fresh y hmem with h1 | ⟨s, hs, h1⟩
    · exact hy h1
    · rw [hdecl s hs] at h1
      exact Bool.false_ne_true h1
  have hd := declaration_of_not_mem _ y e hy1 he
  refine ⟨hd, ?_⟩
  rw [analyzeStatements_append _ _ _ hpre, analyzeStatements_cons_ok _ _ _ (by rw [hd]), hd]

end semantics

namespace semantics

/-! ## Then-blocks and shadowing -/

/-- C8: let `x` be declared in scope `S` and an if-statement, with any
else-branch, be analysed in `S`. (1) When no statement of the then-block
declares `x`, the then-block the analysis leaves is such that: on every run,
failing or not, nothing but 1 has been written on the lookups of `x` made
directly in it (each carries 1 or the index it had); when the condition and
the then-block are analysed without error, whatever the else-branch does, each
of them carries `ScopeIndex = 1`; and, the condition being analysed without
error, whenever the statements `pre` at the start of the block are analysed
without error, whatever the rest of the block does, the lookups of `x` made
directly in `pre` carry 1, `lookup(x, 0)` is 1 from the scope in which the next
statement is analysed, and a declaration `y := e` that comes next, whose value
is analysed without error, is left with 1 on the lookups of `x` its value
makes, whether the declaration then succeeds or not. (2) Whatever `S` declares (`y`, `x` or
neither), a declaration `y := e` in the then-block, reached after statements
`pre` that do not declare `y` (the condition and `pre` being analysed without
error), returns the error of its value `e`, if any, and no other: never the
redeclaration error. When `e` is analysed without error, the declaration
returns no error and registers `y` in the scope of the block; the analysis
goes on with the statements after it, and with nothing after it and no
else-branch the if-statement returns no error. -/
theorem C8_then_block_lookup_and_declaration (S : definitionScope) (x : String)
    (hx : x ∈ S.definitions) (cond : Option Expression) :
    (∀ (stmts : List Statement) (els : Option Statement),
      (∀ s ∈ stmts, declaresDirectly x s = false) →
      ∃ c1 b1 e1,
        (analyzeStatement S (.IfStatement cond stmts els)).node = .IfStatement c1 b1 e1 ∧
        (∀ ks : List Int, (∀ s ∈ stmts, Statement.directLookupsIn x ks s = true) →
          ∀ s1 ∈ b1, Statement.directLookupsIn x (1 :: ks) s1 = true) ∧
        ((analyzeCondition S cond).err = none →
          (analyzeStatements S.newScope stmts).err = none →
          ∀ s1 ∈ b1, Statement.directLookupsAre x 1 s1 = true) ∧
        ((analyzeCondition S cond).err = none →
          ∀ pre rest : List Statement, stmts = pre ++ rest →
          (analyzeStatements S.newScope pre).err = none →
          b1 = (analyzeStatements S.newScope pre).node
              ++ (analyzeStatements (analyzeStatements S.newScope pre).scope rest).node ∧
          (∀ s1 ∈ (analyzeStatements S.newScope pre).node,
            Statement.directLookupsAre x 1 s1 = true) ∧
          (analyzeStatements S.newScope pre).scope.lookup x 0 = 1 ∧
          (∀ (y : String) (e : Expression) (post : List Statement),
            rest = .DeclarationStatement y e :: post →
            (analyzeExpression (analyzeStatements S.newScope pre).scope e).err = none →
            Expression.directLookupsAre x 1
                (analyzeExpression (analyzeStatements S.newScope pre).scope e).node = true ∧
              ∃ rest1,
                (analyzeStatements (analyzeStatements S.newScope pre).scope rest).node
                  = .DeclarationStatement y
                      (analyzeExpression (analyzeStatements S.newScope pre).scope e).node
                    :: rest1))) ∧
    (∀ (pre post : List Statement) (y : String) (e : Expression) (els : Option Statement),
      (∀ s ∈ pre, declaresDirectly y s = false) →
      (analyzeCondition S cond).err = none →
      (analyzeStatements S.newScope pre).err = none →
      (analyzeStatement (analyzeStatements S.newScope pre).scope
          (.DeclarationStatement y e)).err
        = (analyzeExpression (analyzeStatements S.newScope pre).scope e).err ∧
      ((analyzeExpression (analyzeStatements S.newScope pre).scope e).err = none →
        analyzeStatement (analyzeStatements S.newScope pre).scope (.DeclarationStatement y e)
            = ⟨(analyzeStatements S.newScope pre).scope.declare y,
                .DeclarationStatement y
                  (analyzeExpression (analyzeStatements S.newScope pre).scope e).node,
                none⟩ ∧
          (∃ c1 e1,
            (analyzeStatement S
                (.IfStatement cond (pre ++ .DeclarationStatement y e :: post) els)).node
              = .IfStatement c1
                  ((analyzeStatements S.newScope pre).node
                    ++ .DeclarationStatement y
                        (analyzeExpression (analyzeStatements S.newScope pre).scope e).node
                      :: (analyzeStatements
                          ((analyzeStatements S.newScope pre).scope.declare y) post).node)
                  e1) ∧
          (analyzeStatement S
              (.IfStatement cond (pre ++ .DeclarationStatement y e :: []) none)).err = none)) := by
  constructor
  · intro stmts els hdecl
    obtain ⟨c1, b1, e1, hnode, hok, hfail⟩ := analyzeStatement_if_node S cond stmts els
    refine ⟨c1, b1, e1, hnode, ?_, ?_, ?_⟩
    · intro ks hin
      cases hc : (analyzeCondition S cond).err with
      | none =>
        rw [hok hc]
        exact block_stored_one S x hx stmts hdecl ks hin
      | some err =>
        rw [hfail (by rw [hc]; simp)]
        exact fun s1 hs1 => statementLookupsIn_mono x 1 s1 ks (hin s1 hs1)
    · intro hc hb
      rw [hok hc]
      exact block_lookups_one S x hx stmts hdecl hb
    · intro hc pre rest hsplit hpre
      have hdpre : ∀ s ∈ pre, declaresDirectly x s = false :=
        fun s hs => hdecl s (by rw [hsplit]; exact List.mem_append_left _ hs)
      have hl := then_block_lookup_after S x hx pre hdpre
      refine ⟨?_, block_lookups_one S x hx pre hdpre hpre, hl, ?_⟩
      · rw [hok hc, hsplit, analyzeStatements_append _ _ _ hpre]
      · intro y e post hrest he
        refine ⟨?_, ?_⟩
        · rw [← hl]
          exact analyzeExpression_direct x e _ he
        · obtain ⟨rest1, h1⟩ := analyzeStatements_head_node
            (analyzeStatements S.newScope pre).scope (.DeclarationStatement y e) post
          rw [declaration_node] at h1
          exact ⟨rest1, by rw [hrest, h1]⟩
  · intro pre post y e els hdecl hc hpre
    have hy : y ∉ S.newScope.definitions := by simp [newScope_definitions]
    refine ⟨declaration_err_of_not_mem _ y e (not_mem_after _ y pre hy hdecl), ?_⟩
    intro he
    obtain ⟨hd, hlist⟩ := declaration_in_list S.newScope y e pre post hy hdecl hpre he
    refine ⟨hd, ?_, ?_⟩
    · obtain ⟨c1, b1, e1, hnode, hok, _⟩ :=
        analyzeStatement_if_node S cond (pre ++ .DeclarationStatement y e :: post) els
      refine ⟨c1, e1, ?_⟩
      rw [hnode, hok hc, hlist]
    · have hlist0 := (declaration_in_list S.newScope y e pre [] hy hdecl hpre he).2
      have hb : (analyzeStatements S.newScope (pre ++ .DeclarationStatement y e :: [])).err
          = none := by rw [hlist0]; rfl
      rw [analyzeStatement_if S cond _ none hc hb]
      rfl

theorem C8_then_block_lookup_and_declaration_witness :
    (∃ c1 b1 e1,
      (analyzeStatement (.mk ["x"] none) (.IfStatement (some (.LookupExpression "x" 7))
        [.DeclarationStatement "y" (.LookupExpression "x" 7)] none)).node
          = .IfStatement c1 b1 e1 ∧
      ∀ s1 ∈ b1, Statement.directLookupsAre "x" 1 s1 = true) ∧
    (analyzeStatement (.mk ["x"] none) (.IfStatement (some (.LookupExpression "x" 7))
        ([] ++ .DeclarationStatement "y" (.LookupExpression "x" 7) :: []) none)).err = none ∧
    (AnalyzeLookups (programIfLookup 7)).node.Statements
      = [.DeclarationStatement "x" (.Other "1"),
          .IfStatement (some (.LookupExpression "x" 0))
            [.DeclarationStatement "y" (.LookupExpression "x" 1)] none] ∧
    (analyzeStatement (.mk ["x"] none) (.IfStatement (some (.LookupExpression "x" 7))
        [.DeclarationStatement "y" (.Other "1"),
         .DeclarationStatement "y" (.LookupExpression "x" 7),
         .ExpressionStatement (.LookupExpression "x" 7)] none))
      = ⟨.mk ["x"] none, .IfStatement (some (.LookupExpression "x" 0))
          [.DeclarationStatement "y" (.Other "1"),
           .DeclarationStatement "y" (.LookupExpression "x" 1),
           .ExpressionStatement (.LookupExpression "x" 7)] none,
          some "Redeclaration of y in same scope"⟩ :=
  ⟨match (C8_then_block_lookup_and_declaration (.mk ["x"] none) "x" (by decide)
      (some (.LookupExpression "x" 7))).1 [.DeclarationStatement "y" (.LookupExpression "x" 7)]
      none (by decide) with
    | ⟨c1, b1, e1, hn, _, h2, _⟩ => ⟨c1, b1, e1, hn, h2 rfl rfl⟩,
    (((C8_then_block_lookup_and_declaration (.mk ["x"] none) "x" (by decide)
      (some (.LookupExpression "x" 7))).2 [] [] "y" (.LookupExpression "x" 7) none
      (by decide) rfl rfl).2 rfl).2.2,
    rfl, rfl⟩

/-- The block of a construct whose condition is analysed without error is
analysed by the loop over its statements, in the block scope; the construct
returns the error of the block or, the block being analysed without error, the
error that comes after it. -/
theorem analyzeBlock_eq (S : definitionScope) (kind : BlockKind) (block : List Statement)
    (hcond : kind.conditionOk S) :
    analyzeBlock S kind block
      = ((match (analyzeStatements (blockScope S kind) block).err with
          | some err => some err
          | none => kind.errAfter S),
          (analyzeStatements (blockScope S kind) block).node) := by
  cases kind with
  | ifBlock cond els =>
    have hc : (analyzeCondition S cond).err = none := hcond
    have hs := analyzeCondition_scope cond S
    simp only [analyzeBlock, analyzeStatement, hc, hs, blockScope, BlockKind.params, declareAll,
      BlockKind.errAfter, leave_block]
    cases hb : (analyzeStatements S.newScope block).err with
    | some err => rfl
    | none => rfl
  | whileBody cond =>
    have hc : (analyzeExpression S cond).err = none := hcond
    have hs := analyzeExpression_scope cond S
    simp only [analyzeBlock, analyzeStatement, hc, hs, blockScope, BlockKind.params, declareAll,
      BlockKind.errAfter]
    cases hb : (analyzeStatements S.newScope block).err with
    | some err => rfl
    | none => rfl
  | functionBody params =>
    simp only [analyzeBlock, analyzeExpression, blockScope, BlockKind.params,
      BlockKind.errAfter]
    cases hb : (analyzeStatements (declareAll S.newScope params) block).err with
    | some err => rfl
    | none => rfl

/-- C10: let a block be entered from scope `S`, whose chain declares `x`: the
then-block of an if-statement with any else-branch, the body of a
while-statement, or the body of a function literal. Let the block have a
declaration `x := e`, reached after statements `pre` (the condition and `pre`
being analysed without error), where `x` is no parameter and no statement of
`pre` declares `x`: the block has not yet declared `x`. Then (1) the
declaration returns the error of its value `e`, if any, and no other: never
the redeclaration error; (2) when `e` is analysed without error, the
declaration returns no error and registers `x` in the scope of the block, the
analysis goes on with the statements `post` after it, and the error of the
construct is the error of `post` or, without one, of what comes after the
block; (3) when `post` is analysed without error, every lookup of `x` made
directly in the block after the declaration carries `ScopeIndex = 0`; and
whenever the statements `post1` at the start of `post` are analysed without
error, whatever the rest of the block does, the lookups of `x` made directly in
`post1` carry 0 and `lookup(x, 0)` is 0 from the scope in which the next
statement is analysed; (4) on every run, failing or not, nothing but 0 has been
written on those lookups (each carries 0 or the index it had); (5) 0 is not the
distance of the outer declaration, which is positive. -/
theorem C10_shadowing (S : definitionScope) (x : String) (kind : BlockKind)
    (pre post : List Statement) (e : Expression)
    (hout : ∃ d ∈ S.chain, x ∈ d)
    (hcond : kind.conditionOk S) (hparams : x ∉ kind.params)
    (hpre : ∀ s ∈ pre, declaresDirectly x s = false)
    (hok : (analyzeStatements (blockScope S kind) pre).err = none) :
    (analyzeStatement (analyzeStatements (blockScope S kind) pre).scope
        (.DeclarationStatement x e)).err
      = (analyzeExpression (analyzeStatements (blockScope S kind) pre).scope e).err ∧
    ((analyzeExpression (analyzeStatements (blockScope S kind) pre).scope e).err = none →
      analyzeStatement (analyzeStatements (blockScope S kind) pre).scope
          (.DeclarationStatement x e)
        = ⟨(analyzeStatements (blockScope S kind) pre).scope.declare x,
            .DeclarationStatement x
              (analyzeExpression (analyzeStatements (blockScope S kind) pre).scope e).node,
            none⟩ ∧
      analyzeBlock S kind (pre ++ .DeclarationStatement x e :: post)
        = ((match (analyzeStatements
                ((analyzeStatements (blockScope S kind) pre).scope.declare x) post).err with
            | some err => some err
            | none => kind.errAfter S),
            (analyzeStatements (blockScope S kind) pre).node
              ++ .DeclarationStatement x
                  (analyzeExpression (analyzeStatements (blockScope S kind) pre).scope e).node
                :: (analyzeStatements
                    ((analyzeStatements (blockScope S kind) pre).scope.declare x) post).node)) ∧
    ((analyzeStatements
        ((analyzeStatements (blockScope S kind) pre).scope.declare x) post).err = none →
      ∀ s1 ∈ (analyzeStatements
          ((analyzeStatements (blockScope S kind) pre).scope.declare x) post).node,
        Statement.directLookupsAre x 0 s1 = true) ∧
    (∀ post1 post2 : List Statement, post = post1 ++ post2 →
      (analyzeStatements
        ((analyzeStatements (blockScope S kind) pre).scope.declare x) post1).err = none →
      (analyzeStatements
          ((analyzeStatements (blockScope S kind) pre).scope.declare x) post).node
        = (analyzeStatements
            ((analyzeStatements (blockScope S kind) pre).scope.declare x) post1).node
          ++ (analyzeStatements (analyzeStatements
              ((analyzeStatements (blockScope S kind) pre).scope.declare x) post1).scope
              post2).node ∧
      (∀ s1 ∈ (analyzeStatements
          ((analyzeStatements (blockScope S kind) pre).scope.declare x) post1).node,
        Statement.directLookupsAre x 0 s1 = true) ∧
      (analyzeStatements
        ((analyzeStatements (blockScope S kind) pre).scope.declare x) post1).scope.lookup x 0
        = 0) ∧
    (∀ ks : List Int, (∀ s ∈ post, Statement.directLookupsIn x ks s = true) →
      ∀ s1 ∈ (analyzeStatements
          ((analyzeStatements (blockScope S kind) pre).scope.declare x) post).node,
        Statement.directLookupsIn x (0 :: ks) s1 = true) ∧
    0 < S.lookup x 1 := by
  have hx0 : x ∉ (blockScope S kind).definitions := by
    intro hmem
    rw [blockScope, declareAll_definitions] at hmem
    rcases hmem with h | h
    · simp [newScope_definitions] at h
    · exact hparams h
  have hmem : x ∈ ((analyzeStatements (blockScope S kind) pre).scope.declare x).definitions := by
    rw [declare_definitions, List.mem_insert_iff]
    exact Or.inl rfl
  refine ⟨declaration_err_of_not_mem _ x e (not_mem_after _ x pre hx0 hpre), ?_, ?_, ?_, ?_,
    ?_⟩
  · intro he
    obtain ⟨hd, hlist⟩ := declaration_in_list (blockScope S kind) x e pre post hx0 hpre hok he
    refine ⟨hd, ?_⟩
    rw [analyzeBlock_eq S kind _ hcond, hlist]
  · intro h
    exact analyzeStatements_direct x 0 (fun sc => x ∈ sc.definitions)
      (fun sc hsc => lookup_of_mem sc x 0 hsc) post _ hmem
      (fun s _ sc1 hsc1 => (analyzeStatement_frame s sc1).mono x hsc1) h
  · intro post1 post2 hsplit h1
    refine ⟨by rw [hsplit, analyzeStatements_append _ _ _ h1], ?_, ?_⟩
    · exact analyzeStatements_direct x 0 (fun sc => x ∈ sc.definitions)
        (fun sc hsc => lookup_of_mem sc x 0 hsc) post1 _ hmem
        (fun s _ sc1 hsc1 => (analyzeStatement_frame s sc1).mono x hsc1) h1
    · exact lookup_of_mem _ x 0 ((analyzeStatements_frame post1 _).mono x hmem)
  · intro ks hin
    exact analyzeStatements_stored x 0 (fun sc => x ∈ sc.definitions)
      (fun sc hsc => lookup_of_mem sc x 0 hsc) post _ ks hmem
      (fun s _ sc1 hsc1 => (analyzeStatement_frame s sc1).mono x hsc1) hin
  · have hne : distanceIn S.chain x ≠ none := by
      rw [Ne, distanceIn_eq_none_iff]
      obtain ⟨d, hd1, hd2⟩ := hout
      exact fun h => h d hd1 hd2
    obtain ⟨k, hk⟩ := Option.ne_none_iff_exists'.1 hne
    rw [lookup_eq, hk]
    have := Int.natCast_nonneg k
    show (0 : Int) < 1 + (k : Int)
    omega

theorem C10_shadowing_witness :
    analyzeBlock (.mk ["x"] none)
        (.ifBlock (some (.Other "true")) (some (.ExpressionStatement (.LookupExpression "z" 7))))
        ([] ++ .DeclarationStatement "x" (.Other "2")
          :: [.DeclarationStatement "y" (.LookupExpression "x" 7)])
      = (some "z must be declared before usage",
          [.DeclarationStatement "x" (.Other "2"),
           .DeclarationStatement "y" (.LookupExpression "x" 0)]) ∧
    (AnalyzeLookups (programShadowing 7)).err = none ∧
    (AnalyzeLookups (programShadowing 7)).node.Statements
      = [.DeclarationStatement "x" (.Other "1"),
          .IfStatement (some (.Other "true"))
            [.DeclarationStatement "x" (.Other "2"),
             .DeclarationStatement "y" (.LookupExpression "x" 0)] none] :=
  ⟨((C10_shadowing (.mk ["x"] none) "x"
      (.ifBlock (some (.Other "true")) (some (.ExpressionStatement (.LookupExpression "z" 7))))
      [] [.DeclarationStatement "y" (.LookupExpression "x" 7)] (.Other "2")
      ⟨["x"], by decide, by decide⟩ rfl (by decide) (by decide) rfl).2.1 rfl).2,
    rfl, rfl⟩

end semantics

namespace semantics

/-! ## Free lookups of a value -/

theorem chain_eq (sc : definitionScope) :
    sc.chain = sc.definitions :: (match sc.parent with
      | none => []
      | some p => p.chain) := by
  cases sc with
  | mk d p => cases p <;> rfl

/-- The distance of `x` depends on the scope through its parent and through
whether it declares `x`. -/
theorem distanceIn_congr (x : String) (sc sc1 : definitionScope)
    (hp : sc1.parent = sc.parent) (hm : x ∈ sc1.definitions ↔ x ∈ sc.definitions) :
    distanceIn sc1.chain x = distanceIn sc.chain x := by
  rw [chain_eq sc1, chain_eq sc, hp]
  simp only [distanceIn, hm]

theorem distanceIn_frame (x : String) {sc sc1 : definitionScope} {P : String → Prop}
    (h : Frame sc sc1 P) (hx : ¬ P x) : distanceIn sc1.chain x = distanceIn sc.chain x :=
  distanceIn_congr x sc sc1 h.parent_eq
    ⟨fun h1 => (h.fresh x h1).resolve_right hx, h.mono x⟩

theorem distanceIn_newScope (x : String) (sc : definitionScope) :
    distanceIn sc.newScope.chain x = (distanceIn sc.chain x).map (· + 1) := by
  simp [definitionScope.newScope, definitionScope.chain, distanceIn]

theorem distanceIn_declareAll (x : String) (ds : definitionScope) (ps : List String)
    (hx : x ∉ ps) : distanceIn (declareAll ds ps).chain x = distanceIn ds.chain x :=
  distanceIn_congr x ds _ (declareAll_parent ds ps)
    ⟨fun h => ((declareAll_definitions ds ps x).1 h).resolve_right hx,
      fun h => (declareAll_definitions ds ps x).2 (Or.inl h)⟩

/-- The distance of `x` from the scope in which a block that does not have `x`
as a parameter starts. -/
theorem distanceIn_block (x : String) (sc : definitionScope) (ps : List String)
    (hx : x ∉ ps) :
    distanceIn (declareAll sc.newScope ps).chain x = (distanceIn sc.chain x).map (· + 1) := by
  rw [distanceIn_declareAll x _ ps hx, distanceIn_newScope]

/-- The analysis leaves the declared name of a statement as it is. -/
theorem declaresDirectly_node (x : String) : ∀ (s : Statement) (sc : definitionScope),
    declaresDirectly x (analyzeStatement sc s).node = declaresDirectly x s
  | .IfStatement cond stmts none, sc => by
    simp only [analyzeStatement]
    split
    · rfl
    · split <;> rfl
  | .IfStatement cond stmts (some els), sc => by
    have ih := declaresDirectly_node x els
    simp only [analyzeStatement]
    split
    · rfl
    · split
      · rfl
      · simp only [analyzeElseBranch, declaresDirectly]
        exact ih _
  | .WhileStatement cond stmts, sc => by
    simp only [analyzeStatement]
    split <;> rfl
  | .DeclarationStatement id value, sc => by
    simp only [analyzeStatement]
    split
    · rfl
    · split <;> rfl
  | .AssignmentStatement id value idx, sc => by
    simp only [analyzeStatement]
    split
    · rfl
    · split <;> rfl
  | .ReturnStatement e, sc => rfl
  | .ExpressionStatement e, sc => rfl

/-- A block analysed without error has its free lookups of `x` at the distance
of the block scope, once its statements have theirs. -/
theorem block_free (x : String) (sc : definitionScope) (m : Nat) (ps : List String)
    (stmts : List Statement) (hd : distanceIn sc.chain x = some m)
    (ih : ∀ (sc1 : definitionScope) (m1 : Nat), distanceIn sc1.chain x = some m1 →
      (analyzeStatements sc1 stmts).err = none →
      freeLookupsAreStatements x (m1 : Int) (analyzeStatements sc1 stmts).node = true)
    (h : (analyzeStatements (declareAll sc.newScope ps) stmts).err = none) :
    (decide (x ∈ ps)
      || freeLookupsAreStatements x ((m : Int) + 1)
          (analyzeStatements (declareAll sc.newScope ps) stmts).node) = true := by
  by_cases hb : x ∈ ps
  · simp [hb]
  · have hd1 : distanceIn (declareAll sc.newScope ps).chain x = some (m + 1) := by
      rw [distanceIn_block x sc ps hb, hd]
      rfl
    have := ih _ _ hd1 h
    rw [Nat.cast_succ] at this
    simp [this]

mutual
/-- An expression analysed without error in a scope from which `x` is at
distance `m` has stored, on each of its free lookups of `x`, `m` plus the number
of block scopes opened around the lookup. -/
theorem analyzeExpression_free (x : String) :
    ∀ (e : Expression) (sc : definitionScope) (m : Nat),
      distanceIn sc.chain x = some m → (analyzeExpression sc e).err = none →
      Expression.freeLookupsAre x (m : Int) (analyzeExpression sc e).node = true
  | .IfExpression cond value els, sc, m => by
    intro hd h
    have h1 := analyzeCondition_free x cond sc m hd
    have h2 := analyzeExpression_free x value sc m hd
    have h3 := analyzeCondition_free x els sc m hd
    simp only [analyzeExpression] at h ⊢
    cases hc : (analyzeCondition sc cond).err with
    | some err => simp [hc] at h
    | none =>
      simp only [hc] at h ⊢
      rw [analyzeCondition_scope] at h ⊢
      cases hv : (analyzeExpression sc value).err with
      | some err => simp [hv] at h
      | none =>
        simp only [hv] at h ⊢
        rw [analyzeExpression_scope] at h ⊢
        simp [Expression.freeLookupsAre, h1 hc, h2 hv, h3 h]
  | .BinaryOperationExpression a b, sc, m => by
    intro hd h
    have h1 := analyzeExpression_free x a sc m hd
    have h2 := analyzeExpression_free x b sc m hd
    simp only [analyzeExpression] at h ⊢
    cases ha : (analyzeExpression sc a).err with
    | some err => simp [ha] at h
    | none =>
      simp only [ha] at h ⊢
      rw [analyzeExpression_scope] at h ⊢
      simp [Expression.freeLookupsAre, h1 ha, h2 h]
  | .LookupExpression id idx, sc, m => by
    intro hd h
    simp only [analyzeExpression] at h ⊢
    by_cases hl : sc.lookup id 0 = -1
    · simp [hl] at h
    · simp only [hl, if_false, Expression.freeLookupsAre, decide_eq_true_eq]
      intro hx
      rw [hx, lookup_eq, hd]
      simp
  | .CallExpression callee params, sc, m => by
    intro hd h
    have h1 := analyzeExpression_free x callee sc m hd
    have h2 := analyzeExpressions_free x params sc m hd
    simp only [analyzeExpression] at h ⊢
    cases hc : (analyzeExpression sc callee).err with
    | some err => simp [hc] at h
    | none =>
      simp only [hc] at h ⊢
      rw [analyzeExpression_scope] at h ⊢
      simp [Expression.freeLookupsAre, h1 hc, h2 h]
  | .Function params stmts, sc, m => by
    intro hd h
    have ih := fun sc1 m1 => analyzeStatements_free x stmts sc1 m1
    simp only [analyzeExpression] at h ⊢
    simp only [Expression.freeLookupsAre]
    exact block_free x sc m params stmts hd ih h
  | .Other text, sc, m => by
    intro _ _
    rfl
theorem analyzeCondition_free (x : String) :
    ∀ (e : Option Expression) (sc : definitionScope) (m : Nat),
      distanceIn sc.chain x = some m → (analyzeCondition sc e).err = none →
      freeLookupsAreCondition x (m : Int) (analyzeCondition sc e).node = true
  | none, sc, m => fun _ _ => rfl
  | some e, sc, m => by
    intro hd h
    simp only [analyzeCondition] at h ⊢
    simp [freeLookupsAreCondition, analyzeExpression_free x e sc m hd h]
theorem analyzeExpressions_free (x : String) :
    ∀ (es : List Expression) (sc : definitionScope) (m : Nat),
      distanceIn sc.chain x = some m → (analyzeExpressions sc es).err = none →
      freeLookupsAreExpressions x (m : Int) (analyzeExpressions sc es).node = true
  | [], sc, m => fun _ _ => rfl
  | e :: es, sc, m => by
    intro hd h
    have h1 := analyzeExpression_free x e sc m hd
    have h2 := analyzeExpressions_free x es sc m hd
    simp only [analyzeExpressions] at h ⊢
    cases he : (analyzeExpression sc e).err with
    | some err => simp [he] at h
    | none =>
      simp only [he] at h ⊢
      rw [analyzeExpression_scope] at h ⊢
      simp [freeLookupsAreExpressions, h1 he, h2 h]
theorem analyzeStatement_free (x : String) :
    ∀ (s : Statement) (sc : definitionScope) (m : Nat),
      distanceIn sc.chain x = some m → (analyzeStatement sc s).err = none →
      Statement.freeLookupsAre x (m : Int) (analyzeStatement sc s).node = true
  | .IfStatement cond stmts els, sc, m => by
    intro hd h
    have h1 := analyzeCondition_free x cond sc m hd
    have ih := fun sc1 m1 => analyzeStatements_free x stmts sc1 m1
    have h3 := analyzeElseBranch_free x els sc m hd
    obtain ⟨hc, hb⟩ := analyzeStatement_if_ok sc cond stmts els h
    rw [analyzeStatement_if sc cond stmts els hc hb] at h ⊢
    have h2 := block_free x sc m [] stmts hd ih hb
    simp only [declareAll, List.not_mem_nil, decide_False, Bool.false_or] at h2
    simp only [Statement.freeLookupsAre, Bool.and_eq_true]
    exact ⟨⟨h1 hc, h2⟩, h3 h⟩
  | .WhileStatement cond stmts, sc, m => by
    intro hd h
    have h1 := analyzeExpression_free x cond sc m hd
    have ih := fun sc1 m1 => analyzeStatements_free x stmts sc1 m1
    simp only [analyzeStatement] at h ⊢
    cases hc : (analyzeExpression sc cond).err with
    | some err => simp [hc] at h
    | none =>
      simp only [hc] at h ⊢
      rw [analyzeExpression_scope] at h ⊢
      have h2 := block_free x sc m [] stmts hd ih h
      simp only [declareAll, List.not_mem_nil, decide_False, Bool.false_or] at h2
      simp only [Statement.freeLookupsAre, Bool.and_eq_true]
      exact ⟨h1 hc, h2⟩
  | .DeclarationStatement id value, sc, m => by
    intro hd h
    have h1 := analyzeExpression_free x value sc m hd
    simp only [analyzeStatement] at h ⊢
    cases hv : (analyzeExpression sc value).err with
    | some err => simp [hv] at h
    | none =>
      simp only [hv] at h ⊢
      split <;> simp [Statement.freeLookupsAre, h1 hv]
  | .AssignmentStatement id value idx, sc, m => by
    intro hd h
    have h1 := analyzeExpression_free x value sc m hd
    simp only [analyzeStatement] at h ⊢
    cases hv : (analyzeExpression sc value).err with
    | some err => simp [hv] at h
    | none =>
      simp only [hv] at h ⊢
      split <;> simp [Statement.freeLookupsAre, h1 hv]
  | .ReturnStatement e, sc, m => by
    intro hd h
    simp only [analyzeStatement] at h ⊢
    simp [Statement.freeLookupsAre, analyzeExpression_free x e sc m hd h]
  | .ExpressionStatement e, sc, m => by
    intro hd h
    simp only [analyzeStatement] at h ⊢
    simp [Statement.freeLookupsAre, analyzeExpression_free x e sc m hd h]
theorem analyzeStatements_free (x : String) :
    ∀ (ss : List Statement) (sc : definitionScope) (m : Nat),
      distanceIn sc.chain x = some m → (analyzeStatements sc ss).err = none →
      freeLookupsAreStatements x (m : Int) (analyzeStatements sc ss).node = true
  | [], sc, m => fun _ _ => rfl
  | s :: ss, sc, m => by
    intro hd h
    have h1 := analyzeStatement_free x s sc m hd
    have h2 := analyzeStatements_free x ss (analyzeStatement sc s).scope m
    cases hs : (analyzeStatement sc s).err with
    | some err => rw [analyzeStatements_cons_err _ _ _ _ hs] at h; simp at h
    | none =>
      rw [analyzeStatements_cons_ok _ _ _ hs] at h ⊢
      simp only [freeLookupsAreStatements, h1 hs, Bool.true_and, declaresDirectly_node]
      cases hdecl : declaresDirectly x s with
      | true => rfl
      | false =>
        have hd1 : distanceIn (analyzeStatement sc s).scope.chain x = some m := by
          rw [distanceIn_frame x (analyzeStatement_frame s sc) (by simp [hdecl])]
          exact hd
        simp [h2 hd1 h]
theorem analyzeElseBranch_free (x : String) :
    ∀ (s : Option Statement) (sc : definitionScope) (m : Nat),
      distanceIn sc.chain x = some m → (analyzeElseBranch sc s).err = none →
      freeLookupsAreElseBranch x (m : Int) (analyzeElseBranch sc s).node = true
  | none, sc, m => fun _ _ => rfl
  | some s, sc, m => by
    intro hd h
    simp only [analyzeElseBranch] at h ⊢
    simp [freeLookupsAreElseBranch, analyzeStatement_free x s sc m hd h]
end

/-- A block analysed without error in a chain that does not declare `x` has no
free lookup of `x`, once its statements have none. -/
theorem block_noFree (x : String) (sc : definitionScope) (ps : List String)
    (stmts : List Statement) (hd : distanceIn sc.chain x = none)
    (ih : ∀ sc1 : definitionScope, distanceIn sc1.chain x = none →
      (analyzeStatements sc1 stmts).err = none → hasFreeLookupStatements x stmts = false)
    (h : (analyzeStatements (declareAll sc.newScope ps) stmts).err = none) :
    (!decide (x ∈ ps) && hasFreeLookupStatements x stmts) = false := by
  by_cases hb : x ∈ ps
  · simp [hb]
  · have hd1 : distanceIn (declareAll sc.newScope ps).chain x = none := by
      rw [distanceIn_block x sc ps hb, hd]
      rfl
    simp [ih _ hd1 h]

mutual
/-- An expression analysed without error in a chain that does not declare `x`
has no free lookup of `x`. -/
theorem analyzeExpression_noFree (x : String) :
    ∀ (e : Expression) (sc : definitionScope),
      distanceIn sc.chain x = none → (analyzeExpression sc e).err = none →
      Expression.hasFreeLookup x e = false
  | .IfExpression cond value els, sc => by
    intro hd h
    have h1 := analyzeCondition_noFree x cond sc hd
    have h2 := analyzeExpression_noFree x value sc hd
    have h3 := analyzeCondition_noFree x els sc hd
    simp only [analyzeExpression] at h
    cases hc : (analyzeCondition sc cond).err with
    | some err => simp [hc] at h
    | none =>
      simp only [hc] at h
      rw [analyzeCondition_scope] at h
      cases hv : (analyzeExpression sc value).err with
      | some err => simp [hv] at h
      | none =>
        simp only [hv] at h
        rw [analyzeExpression_scope] at h
        simp [Expression.hasFreeLookup, h1 hc, h2 hv, h3 h]
  | .BinaryOperationExpression a b, sc => by
    intro hd h
    have h1 := analyzeExpression_noFree x a sc hd
    have h2 := analyzeExpression_noFree x b sc hd
    simp only [analyzeExpression] at h
    cases ha : (analyzeExpression sc a).err with
    | some err => simp [ha] at h
    | none =>
      simp only [ha] at h
      rw [analyzeExpression_scope] at h
      simp [Expression.hasFreeLookup, h1 ha, h2 h]
  | .LookupExpression id idx, sc => by
    intro hd h
    simp only [analyzeExpression] at h
    simp only [Expression.hasFreeLookup, decide_eq_false_iff_not]
    intro hx
    subst hx
    have hl : sc.lookup id 0 = -1 := by rw [lookup_eq, hd]
    simp [hl] at h
  | .CallExpression callee params, sc => by
    intro hd h
    have h1 := analyzeExpression_noFree x callee sc hd
    have h2 := analyzeExpressions_noFree x params sc hd
    simp only [analyzeExpression] at h
    cases hc : (analyzeExpression sc callee).err with
    | some err => simp [hc] at h
    | none =>
      simp only [hc] at h
      rw [analyzeExpression_scope] at h
      simp [Expression.hasFreeLookup, h1 hc, h2 h]
  | .Function params stmts, sc => by
    intro hd h
    have ih := fun sc1 => analyzeStatements_noFree x stmts sc1
    simp only [analyzeExpression] at h
    simp only [Expression.hasFreeLookup]
    exact block_noFree x sc params stmts hd ih h
  | .Other text, sc => by
    intro _ _
    rfl
theorem analyzeCondition_noFree (x : String) :
    ∀ (e : Option Expression) (sc : definitionScope),
      distanceIn sc.chain x = none → (analyzeCondition sc e).err = none →
      hasFreeLookupCondition x e = false
  | none, sc => fun _ _ => rfl
  | some e, sc => by
    intro hd h
    simp only [analyzeCondition] at h
    simp [hasFreeLookupCondition, analyzeExpression_noFree x e sc hd h]
theorem analyzeExpressions_noFree (x : String) :
    ∀ (es : List Expression) (sc : definitionScope),
      distanceIn sc.chain x = none → (analyzeExpressions sc es).err = none →
      hasFreeLookupExpressions x es = false
  | [], sc => fun _ _ => rfl
  | e :: es, sc => by
    intro hd h
    have h1 := analyzeExpression_noFree x e sc hd
    have h2 := analyzeExpressions_noFree x es sc hd
    simp only [analyzeExpressions] at h
    cases he : (analyzeExpression sc e).err with
    | some err => simp [he] at h
    | none =>
      simp only [he] at h
      rw [analyzeExpression_scope] at h
      simp [hasFreeLookupExpressions, h1 he, h2 h]
theorem analyzeStatement_noFree (x : String) :
    ∀ (s : Statement) (sc : definitionScope),
      distanceIn sc.chain x = none → (analyzeStatement sc s).err = none →
      Statement.hasFreeLookup x s = false
  | .IfStatement cond stmts els, sc => by
    intro hd h
    have h1 := analyzeCondition_noFree x cond sc hd
    have ih := fun sc1 => analyzeStatements_noFree x stmts sc1
    have h3 := analyzeElseBranch_noFree x els sc hd
    obtain ⟨hc, hb⟩ := analyzeStatement_if_ok sc cond stmts els h
    rw [analyzeStatement_if sc cond stmts els hc hb] at h
    have h2 := block_noFree x sc [] stmts hd ih hb
    simp only [List.not_mem_nil, decide_False, Bool.not_false, Bool.true_and] at h2
    simp only [Statement.hasFreeLookup, h1 hc, h2, h3 h, Bool.or_self]
  | .WhileStatement cond stmts, sc => by
    intro hd h
    have h1 := analyzeExpression_noFree x cond sc hd
    have ih := fun sc1 => analyzeStatements_noFree x stmts sc1
    simp only [analyzeStatement] at h
    cases hc : (analyzeExpression sc cond).err with
    | some err => simp [hc] at h
    | none =>
      simp only [hc] at h
      rw [analyzeExpression_scope] at h
      have h2 := block_noFree x sc [] stmts hd ih h
      simp only [List.not_mem_nil, decide_False, Bool.not_false, Bool.true_and] at h2
      simp only [Statement.hasFreeLookup, h1 hc, h2, Bool.or_self]
  | .DeclarationStatement id value, sc => by
    intro hd h
    have h1 := analyzeExpression_noFree x value sc hd
    simp only [analyzeStatement] at h
    cases hv : (analyzeExpression sc value).err with
    | some err => simp [hv] at h
    | none => simp [Statement.hasFreeLookup, h1 hv]
  | .AssignmentStatement id value idx, sc => by
    intro hd h
    have h1 := analyzeExpression_noFree x value sc hd
    simp only [analyzeStatement] at h
    cases hv : (analyzeExpression sc value).err with
    | some err => simp [hv] at h
    | none => simp [Statement.hasFreeLookup, h1 hv]
  | .ReturnStatement e, sc => by
    intro hd h
    simp only [analyzeStatement] at h
    simp [Statement.hasFreeLookup, analyzeExpression_noFree x e sc hd h]
  | .ExpressionStatement e, sc => by
    intro hd h
    simp only [analyzeStatement] at h
    simp [Statement.hasFreeLookup, analyzeExpression_noFree x e sc hd h]
theorem analyzeStatements_noFree (x : String) :
    ∀ (ss : List Statement) (sc : definitionScope),
      distanceIn sc.chain x = none → (analyzeStatements sc ss).err = none →
      hasFreeLookupStatements x ss = false
  | [], sc => fun _ _ => rfl
  | s :: ss, sc => by
    intro hd h
    have h1 := analyzeStatement_noFree x s sc hd
    have h2 := analyzeStatements_noFree x ss (analyzeStatement sc s).scope
    cases hs : (analyzeStatement sc s).err with
    | some err => rw [analyzeStatements_cons_err _ _ _ _ hs] at h; simp at h
    | none =>
      rw [analyzeStatements_cons_ok _ _ _ hs] at h
      simp only [hasFreeLookupStatements, h1 hs, Bool.false_or]
      cases hdecl : declaresDirectly x s with
      | true => rfl
      | false =>
        have hd1 : distanceIn (analyzeStatement sc s).scope.chain x = none := by
          rw [distanceIn_frame x (analyzeStatement_frame s sc) (by simp [hdecl])]
          exact hd
        simp [h2 hd1 h]
theorem analyzeElseBranch_noFree (x : String) :
    ∀ (s : Option Statement) (sc : definitionScope),
      distanceIn sc.chain x = none → (analyzeElseBranch sc s).err = none →
      hasFreeLookupElseBranch x s = false
  | none, sc => fun _ _ => rfl
  | some s, sc => by
    intro hd h
    simp only [analyzeElseBranch] at h
    simp [hasFreeLookupElseBranch, analyzeStatement_noFree x s sc hd h]
end

/-- Whether it returns an error or not, the analysis of a block writes nothing
but the distance on the free lookups of `x`, once that of its statements does. -/
theorem block_freeStored (x : String) (ks : List Int) (sc : definitionScope) (m : Nat)
    (ps : List String) (stmts : List Statement) (hd : distanceIn sc.chain x = some m)
    (ih : ∀ (sc1 : definitionScope) (m1 : Nat), distanceIn sc1.chain x = some m1 →
      freeLookupsInStatements x (m1 : Int) ks stmts = true →
      freeLookupsInStatements x (m1 : Int) ks (analyzeStatements sc1 stmts).node = true)
    (h : (decide (x ∈ ps) || freeLookupsInStatements x ((m : Int) + 1) ks stmts) = true) :
    (decide (x ∈ ps)
      || freeLookupsInStatements x ((m : Int) + 1) ks
          (analyzeStatements (declareAll sc.newScope ps) stmts).node) = true := by
  by_cases hb : x ∈ ps
  · simp [hb]
  · simp only [hb, decide_False, Bool.false_or] at h
    have hd1 : distanceIn (declareAll sc.newScope ps).chain x = some (m + 1) := by
      rw [distanceIn_block x sc ps hb, hd]
      rfl
    rw [← Nat.cast_succ] at h
    have := ih _ _ hd1 h
    rw [Nat.cast_succ] at this
    simp [this]

mutual
/-- Whether it returns an error or not, the analysis of an expression in a scope
from which `x` is at distance `m` writes nothing on a free lookup of `x` but `m`
plus the number of block scopes opened around the lookup. -/
theorem analyzeExpression_freeStored (x : String) (ks : List Int) :
    ∀ (e : Expression) (sc : definitionScope) (m : Nat),
      distanceIn sc.chain x = some m → Expression.freeLookupsIn x (m : Int) ks e = true →
      Expression.freeLookupsIn x (m : Int) ks (analyzeExpression sc e).node = true
  | .IfExpression cond value els, sc, m => by
    intro hd h
    simp only [Expression.freeLookupsIn, Bool.and_eq_true] at h
    have h1 := analyzeCondition_freeStored x ks cond sc m hd h.1.1
    have h2 := analyzeExpression_freeStored x ks value sc m hd h.1.2
    have h3 := analyzeCondition_freeStored x ks els sc m hd h.2
    simp only [analyzeExpression, analyzeCondition_scope, analyzeExpression_scope]
    cases hc : (analyzeCondition sc cond).err with
    | some err => simp [Expression.freeLookupsIn, h1, h.1.2, h.2]
    | none =>
      cases hv : (analyzeExpression sc value).err with
      | some err => simp [Expression.freeLookupsIn, h1, h2, h.2]
      | none => simp [Expression.freeLookupsIn, h1, h2, h3]
  | .BinaryOperationExpression a b, sc, m => by
    intro hd h
    simp only [Expression.freeLookupsIn, Bool.and_eq_true] at h
    have h1 := analyzeExpression_freeStored x ks a sc m hd h.1
    have h2 := analyzeExpression_freeStored x ks b sc m hd h.2
    simp only [analyzeExpression, analyzeExpression_scope]
    cases ha : (analyzeExpression sc a).err with
    | some err => simp [Expression.freeLookupsIn, h1, h.2]
    | none => simp [Expression.freeLookupsIn, h1, h2]
  | .LookupExpression id idx, sc, m => by
    intro hd h
    simp only [Expression.freeLookupsIn, decide_eq_true_eq] at h
    simp only [analyzeExpression]
    by_cases hl : sc.lookup id 0 = -1
    · simp only [hl, if_true, Expression.freeLookupsIn, decide_eq_true_eq]
      exact h
    · simp only [hl, if_false, Expression.freeLookupsIn, decide_eq_true_eq]
      intro hx
      left
      rw [hx, lookup_eq, hd]
      simp
  | .CallExpression callee params, sc, m => by
    intro hd h
    simp only [Expression.freeLookupsIn, Bool.and_eq_true] at h
    have h1 := analyzeExpression_freeStored x ks callee sc m hd h.1
    have h2 := analyzeExpressions_freeStored x ks params sc m hd h.2
    simp only [analyzeExpression, analyzeExpression_scope]
    cases hc : (analyzeExpression sc callee).err with
    | some err => simp [Expression.freeLookupsIn, h1, h.2]
    | none => simp [Expression.freeLookupsIn, h1, h2]
  | .Function params stmts, sc, m => by
    intro hd h
    have ih := fun sc1 m1 => analyzeStatements_freeStored x ks stmts sc1 m1
    simp only [Expression.freeLookupsIn] at h
    simp only [analyzeExpression, Expression.freeLookupsIn]
    exact block_freeStored x ks sc m params stmts hd ih h
  | .Other text, sc, m => fun _ _ => rfl
theorem analyzeCondition_freeStored (x : String) (ks : List Int) :
    ∀ (e : Option Expression) (sc : definitionScope) (m : Nat),
      distanceIn sc.chain x = some m → freeLookupsInCondition x (m : Int) ks e = true →
      freeLookupsInCondition x (m : Int) ks (analyzeCondition sc e).node = true
  | none, sc, m => fun _ _ => rfl
  | some e, sc, m => by
    intro hd h
    simp only [freeLookupsInCondition] at h
    simp only [analyzeCondition, freeLookupsInCondition]
    exact analyzeExpression_freeStored x ks e sc m hd h
theorem analyzeExpressions_freeStored (x : String) (ks : List Int) :
    ∀ (es : List Expression) (sc : definitionScope) (m : Nat),
      distanceIn sc.chain x = some m → freeLookupsInExpressions x (m : Int) ks es = true →
      freeLookupsInExpressions x (m : Int) ks (analyzeExpressions sc es).node = true
  | [], sc, m => fun _ _ => rfl
  | e :: es, sc, m => by
    intro hd h
    simp only [freeLookupsInExpressions, Bool.and_eq_true] at h
    have h1 := analyzeExpression_freeStored x ks e sc m hd h.1
    have h2 := analyzeExpressions_freeStored x ks es sc m hd h.2
    simp only [analyzeExpressions, analyzeExpression_scope]
    cases he : (analyzeExpression sc e).err with
    | some err => simp [freeLookupsInExpressions, h1, h.2]
    | none => simp [freeLookupsInExpressions, h1, h2]
theorem analyzeStatement_freeStored (x : String) (ks : List Int) :
    ∀ (s : Statement) (sc : definitionScope) (m : Nat),
      distanceIn sc.chain x = some m → Statement.freeLookupsIn x (m : Int) ks s = true →
      Statement.freeLookupsIn x (m : Int) ks (analyzeStatement sc s).node = true
  | .IfStatement cond stmts els, sc, m => by
    intro hd h
    simp only [Statement.freeLookupsIn, Bool.and_eq_true] at h
    have h1 := analyzeCondition_freeStored x ks cond sc m hd h.1.1
    have ih := fun sc1 m1 => analyzeStatements_freeStored x ks stmts sc1 m1
    have h2 := block_freeStored x ks sc m [] stmts hd ih (by simp [h.1.2])
    simp only [declareAll, List.not_mem_nil, decide_False, Bool.false_or] at h2
    have h3 := analyzeElseBranch_freeStored x ks els sc m hd h.2
    simp only [analyzeStatement, analyzeCondition_scope, leave_block]
    cases hc : (analyzeCondition sc cond).err with
    | some err => simp [Statement.freeLookupsIn, h1, h.1.2, h.2]
    | none =>
      cases hb : (analyzeStatements sc.newScope stmts).err with
      | some err => simp [Statement.freeLookupsIn, h1, h2, h.2]
      | none => simp [Statement.freeLookupsIn, h1, h2, h3]
  | .WhileStatement cond stmts, sc, m => by
    intro hd h
    simp only [Statement.freeLookupsIn, Bool.and_eq_true] at h
    have h1 := analyzeExpression_freeStored x ks cond sc m hd h.1
    have ih := fun sc1 m1 => analyzeStatements_freeStored x ks stmts sc1 m1
    have h2 := block_freeStored x ks sc m [] stmts hd ih (by simp [h.2])
    simp only [declareAll, List.not_mem_nil, decide_False, Bool.false_or] at h2
    simp only [analyzeStatement, analyzeExpression_scope]
    cases hc : (analyzeExpression sc cond).err with
    | some err => simp [Statement.freeLookupsIn, h1, h.2]
    | none => simp [Statement.freeLookupsIn, h1, h2]
  | .DeclarationStatement id value, sc, m => by
    intro hd h
    simp only [Statement.freeLookupsIn] at h
    have h1 := analyzeExpression_freeStored x ks value sc m hd h
    simp only [analyzeStatement, analyzeExpression_scope]
    cases hv : (analyzeExpression sc value).err with
    | some err => simp [Statement.freeLookupsIn, h1]
    | none =>
      by_cases hh : definitionSet.has sc.definitions id = true
      · simp [Statement.freeLookupsIn, h1, hh]
      · simp [Statement.freeLookupsIn, h1, hh]
  | .AssignmentStatement id value idx, sc, m => by
    intro hd h
    simp only [Statement.freeLookupsIn] at h
    have h1 := analyzeExpression_freeStored x ks value sc m hd h
    simp only [analyzeStatement, analyzeExpression_scope]
    cases hv : (analyzeExpression sc value).err with
    | some err => simp [Statement.freeLookupsIn, h1]
    | none =>
      by_cases hl : sc.lookup id 0 = -1
      · simp [Statement.freeLookupsIn, h1, hl]
      · simp [Statement.freeLookupsIn, h1, hl]
  | .ReturnStatement e, sc, m => by
    intro hd h
    simp only [Statement.freeLookupsIn] at h
    simp only [analyzeStatement, Statement.freeLookupsIn]
    exact analyzeExpression_freeStored x ks e sc m hd h
  | .ExpressionStatement e, sc, m => by
    intro hd h
    simp only [Statement.freeLookupsIn] at h
    simp only [analyzeStatement, Statement.freeLookupsIn]
    exact analyzeExpression_freeStored x ks e sc m hd h
theorem analyzeStatements_freeStored (x : String) (ks : List Int) :
    ∀ (ss : List Statement) (sc : definitionScope) (m : Nat),
      distanceIn sc.chain x = some m →
      freeLookupsInStatements x (m : Int) ks ss = true →
      freeLookupsInStatements x (m : Int) ks (analyzeStatements sc ss).node = true
  | [], sc, m => fun _ _ => rfl
  | s :: ss, sc, m => by
    intro hd h
    simp only [freeLookupsInStatements, Bool.and_eq_true] at h
    have h1 := analyzeStatement_freeStored x ks s sc m hd h.1
    have h2 := analyzeStatements_freeStored x ks ss (analyzeStatement sc s).scope m
    cases hs : (analyzeStatement sc s).err with
    | some err =>
      rw [analyzeStatements_cons_err _ _ _ _ hs]
      simp only [freeLookupsInStatements, h1, Bool.true_and, declaresDirectly_node]
      exact h.2
    | none =>
      rw [analyzeStatements_cons_ok _ _ _ hs]
      simp only [freeLookupsInStatements, h1, Bool.true_and, declaresDirectly_node]
      cases hdecl : declaresDirectly x s with
      | true => rfl
      | false =>
        have hd1 : distanceIn (analyzeStatement sc s).scope.chain x = some m := by
          rw [distanceIn_frame x (analyzeStatement_frame s sc) (by simp [hdecl])]
          exact hd
        have h3 := h.2
        rw [hdecl, Bool.false_or] at h3
        simp [h2 hd1 h3]
theorem analyzeElseBranch_freeStored (x : String) (ks : List Int) :
    ∀ (s : Option Statement) (sc : definitionScope) (m : Nat),
      distanceIn sc.chain x = some m → freeLookupsInElseBranch x (m : Int) ks s = true →
      freeLookupsInElseBranch x (m : Int) ks (analyzeElseBranch sc s).node = true
  | none, sc, m => fun _ _ => rfl
  | some s, sc, m => by
    intro hd h
    simp only [freeLookupsInElseBranch] at h
    simp only [analyzeElseBranch, freeLookupsInElseBranch]
    exact analyzeStatement_freeStored x ks s sc m hd h
end

/-! ## The chain with `x` declared outside everything -/

theorem withOuter_definitions (x : String) (sc : definitionScope) :
    (sc.withOuter x).definitions = sc.definitions := by
  cases sc with
  | mk d p => cases p <;> rfl

theorem withOuter_declare (x : String) (sc : definitionScope) (y : String) :
    (sc.declare y).withOuter x = (sc.withOuter x).declare y := by
  cases sc with
  | mk d p => cases p <;> rfl

theorem withOuter_newScope (x : String) (sc : definitionScope) :
    sc.newScope.withOuter x = (sc.withOuter x).newScope := rfl

theorem withOuter_declareAll (x : String) (ds : definitionScope) (ps : List String) :
    (declareAll ds ps).withOuter x = declareAll (ds.withOuter x) ps := by
  induction ps generalizing ds with
  | nil => rfl
  | cons p ps ih => simp only [declareAll]; rw [ih, withOuter_declare]

/-- The scope in which a block starts, with `x` declared outside everything. -/
theorem withOuter_block (x : String) (sc : definitionScope) (ps : List String) :
    declareAll (sc.withOuter x).newScope ps = (declareAll sc.newScope ps).withOuter x := by
  rw [withOuter_declareAll, withOuter_newScope]

/-- A name other than `x` is looked up alike with `x` declared outside
everything. -/
theorem lookup_withOuter (x : String) : ∀ (sc : definitionScope) (id : String) (depth : Int),
    id ≠ x → (sc.withOuter x).lookup id depth = sc.lookup id depth
  | .mk d none, id, depth => by
    intro h
    simp [definitionScope.withOuter, definitionScope.lookup, definitionSet.has, h]
  | .mk d (some p), id, depth => by
    intro h
    have ih := lookup_withOuter x p id (depth + 1) h
    simp only [definitionScope.withOuter, definitionScope.lookup, ih]

/-- A name found with `x` declared outside everything and not found without is
`x`. -/
theorem eq_of_lookup_withOuter (x : String) (sc : definitionScope) (id : String)
    (h1 : (sc.withOuter x).lookup id 0 ≠ -1) (h2 : sc.lookup id 0 = -1) : id = x := by
  by_contra hne
  rw [lookup_withOuter x sc id 0 hne] at h1
  exact h1 h2

/-! ## Errors of steps run one after the other -/

theorem firstError_eq_none (a b : Option String) :
    firstError a b = none ↔ a = none ∧ b = none := by
  cases a <;> simp [firstError]

theorem err_ifExpression (sc : definitionScope) (c : Option Expression) (v : Expression)
    (e : Option Expression) :
    (analyzeExpression sc (.IfExpression c v e)).err
      = firstError (analyzeCondition sc c).err
          (firstError (analyzeExpression sc v).err (analyzeCondition sc e).err) := by
  simp only [analyzeExpression]
  cases hc : (analyzeCondition sc c).err with
  | some err => rfl
  | none =>
    simp only [firstError]
    rw [analyzeCondition_scope]
    cases hv : (analyzeExpression sc v).err with
    | some err => rfl
    | none =>
      simp only []
      rw [analyzeExpression_scope]

theorem err_binaryOperation (sc : definitionScope) (a b : Expression) :
    (analyzeExpression sc (.BinaryOperationExpression a b)).err
      = firstError (analyzeExpression sc a).err (analyzeExpression sc b).err := by
  simp only [analyzeExpression]
  cases ha : (analyzeExpression sc a).err with
  | some err => rfl
  | none =>
    simp only [firstError]
    rw [analyzeExpression_scope]

theorem err_call (sc : definitionScope) (c : Expression) (ps : List Expression) :
    (analyzeExpression sc (.CallExpression c ps)).err
      = firstError (analyzeExpression sc c).err (analyzeExpressions sc ps).err := by
  simp only [analyzeExpression]
  cases hc : (analyzeExpression sc c).err with
  | some err => rfl
  | none =>
    simp only [firstError]
    rw [analyzeExpression_scope]

theorem err_expressions (sc : definitionScope) (e : Expression) (es : List Expression) :
    (analyzeExpressions sc (e :: es)).err
      = firstError (analyzeExpression sc e).err (analyzeExpressions sc es).err := by
  simp only [analyzeExpressions]
  cases he : (analyzeExpression sc e).err with
  | some err => rfl
  | none =>
    simp only [firstError]
    rw [analyzeExpression_scope]

theorem err_ifStatement (sc : definitionScope) (c : Option Expression) (b : List Statement)
    (e : Option Statement) :
    (analyzeStatement sc (.IfStatement c b e)).err
      = firstError (analyzeCondition sc c).err
          (firstError (analyzeStatements sc.newScope b).err (analyzeElseBranch sc e).err) := by
  simp only [analyzeStatement]
  cases hc : (analyzeCondition sc c).err with
  | some err => rfl
  | none =>
    simp only [firstError]
    rw [analyzeCondition_scope]
    cases hb : (analyzeStatements sc.newScope b).err with
    | some err => rfl
    | none =>
      simp only []
      rw [leave_block]

theorem err_while (sc : definitionScope) (c : Expression) (b : List Statement) :
    (analyzeStatement sc (.WhileStatement c b)).err
      = firstError (analyzeExpression sc c).err (analyzeStatements sc.newScope b).err := by
  simp only [analyzeStatement]
  cases hc : (analyzeExpression sc c).err with
  | some err => rfl
  | none =>
    simp only [firstError]
    rw [analyzeExpression_scope]

theorem err_statements (sc : definitionScope) (s : Statement) (ss : List Statement) :
    (analyzeStatements sc (s :: ss)).err
      = firstError (analyzeStatement sc s).err
          (analyzeStatements (analyzeStatement sc s).scope ss).err := by
  simp only [analyzeStatements]
  cases hs : (analyzeStatement sc s).err with
  | some err => rfl
  | none => rfl

theorem scope_statements (sc : definitionScope) (s : Statement) (ss : List Statement)
    (h : (analyzeStatement sc s).err = none) :
    (analyzeStatements sc (s :: ss)).scope
      = (analyzeStatements (analyzeStatement sc s).scope ss).scope := by
  rw [analyzeStatements_cons_ok _ _ _ h]

/-- The error of an assignment: that of its value, or else the
undeclared-assignment error when `lookup` does not find the name. -/
theorem err_assignment (sc : definitionScope) (id : String) (v : Expression) (idx : Int) :
    (analyzeStatement sc (.AssignmentStatement id v idx)).err
      = firstError (analyzeExpression sc v).err
          (if sc.lookup id 0 = -1 then some (id ++ " must be declared before assignment")
            else none) := by
  simp only [analyzeStatement]
  cases hv : (analyzeExpression sc v).err with
  | some err => rfl
  | none =>
    simp only [firstError]
    rw [analyzeExpression_scope]
    split <;> rfl

/-- The error of a declaration: that of its value, or else the redeclaration
error when the scope holds the name. -/
theorem err_declaration (sc : definitionScope) (id : String) (v : Expression) :
    (analyzeStatement sc (.DeclarationStatement id v)).err
      = firstError (analyzeExpression sc v).err
          (if definitionSet.has sc.definitions id then
            some ("Redeclaration of " ++ id ++ " in same scope")
            else none) := by
  simp only [analyzeStatement]
  cases hv : (analyzeExpression sc v).err with
  | some err => rfl
  | none =>
    simp only [firstError]
    rw [analyzeExpression_scope]
    split <;> rfl

theorem undeclaredError_mono (x : String) {a b : Bool} {err : Option String}
    (hab : a = true → b = true) (h : undeclaredError x a err) : undeclaredError x b err :=
  h.imp (fun h0 => h0) (fun h0 => ⟨hab h0.1, h0.2⟩)

/-- After an error for the undeclared `x`, the second step is not run. -/
theorem firstError_of_undeclared (x : String) {a : Bool} {e1 : Option String}
    (e2 : Option String) (h : undeclaredError x a e1) : firstError e1 e2 = e1 := by
  rcases h with h | ⟨_, h⟩ <;> rw [h] <;> rfl

/-- Two steps one after the other: when each returns no error or an error for
the undeclared `x`, so do both. -/
theorem firstError_undeclared (x : String) (a b c : Bool) {e1 e2 : Option String}
    (ha : a = true → c = true) (hb : b = true → c = true)
    (h1 : e1 = none ∨ undeclaredError x a e1)
    (h2 : e1 = none → e2 = none ∨ undeclaredError x b e2) :
    firstError e1 e2 = none ∨ undeclaredError x c (firstError e1 e2) := by
  rcases h1 with h1 | h1
  · subst h1
    exact (h2 rfl).imp (fun h0 => h0) (undeclaredError_mono x hb)
  · right
    rw [firstError_of_undeclared x e2 h1]
    exact undeclaredError_mono x ha h1

theorem assignment_scope (sc : definitionScope) (id : String) (v : Expression) (idx : Int) :
    (analyzeStatement sc (.AssignmentStatement id v idx)).scope = sc := by
  have hs := analyzeExpression_scope v sc
  simp only [analyzeStatement]
  split
  · exact hs
  · split <;> exact hs

mutual
/-- An expression that is analysed without error once `x` is declared outside
everything returns, as it is, no error or an error for the undeclared `x`. -/
theorem analyzeExpression_sim (x : String) : ∀ (e : Expression) (sc : definitionScope),
    (analyzeExpression (sc.withOuter x) e).err = none →
      (analyzeExpression sc e).err = none
        ∨ undeclaredError x (Expression.assigns x e) (analyzeExpression sc e).err
  | .IfExpression cond value els, sc => by
    intro h
    have h1 := analyzeCondition_sim x cond sc
    have h2 := analyzeExpression_sim x value sc
    have h3 := analyzeCondition_sim x els sc
    rw [err_ifExpression, firstError_eq_none, firstError_eq_none] at h
    rw [err_ifExpression]
    refine firstError_undeclared x (assignsCondition x cond)
      (Expression.assigns x value || assignsCondition x els) _ ?_ ?_ (h1 h.1)
      (fun _ => firstError_undeclared x (Expression.assigns x value) (assignsCondition x els) _
        ?_ ?_ (h2 h.2.1) (fun _ => h3 h.2.2))
    · intro h0; simp [Expression.assigns, h0]
    · intro h0
      simp only [Bool.or_eq_true] at h0
      rcases h0 with h0 | h0 <;> simp [Expression.assigns, h0]
    · intro h0; simp [h0]
    · intro h0; simp [h0]
  | .BinaryOperationExpression a b, sc => by
    intro h
    have h1 := analyzeExpression_sim x a sc
    have h2 := analyzeExpression_sim x b sc
    rw [err_binaryOperation, firstError_eq_none] at h
    rw [err_binaryOperation]
    refine firstError_undeclared x (Expression.assigns x a) (Expression.assigns x b) _ ?_ ?_
      (h1 h.1) (fun _ => h2 h.2)
    · intro h0; simp [Expression.assigns, h0]
    · intro h0; simp [Expression.assigns, h0]
  | .LookupExpression id idx, sc => by
    intro h
    simp only [analyzeExpression] at h ⊢
    by_cases hl1 : (sc.withOuter x).lookup id 0 = -1
    · simp [hl1] at h
    · by_cases hl : sc.lookup id 0 = -1
      · right
        left
        simp only [hl, if_true]
        rw [eq_of_lookup_withOuter x sc id hl1 hl]
      · left
        simp only [hl, if_false]
  | .CallExpression callee params, sc => by
    intro h
    have h1 := analyzeExpression_sim x callee sc
    have h2 := analyzeExpressions_sim x params sc
    rw [err_call, firstError_eq_none] at h
    rw [err_call]
    refine firstError_undeclared x (Expression.assigns x callee) (assignsExpressions x params) _
      ?_ ?_ (h1 h.1) (fun _ => h2 h.2)
    · intro h0; simp [Expression.assigns, h0]
    · intro h0; simp [Expression.assigns, h0]
  | .Function params stmts, sc => by
    intro h
    have h1 := analyzeStatements_sim x stmts (declareAll sc.newScope params)
    simp only [analyzeExpression] at h ⊢
    rw [withOuter_block] at h
    exact (h1 h).imp (fun h0 => h0.1) (fun h0 => h0)
  | .Other text, sc => fun _ => Or.inl rfl
theorem analyzeCondition_sim (x : String) : ∀ (e : Option Expression) (sc : definitionScope),
    (analyzeCondition (sc.withOuter x) e).err = none →
      (analyzeCondition sc e).err = none
        ∨ undeclaredError x (assignsCondition x e) (analyzeCondition sc e).err
  | none, sc => fun _ => Or.inl rfl
  | some e, sc => by
    intro h
    simp only [analyzeCondition] at h ⊢
    exact analyzeExpression_sim x e sc h
theorem analyzeExpressions_sim (x : String) : ∀ (es : List Expression) (sc : definitionScope),
    (analyzeExpressions (sc.withOuter x) es).err = none →
      (analyzeExpressions sc es).err = none
        ∨ undeclaredError x (assignsExpressions x es) (analyzeExpressions sc es).err
  | [], sc => fun _ => Or.inl rfl
  | e :: es, sc => by
    intro h
    have h1 := analyzeExpression_sim x e sc
    have h2 := analyzeExpressions_sim x es sc
    rw [err_expressions, firstError_eq_none] at h
    rw [err_expressions]
    refine firstError_undeclared x (Expression.assigns x e) (assignsExpressions x es) _ ?_ ?_
      (h1 h.1) (fun _ => h2 h.2)
    · intro h0; simp [assignsExpressions, h0]
    · intro h0; simp [assignsExpressions, h0]
theorem analyzeStatement_sim (x : String) : ∀ (s : Statement) (sc : definitionScope),
    (analyzeStatement (sc.withOuter x) s).err = none →
      ((analyzeStatement sc s).err = none
          ∧ (analyzeStatement (sc.withOuter x) s).scope
            = (analyzeStatement sc s).scope.withOuter x)
        ∨ undeclaredError x (Statement.assigns x s) (analyzeStatement sc s).err
  | .IfStatement cond stmts els, sc => by
    intro h
    have h1 := analyzeCondition_sim x cond sc
    have h2 := analyzeStatements_sim x stmts sc.newScope
    have h3 := analyzeElseBranch_sim x els sc
    obtain ⟨hc1, hb1⟩ := analyzeStatement_if_ok _ cond stmts els h
    rw [analyzeStatement_if _ cond stmts els hc1 hb1] at h ⊢
    rcases h1 hc1 with hc | hc
    · rcases h2 hb1 with hb | hb
      · rw [analyzeStatement_if sc cond stmts els hc hb.1]
        refine (h3 h).imp (fun h0 => h0) (undeclaredError_mono x ?_)
        intro h0; simp [Statement.assigns, h0]
      · right
        rw [err_ifStatement, hc]
        show undeclaredError x _ (firstError _ _)
        rw [firstError_of_undeclared x _ hb]
        refine undeclaredError_mono x ?_ hb
        intro h0; simp [Statement.assigns, h0]
    · right
      rw [err_ifStatement, firstError_of_undeclared x _ hc]
      refine undeclaredError_mono x ?_ hc
      intro h0; simp [Statement.assigns, h0]
  | .WhileStatement cond stmts, sc => by
    intro h
    have h1 := analyzeExpression_sim x cond sc
    have h2 := analyzeStatements_sim x stmts sc.newScope
    rw [err_while, firstError_eq_none] at h
    rw [blockOnly_scope (.WhileStatement cond stmts) sc rfl,
      blockOnly_scope (.WhileStatement cond stmts) (sc.withOuter x) rfl, err_while]
    rcases h1 h.1 with hc | hc
    · rcases h2 h.2 with hb | hb
      · left
        rw [hc, hb.1]
        exact ⟨rfl, rfl⟩
      · right
        rw [hc]
        show undeclaredError x _ (firstError _ _)
        refine undeclaredError_mono x ?_ hb
        intro h0; simp [Statement.assigns, h0]
    · right
      rw [firstError_of_undeclared x _ hc]
      refine undeclaredError_mono x ?_ hc
      intro h0; simp [Statement.assigns, h0]
  | .DeclarationStatement id value, sc => by
    intro h
    have h1 := analyzeExpression_sim x value sc
    have h0 := h
    rw [err_declaration, firstError_eq_none, withOuter_definitions] at h0
    have hn : id ∉ sc.definitions := by
      intro hm
      have := h0.2
      rw [(has_iff _ _).2 hm] at this
      simp at this
    have hn1 : id ∉ (sc.withOuter x).definitions := by rw [withOuter_definitions]; exact hn
    rcases h1 h0.1 with hv | hv
    · left
      rw [declaration_of_not_mem sc id value hn hv,
        declaration_of_not_mem (sc.withOuter x) id value hn1 h0.1]
      exact ⟨rfl, (withOuter_declare x sc id).symm⟩
    · right
      rw [err_declaration, firstError_of_undeclared x _ hv]
      exact hv
  | .AssignmentStatement id value idx, sc => by
    intro h
    have h1 := analyzeExpression_sim x value sc
    rw [err_assignment, firstError_eq_none] at h
    have hl1 : (sc.withOuter x).lookup id 0 ≠ -1 := by
      intro hl
      have := h.2
      rw [if_pos hl] at this
      simp at this
    rw [assignment_scope, assignment_scope, err_assignment]
    rcases h1 h.1 with hv | hv
    · rw [hv]
      by_cases hl : sc.lookup id 0 = -1
      · right
        right
        have hx := eq_of_lookup_withOuter x sc id hl1 hl
        refine ⟨by simp [Statement.assigns, hx], ?_⟩
        show (if sc.lookup id 0 = -1 then _ else _) = _
        rw [if_pos hl, hx]
      · left
        refine ⟨?_, rfl⟩
        show (if sc.lookup id 0 = -1 then _ else _) = _
        rw [if_neg hl]
    · right
      rw [firstError_of_undeclared x _ hv]
      refine undeclaredError_mono x ?_ hv
      intro h0; simp [Statement.assigns, h0]
  | .ReturnStatement e, sc => by
    intro h
    have h1 := analyzeExpression_sim x e sc
    simp only [analyzeStatement] at h ⊢
    rw [analyzeExpression_scope, analyzeExpression_scope]
    exact (h1 h).imp (fun h0 => ⟨h0, rfl⟩) (fun h0 => h0)
  | .ExpressionStatement e, sc => by
    intro h
    have h1 := analyzeExpression_sim x e sc
    simp only [analyzeStatement] at h ⊢
    rw [analyzeExpression_scope, analyzeExpression_scope]
    exact (h1 h).imp (fun h0 => ⟨h0, rfl⟩) (fun h0 => h0)
theorem analyzeStatements_sim (x : String) : ∀ (ss : List Statement) (sc : definitionScope),
    (analyzeStatements (sc.withOuter x) ss).err = none →
      ((analyzeStatements sc ss).err = none
          ∧ (analyzeStatements (sc.withOuter x) ss).scope
            = (analyzeStatements sc ss).scope.withOuter x)
        ∨ undeclaredError x (assignsStatements x ss) (analyzeStatements sc ss).err
  | [], sc => fun _ => Or.inl ⟨rfl, rfl⟩
  | s :: ss, sc => by
    intro h
    have h1 := analyzeStatement_sim x s sc
    have h2 := analyzeStatements_sim x ss (analyzeStatement sc s).scope
    have h0 := h
    rw [err_statements, firstError_eq_none] at h0
    rcases h1 h0.1 with hs | hs
    · have h3 := h0.2
      rw [hs.2] at h3
      rcases h2 h3 with hss | hss
      · left
        rw [err_statements, hs.1, scope_statements _ s ss h0.1, scope_statements _ s ss hs.1,
          hs.2]
        exact ⟨hss.1, hss.2⟩
      · right
        rw [err_statements, hs.1]
        show undeclaredError x _ (analyzeStatements (analyzeStatement sc s).scope ss).err
        refine undeclaredError_mono x ?_ hss
        intro h0; simp [assignsStatements, h0]
    · right
      rw [err_statements, firstError_of_undeclared x _ hs]
      refine undeclaredError_mono x ?_ hs
      intro h0; simp [assignsStatements, h0]
theorem analyzeElseBranch_sim (x : String) : ∀ (s : Option Statement) (sc : definitionScope),
    (analyzeElseBranch (sc.withOuter x) s).err = none →
      ((analyzeElseBranch sc s).err = none
          ∧ (analyzeElseBranch (sc.withOuter x) s).scope
            = (analyzeElseBranch sc s).scope.withOuter x)
        ∨ undeclaredError x (assignsElseBranch x s) (analyzeElseBranch sc s).err
  | none, sc => fun _ => Or.inl ⟨rfl, rfl⟩
  | some s, sc => by
    intro h
    simp only [analyzeElseBranch] at h ⊢
    exact analyzeStatement_sim x s sc h
end

end semantics

namespace semantics

/-! ## The value of a declaration -/

theorem mem_of_distanceIn_zero (sc : definitionScope) (x : String)
    (h : distanceIn sc.chain x = some 0) : x ∈ sc.definitions := by
  rw [chain_eq] at h
  by_contra hx
  simp only [distanceIn, hx, if_false] at h
  cases hd : distanceIn (match sc.parent with
    | none => []
    | some p => p.chain) x with
  | none => rw [hd] at h; simp at h
  | some k => rw [hd] at h; simp at h

/-- A declaration analysed without error has had its value analysed without
error, in a scope that did not hold the name. -/
theorem declaration_ok (sc : definitionScope) (x : String) (e : Expression)
    (h : (analyzeStatement sc (.DeclarationStatement x e)).err = none) :
    (analyzeExpression sc e).err = none ∧ x ∉ sc.definitions := by
  rw [err_declaration, firstError_eq_none] at h
  refine ⟨h.1, fun hm => ?_⟩
  have := h.2
  rw [(has_iff _ _).2 hm] at this
  simp at this

/-- Amended C11: in a declaration `x := e` the value is analysed in the scope as
it is before `x` is registered. A lookup of `x` in `e` is free when nothing
inside `e` binds it: it is not inside a function literal of `e` that has `x` as
a parameter, and in no block of `e` around it does a declaration of `x` come
before it. (1) The value the statement leaves is the value analysed in that
scope; and whenever the declaration is made (the statement returns no error)
and `e` has a free lookup of `x`, `x` is declared further out, at a distance
`d >= 1`, and each free lookup carries `d` plus the number of block scopes
opened inside `e` around it: the distance of that outer declaration, never that
of the scope in which `x` is being registered. (2) When no scope of the chain
declares `x`: the statement `x := x` returns the undeclared-lookup error naming
`x`; and every declaration of `x` whose value has a free lookup of `x` returns
an error and registers nothing, the error being, when `e` is analysed without
error once `x` is declared outside every scope of the chain (nothing else in
`e` fails), the undeclared-lookup error naming `x` or, possible only if `e`
has an assignment to `x`, the undeclared-assignment error naming `x`. (3) When
`x` is declared only further out, at distance `d >= 1`: on every run, failing
or not, the analysis writes nothing on a free lookup of `x` but `d` plus the
number of block scopes opened inside `e` around it (each carries that or the
index it had); and when the value is analysed without error, the statement
returns no error, every free lookup of `x` carries `d` plus that number (`d`
for a lookup made in the scope of the statement), and `x` is then registered
in the current scope. -/
theorem C11_value_analysed_before_registration (sc : definitionScope) (x : String)
    (e : Expression) :
    ((analyzeStatement sc (.DeclarationStatement x e)).node
        = .DeclarationStatement x (analyzeExpression sc e).node ∧
      ((analyzeStatement sc (.DeclarationStatement x e)).err = none →
        Expression.hasFreeLookup x e = true →
        ∃ d : Nat, 1 ≤ d ∧ distanceIn sc.chain x = some d ∧
          Expression.freeLookupsAre x (d : Int) (analyzeExpression sc e).node = true)) ∧
    ((∀ d ∈ sc.chain, x ∉ d) →
      (∀ idx : Int, analyzeStatement sc (.DeclarationStatement x (.LookupExpression x idx))
        = ⟨sc, .DeclarationStatement x (.LookupExpression x idx),
            some (x ++ " must be declared before usage")⟩) ∧
      (Expression.hasFreeLookup x e = true →
        (analyzeStatement sc (.DeclarationStatement x e)).err ≠ none ∧
        (analyzeStatement sc (.DeclarationStatement x e)).scope = sc ∧
        ((analyzeExpression (sc.withOuter x) e).err = none →
          undeclaredError x (Expression.assigns x e)
            (analyzeStatement sc (.DeclarationStatement x e)).err))) ∧
    (∀ d : Nat, 1 ≤ d → distanceIn sc.chain x = some d →
      (∀ ks : List Int, Expression.freeLookupsIn x (d : Int) ks e = true →
        Expression.freeLookupsIn x (d : Int) ks (analyzeExpression sc e).node = true) ∧
      ((analyzeExpression sc e).err = none →
        analyzeStatement sc (.DeclarationStatement x e)
            = ⟨sc.declare x, .DeclarationStatement x (analyzeExpression sc e).node, none⟩ ∧
          Expression.freeLookupsAre x (d : Int) (analyzeExpression sc e).node = true ∧
          Expression.directLookupsAre x (d : Int) (analyzeExpression sc e).node = true ∧
          x ∈ (sc.declare x).definitions)) := by
  refine ⟨⟨?_, ?_⟩, ?_, ?_⟩
  · have hsc := analyzeExpression_scope e sc
    simp only [analyzeStatement]
    split
    · rfl
    · split <;> rfl
  · intro h hfree
    obtain ⟨he, hx⟩ := declaration_ok sc x e h
    cases hd : distanceIn sc.chain x with
    | none =>
      rw [analyzeExpression_noFree x e sc hd he] at hfree
      exact absurd hfree (by simp)
    | some d =>
      refine ⟨d, ?_, rfl, analyzeExpression_free x e sc d hd he⟩
      cases d with
      | zero => exact absurd (mem_of_distanceIn_zero sc x hd) hx
      | succ k => omega
  · intro hx
    have hd := (distanceIn_eq_none_iff sc.chain x).2 hx
    have hl := (lookup_eq_neg_one_iff sc x).2 hx
    constructor
    · intro idx
      have he : (analyzeExpression sc (.LookupExpression x idx)).err
          = some (x ++ " must be declared before usage") := by
        simp [analyzeExpression, hl]
      rw [declaration_of_value_error sc x _ _ he]
      simp [analyzeExpression, hl]
    · intro hfree
      cases he : (analyzeExpression sc e).err with
      | none =>
        rw [analyzeExpression_noFree x e sc hd he] at hfree
        exact absurd hfree (by simp)
      | some err =>
        rw [declaration_of_value_error sc x e err he]
        refine ⟨by simp, rfl, fun hrest => ?_⟩
        rcases analyzeExpression_sim x e sc hrest with h0 | h0
        · rw [he] at h0
          exact absurd h0 (by simp)
        · rw [he] at h0
          exact h0
  · intro d hd hdist
    refine ⟨fun ks hks => analyzeExpression_freeStored x ks e sc d hdist hks, ?_⟩
    intro he
    have hx : x ∉ sc.definitions := by
      intro hmem
      rw [distanceIn_chain_of_mem sc x hmem] at hdist
      have := Option.some.inj hdist
      omega
    have hl : sc.lookup x 0 = (d : Int) := by
      rw [lookup_eq, hdist]
      simp
    refine ⟨declaration_of_not_mem sc x e hx he, analyzeExpression_free x e sc d hdist he, ?_, ?_⟩
    · rw [← hl]
      exact analyzeExpression_direct x e sc he
    · rw [declare_definitions, List.mem_insert_iff]
      exact Or.inl rfl

theorem C11_value_analysed_before_registration_witness :
    (AnalyzeLookups (programSelfDeclaration 7)).err = some "x must be declared before usage" ∧
    analyzeStatement (.mk [] none) (.DeclarationStatement "x" (.LookupExpression "x" 7))
      = ⟨.mk [] none, .DeclarationStatement "x" (.LookupExpression "x" 7),
          some "x must be declared before usage"⟩ ∧
    undeclaredError "f" false
      (analyzeStatement (.mk [] none) (.DeclarationStatement "f" (.Function ["n"]
        [.ExpressionStatement
          (.CallExpression (.LookupExpression "f" 7) [.LookupExpression "n" 7])]))).err ∧
    analyzeStatement (.mk [] (some (.mk ["x"] none)))
        (.DeclarationStatement "x" (.Function []
          [.ExpressionStatement (.LookupExpression "x" 7),
           .IfStatement none [.ExpressionStatement (.LookupExpression "x" 7)] none]))
      = ⟨.mk ["x"] (some (.mk ["x"] none)),
          .DeclarationStatement "x" (.Function []
            [.ExpressionStatement (.LookupExpression "x" 2),
             .IfStatement none [.ExpressionStatement (.LookupExpression "x" 3)] none]),
          none⟩ :=
  ⟨rfl,
    ((C11_value_analysed_before_registration (.mk [] none) "x" (.Other "1")).2.1
      (by decide)).1 7,
    (((C11_value_analysed_before_registration (.mk [] none) "f" (.Function ["n"]
        [.ExpressionStatement
          (.CallExpression (.LookupExpression "f" 7) [.LookupExpression "n" 7])])).2.1
      (by decide)).2 rfl).2.2 rfl,
    (((C11_value_analysed_before_registration (.mk [] (some (.mk ["x"] none))) "x"
      (.Function []
        [.ExpressionStatement (.LookupExpression "x" 7),
         .IfStatement none [.ExpressionStatement (.LookupExpression "x" 7)] none])).2.2
      1 (le_refl 1) (by decide)).2 rfl).1⟩

/-- C11 as stated fails on lookups of `x` inside a function literal of the
value, and where the value returns another error. (a) At top level, where no
scope declares `x`, `x := fn(x) { x }` returns no error: the lookup finds the
parameter. (b) With `x` declared only one scope out (distance 1),
`x := fn() { x }` stores 2 on the lookup, not 1. (c) At top level,
`x := fn() { y := 1; y := 2; x }` fails with the redeclaration error of `y` and
`x := fn() { x = 1; x }` with the undeclared-assignment error, not the
undeclared-lookup error. (d) With `x` declared one scope out, `x := x + z`
stores 1 on the lookup of `x` and fails on `z`: `x` is not registered. -/
theorem C11_counterexample_lookup_inside_function :
    analyzeStatement (.mk [] none)
        (.DeclarationStatement "x" (.Function ["x"]
          [.ExpressionStatement (.LookupExpression "x" 7)]))
      = ⟨.mk ["x"] none,
          .DeclarationStatement "x" (.Function ["x"]
            [.ExpressionStatement (.LookupExpression "x" 0)]),
          none⟩ ∧
    (distanceIn (definitionScope.chain (.mk [] (some (.mk ["x"] none)))) "x" = some 1 ∧
      analyzeStatement (.mk [] (some (.mk ["x"] none)))
          (.DeclarationStatement "x" (.Function []
            [.ExpressionStatement (.LookupExpression "x" 7)]))
        = ⟨.mk ["x"] (some (.mk ["x"] none)),
            .DeclarationStatement "x" (.Function []
              [.ExpressionStatement (.LookupExpression "x" 2)]),
            none⟩) ∧
    ((analyzeStatement (.mk [] none)
        (.DeclarationStatement "x" (.Function []
          [.DeclarationStatement "y" (.Other "1"), .DeclarationStatement "y" (.Other "2"),
           .ExpressionStatement (.LookupExpression "x" 7)]))).err
        = some "Redeclaration of y in same scope" ∧
      (analyzeStatement (.mk [] none)
        (.DeclarationStatement "x" (.Function []
          [.AssignmentStatement "x" (.Other "1") 7,
           .ExpressionStatement (.LookupExpression "x" 7)]))).err
        = some "x must be declared before assignment") ∧
    analyzeStatement (.mk [] (some (.mk ["x"] none)))
        (.DeclarationStatement "x"
          (.BinaryOperationExpression (.LookupExpression "x" 7) (.LookupExpression "z" 7)))
      = ⟨.mk [] (some (.mk ["x"] none)),
          .DeclarationStatement "x"
            (.BinaryOperationExpression (.LookupExpression "x" 1) (.LookupExpression "z" 7)),
          some "z must be declared before usage"⟩ :=
  ⟨rfl, ⟨rfl, rfl⟩, ⟨rfl, rfl⟩, rfl⟩

end semantics
